import Mathlib

/-! # Flaky-test reporter: issue lifecycle (`tools/flaky-test-reporter/github_issue.go`)

A shallow embedding of the Go code that files, updates, closes and reopens
GitHub issues for flaky tests, and of the code that finds the JSON reports
of a build (`tools/flaky-test-reporter/jsonreport/jsonreport.go`).

Conventions of the embedding:

* a Go `string` is a list of characters (`Str`), a string constant is the
  list of characters of the Lean literal with the same text;
* `fmt.Sprintf` with a constant format is the concatenation of the pieces
  of the format with the arguments;
* a call of `regexp.MustCompile(re).FindStringSubmatch(s)` is a function
  from `s` to the optional text of capture group 1 (`none` is Go's `nil`
  result, `some c` a result of length 2 whose element 1 is `c`);
* tracker calls are recorded in a log (`List Call`); the tracker answers
  each call from the log of the calls made before it;
* a `prow.Job` and a `prow.Build` are the values that their methods return;
  the clock is a parameter.
-/

namespace FlakyReporter

/-- A Go string, as its sequence of characters. -/
abbrev Str := List Char

/-! ## Library functions (`strings`, `regexp`, `path`) -/

/-- `strings.Contains(s, sub)`: `sub` occurs in `s` as a contiguous block. -/
def stringsContains : Str → Str → Bool
  | [], sub => sub.isEmpty
  | c :: cs, sub => sub.isPrefixOf (c :: cs) || stringsContains cs sub

/-- `strings.Split(s, "\n")`, with the separator as a character: the pieces
of `s` between the separators, always at least one piece. -/
def stringsSplit (sep : Char) : Str → List Str
  | [] => [[]]
  | c :: cs =>
    if c = sep then [] :: stringsSplit sep cs
    else
      match stringsSplit sep cs with
      | [] => [[c]]
      | p :: ps => (c :: p) :: ps

/-- `strings.Join(elems, sep)`. -/
def stringsJoin : List Str → Str → Str
  | [], _ => []
  | [e], _ => e
  | e :: e2 :: es, sep => e ++ sep ++ stringsJoin (e2 :: es) sep

/-- The lazy group `(.*?)` followed by the literal `post`, tried at the
start of `s`: the shortest run of characters after which `post` follows.
Without the flag `(?s)` (`dotAll = false`) the dot does not match a line
break, so the run cannot cross one. -/
def lazyCapture (post : Str) (dotAll : Bool) : Str → Option Str
  | [] => if post.isPrefixOf [] then some [] else none
  | c :: cs =>
    if post.isPrefixOf (c :: cs) then some []
    else if !dotAll && c == '\n' then none
    else (lazyCapture post dotAll cs).map (fun x => c :: x)

/-- `FindStringSubmatch` for a regular expression of the shape
`pre(.*?)post` with literal `pre` and `post`: the leftmost position at
which the expression matches, and there the text of the group. -/
def findLazyBetween (pre post : Str) (dotAll : Bool) : Str → Option Str
  | [] => if pre.isPrefixOf [] then lazyCapture post dotAll [] else none
  | c :: cs =>
    match (if pre.isPrefixOf (c :: cs) then
             lazyCapture post dotAll ((c :: cs).drop pre.length) else none) with
    | some x => some x
    | none => findLazyBetween pre post dotAll cs

/-- The character class `[a-zA-Z]`. -/
def isAsciiLetter (c : Char) : Bool :=
  ('a'.toNat ≤ c.toNat && c.toNat ≤ 'z'.toNat) || ('A'.toNat ≤ c.toNat && c.toNat ≤ 'Z'.toNat)

/-- `FindStringSubmatch` for a regular expression of the shape
`pre([a-zA-Z]*)` with literal `pre`: the leftmost occurrence of `pre`, and
the longest run of letters that follows it. -/
def findLettersAfter (pre : Str) : Str → Option Str
  | [] => if pre.isPrefixOf [] then some [] else none
  | c :: cs =>
    if pre.isPrefixOf (c :: cs) then
      some (((c :: cs).drop pre.length).takeWhile isAsciiLetter)
    else findLettersAfter pre cs

/-- The second result of `path.Split(p)`: what follows the last slash. -/
def pathSplitFile (p : Str) : Str :=
  (p.reverse.takeWhile (fun c => c != '/')).reverse

/-! ## Constants of `github_issue.go` -/

def flakyLabel : Str := "auto:flaky".toList
def testIdentifierToken : Str := "DONT_MODIFY_TEST_IDENTIFIER".toList
def latestStatusToken : Str := "Latest result for this test: ".toList
def beforeHistoryToken : Str := "<!------Latest History of Up To 10 runs------>".toList
def afterHistoryToken : Str := "<!------End of History------>".toList
def jobLogsURL : Str := "https://prow.knative.dev/view/gcs/knative-prow/logs/".toList
def daysConsiderOld : Nat := 30
def maxHistoryEntries : Nat := 10

def passedUnicode : Str := "&#10004;".toList
def failedUnicode : Str := "&#10006;".toList
def skippedUnicode : Str := "&#9723;".toList

/-- `fmt.Sprintf(collapseTemplate, summary, body)`. -/
def collapseTemplate (summary body : Str) : Str :=
  "\n<details>\n\t<summary>".toList ++ summary ++ "</summary><p>\n\n".toList ++ body
    ++ "\n</p></details>".toList

/-- `fmt.Sprintf(issueBodyTemplate, testName, repoName, identifier)`. -/
def issueBodyTemplate (testName repoName identifier : Str) : Str :=
  "\n### Auto-generated issue tracking flakiness of test\n* **Test name**: ".toList ++ testName
    ++ "\n* **Repository name**: ".toList ++ repoName
    ++ "\n\n<!-------------End of issue body, Please don't edit below this line------------->\n<!--".toList
    ++ identifier ++ "-->".toList

/-- The literal that the escaped `\[%[1]s\]` of `reTestIdentifier`, and the
`[%[1]s]` of `testIdentifierPattern`, stand for. -/
def testIdentifierMark : Str := '[' :: (testIdentifierToken ++ [']'])

/-- `fmt.Sprintf(testIdentifierPattern, identity)`. -/
def testIdentifierPattern (identity : Str) : Str :=
  testIdentifierMark ++ identity ++ testIdentifierMark

/-- `regexp.MustCompile(reTestIdentifier).FindStringSubmatch(s)`, group 1. -/
def reTestIdentifier (s : Str) : Option Str :=
  findLazyBetween testIdentifierMark testIdentifierMark false s

/-- `fmt.Sprintf(historyPattern, history)`. -/
def historyPattern (history : Str) : Str :=
  '\n' :: (beforeHistoryToken ++ history ++ afterHistoryToken ++ ('\n' :: passedUnicode)
    ++ " Passed\t".toList ++ failedUnicode ++ " Failed\t".toList ++ skippedUnicode
    ++ " Skipped\n".toList)

/-- `regexp.MustCompile(reHistory).FindStringSubmatch(s)`, group 1; the
expression starts with `(?s)`. -/
def reHistory (s : Str) : Option Str :=
  findLazyBetween beforeHistoryToken afterHistoryToken true s

/-- `fmt.Sprintf(latestStatusPattern, status)`. -/
def latestStatusPattern (status : Str) : Str :=
  latestStatusToken ++ status

/-- `regexp.MustCompile(reLastestStatus).FindStringSubmatch(s)`, group 1. -/
def reLastestStatus (s : Str) : Option Str :=
  findLettersAfter latestStatusToken s

/-- `getIdentityForTest`: `fmt.Sprintf("'%s' in repo '%s'", testFullName, repoName)`. -/
def getIdentityForTest (testFullName repoName : Str) : Str :=
  '\'' :: (testFullName ++ "' in repo '".toList ++ repoName ++ ['\''])

/-! ## Data model -/

/-- A Go `error`: `none` is `nil`, `some msg` an error with that message. -/
abbrev GoError := Option Str

/-- `github.Issue`, the fields that the code reads. A field that the code
dereferences without a nil check (`Number`, `URL`, `RepositoryURL`) is
present; `State` and `Body` hold what `GetState()` and `GetBody()` return;
the two timestamps are the pointers that the code compares with `nil`, a
`time.Time` being an instant on the integer time line. -/
structure Issue where
  Number : Int
  URL : Str
  RepositoryURL : Str
  State : Str
  Body : Str
  CreatedAt : Option Int
  ClosedAt : Option Int
  deriving DecidableEq, Repr

/-- The account that wrote a comment: `*comment.User.ID`. -/
structure User where
  ID : Int
  deriving DecidableEq, Repr

/-- `github.IssueComment`, the fields that the code reads. -/
structure IssueComment where
  ID : Int
  Body : Str
  User : User
  CreatedAt : Option Int
  deriving DecidableEq, Repr

/-- `flakyIssue`: an issue with its recovered identity and its pinned comment. -/
structure flakyIssue where
  issue : Issue
  identity : Str
  comment : IssueComment
  deriving DecidableEq, Repr

/-- `TestStat` (declared in `result.go`): the build IDs in which the test
passed, was skipped, failed. -/
structure TestStat where
  Passed : List Int
  Skipped : List Int
  Failed : List Int
  deriving DecidableEq, Repr

/-- `junit.TestStatusEnum`, as far as `createHistoryUnicode` tells its
values apart: `Passed`, `Failed`, and the rest (the `default` branch). -/
inductive TestStatusEnum where
  | Passed
  | Failed
  | Skipped
  deriving DecidableEq, Repr

/-- `JobConfig`, the fields that the code reads. -/
structure JobConfig where
  Name : Str
  Repo : Str
  IssueRepo : Str
  deriving DecidableEq, Repr

/-- `RepoData` (declared in `result.go`): `TestStats` is the map from test
name to `TestStat`, as its list of entries. -/
structure RepoData where
  Config : JobConfig
  BuildIDs : List Int
  LastBuildStartTime : Int
  TestStats : List (Str × TestStat)

/-- Modelled from the spec: `ghutil.IssueOpenState`, the tracker's state of
an open ticket (package `ghutil` is not among the sources), with the value
of the GitHub API. The proofs use only that the two states differ. -/
def IssueOpenState : Str := "open".toList

/-- Modelled from the spec: `ghutil.IssueCloseState`, the tracker's state of
a closed ticket (package `ghutil` is not among the sources), with the value
of the GitHub API. -/
def IssueCloseState : Str := "closed".toList

/-- What `github_issue.go` uses and does not declare: the variable `org`,
the status constants and the methods of `TestStat` and `RepoData` from the
other files of package `main`, and `time.Unix(t, 0).String()`;
`combineErrors` and `flakyRateAboveThreshold` from the other files;
`flakyRatePercent rd` for the text `fmt.Sprintf("%.2f", getFlakyRate(rd)*100)`
of a floating-point number; `timeConsiderOld` for the value that
`time.Now().AddDate(0, 0, -daysConsiderOld)` had at start-up. -/
structure Env where
  org : Str
  passedStatus : Str
  flakyStatus : Str
  failedStatus : Str
  lackDataStatus : Str
  isPassed : TestStat → Bool
  isFlaky : TestStat → Bool
  getTestStatus : TestStat → Str
  getResultSliceForTest : RepoData → Str → List TestStatusEnum
  timeString : Int → Str
  combineErrors : List Str → GoError
  flakyRateAboveThreshold : RepoData → Bool
  flakyRatePercent : RepoData → Str
  timeConsiderOld : Int

/-! ## The tracker -/

/-- A call of an operation of `ghutil.GithubOperations`, with its arguments. -/
inductive Call where
  | ListRepos (org : Str)
  | ListIssuesByRepo (org repo : Str) (labels : List Str)
  | ListComments (org repo : Str) (issueNumber : Int)
  | CreateIssue (org repo title body : Str)
  | CreateComment (org repo : Str) (issueNumber : Int) (body : Str)
  | EditComment (org repo : Str) (commentID : Int) (body : Str)
  | AddLabelsToIssue (org repo : Str) (issueNumber : Int) (labels : List Str)
  | RemoveLabelForIssue (org repo : Str) (issueNumber : Int) (label : Str)
  | CloseIssue (org repo : Str) (issueNumber : Int)
  | ReopenIssue (org repo : Str) (issueNumber : Int)
  deriving DecidableEq, Repr

/-- `ghutil.GithubOperations`: each operation answers from the calls made so
far (its first argument) and its own arguments. `CreateComment` returns an
error only, the comment it also returns in Go is not used by the code. -/
structure GithubOperations where
  ListRepos : List Call → Str → Except Str (List Str)
  ListIssuesByRepo : List Call → Str → Str → List Str → Except Str (List Issue)
  ListComments : List Call → Str → Str → Int → Except Str (List IssueComment)
  CreateIssue : List Call → Str → Str → Str → Str → Except Str Issue
  CreateComment : List Call → Str → Str → Int → Str → GoError
  EditComment : List Call → Str → Str → Int → Str → GoError
  AddLabelsToIssue : List Call → Str → Str → Int → List Str → GoError
  RemoveLabelForIssue : List Call → Str → Str → Int → Str → GoError
  CloseIssue : List Call → Str → Str → Int → GoError
  ReopenIssue : List Call → Str → Str → Int → GoError

/-- `GithubIssue`: the tool's own account and the tracker client. -/
structure GithubIssue where
  user : User
  client : GithubOperations

/-- A computation that calls the tracker: from the log of the calls made so
far to its result and the extended log. -/
abbrev Tracker (α : Type) := List Call → α × List Call

def GithubIssue.EditComment (gi : GithubIssue) (org repo : Str) (commentID : Int)
    (body : Str) : Tracker GoError := fun log =>
  (gi.client.EditComment log org repo commentID body,
    log ++ [Call.EditComment org repo commentID body])

def GithubIssue.CreateComment (gi : GithubIssue) (org repo : Str) (issueNumber : Int)
    (body : Str) : Tracker GoError := fun log =>
  (gi.client.CreateComment log org repo issueNumber body,
    log ++ [Call.CreateComment org repo issueNumber body])

def GithubIssue.CloseIssue (gi : GithubIssue) (org repo : Str) (issueNumber : Int) :
    Tracker GoError := fun log =>
  (gi.client.CloseIssue log org repo issueNumber, log ++ [Call.CloseIssue org repo issueNumber])

def GithubIssue.ReopenIssue (gi : GithubIssue) (org repo : Str) (issueNumber : Int) :
    Tracker GoError := fun log =>
  (gi.client.ReopenIssue log org repo issueNumber, log ++ [Call.ReopenIssue org repo issueNumber])

/-- Modelled from the spec: the executor `run(message, call, dryrun)` of
package `main`, which is not among the sources: "in dry-run mode the
executor logs the intended action and returns success without performing
it"; otherwise it performs the call and returns its error. -/
def run (_message : Str) (call : Tracker GoError) (dryrun : Bool) : Tracker GoError :=
  fun log => if dryrun then (none, log) else call log

/-- The calls that the computation `t` makes when started with the log `log`. -/
def callsMade {α : Type} (t : Tracker α) (log : List Call) : List Call :=
  (t log).2.drop log.length

/-- Every call of the four operations that `updateIssue` uses succeeds. -/
structure MutationsSucceed (client : GithubOperations) : Prop where
  editComment : ∀ log org repo id body, client.EditComment log org repo id body = none
  createComment : ∀ log org repo n body, client.CreateComment log org repo n body = none
  closeIssue : ∀ log org repo n, client.CloseIssue log org repo n = none
  reopenIssue : ∀ log org repo n, client.ReopenIssue log org repo n = none

/-- The status recorded in the pinned comment is one of the four statuses. -/
def validRecordedStatus (env : Env) (fi : flakyIssue) : Prop :=
  ∃ status, reLastestStatus fi.comment.Body = some status ∧
    status ∈ [env.passedStatus, env.flakyStatus, env.failedStatus, env.lackDataStatus]

/-- The status recorded in the pinned comment is `passedStatus`: the case in
which `updateIssue` sets `passedLastTime`. -/
def passedLast (env : Env) (fi : flakyIssue) : Bool :=
  decide (reLastestStatus fi.comment.Body = some env.passedStatus)

/-! ## Functions of `github_issue.go` -/

/-- `getRepoFromIssue`: the last element of the issue's repository URL. -/
def getRepoFromIssue (issue : Issue) : Str :=
  pathSplitFile issue.RepositoryURL

/-- `prependComment`: the old comment folded into a collapsible block, under
the new comment. -/
def prependComment (oldComment newComment : Str) : Str :=
  let oldComment :=
    if oldComment ≠ [] then collapseTemplate "Click to see older results".toList oldComment
    else oldComment
  newComment ++ "\n\n".toList ++ oldComment

/-- The call with which `updateIssue` edits the pinned comment. -/
def editCall (env : Env) (fi : flakyIssue) (newComment : Str) : Call :=
  Call.EditComment env.org (getRepoFromIssue fi.issue) fi.comment.ID
    (prependComment fi.comment.Body newComment)

/-- The calls with which `updateIssue` closes an issue. -/
def closeCalls (env : Env) (fi : flakyIssue) : List Call :=
  [Call.CloseIssue env.org (getRepoFromIssue fi.issue) fi.issue.Number,
   Call.CreateComment env.org (getRepoFromIssue fi.issue) fi.issue.Number
     "Closing issue: this test has passed in latest 2 scans".toList]

/-- The calls with which `updateIssue` reopens an issue. -/
def reopenCalls (env : Env) (fi : flakyIssue) : List Call :=
  [Call.ReopenIssue env.org (getRepoFromIssue fi.issue) fi.issue.Number,
   Call.CreateComment env.org (getRepoFromIssue fi.issue) fi.issue.Number
     "Reopening issue: this test is flaky".toList]

/-- The comment that `updateIssue` posts when it closes an issue (its
variable `closeComment`). -/
def closeComment : Str := "Closing issue: this test has passed in latest 2 scans".toList

/-- The comment that `updateIssue` posts when it reopens an issue (its
variable `openComment`). -/
def openComment : Str := "Reopening issue: this test is flaky".toList

/-- `updateIssue`, lines 205-216: the value of `passedLastTime` from the
status recorded in the pinned comment, or the error of an unknown status. -/
def passedLastTime (env : Env) (fi : flakyIssue) : Except Str Bool :=
  match reLastestStatus fi.comment.Body with
  | some status =>
    if status = env.passedStatus then .ok true
    else if status = env.flakyStatus ∨ status = env.failedStatus
        ∨ status = env.lackDataStatus then .ok false
    else .error ("invalid test status code found from issue '".toList ++ fi.issue.URL
      ++ "'".toList)
  | none => .ok false

/-- `updateIssue`, lines 218-228: update the comment unless the test passed
and the issue is closed. -/
def updateComment (env : Env) (gi : GithubIssue) (fi : flakyIssue) (newComment : Str)
    (ts : TestStat) (dryrun : Bool) : Tracker GoError := fun log =>
  if !env.isPassed ts || fi.issue.State = IssueOpenState then
    match run "updating comment".toList
        (gi.EditComment env.org (getRepoFromIssue fi.issue) fi.comment.ID
          (prependComment fi.comment.Body newComment))
        dryrun log with
    | (some err, log) =>
      (some ("failed updating comments for issue '".toList ++ fi.issue.URL ++ "': '".toList
        ++ err ++ "'".toList), log)
    | (none, log) => (none, log)
  else (none, log)

/-- `updateIssue`, lines 230-265: close an open issue of a test that passed
twice in a row, reopen a closed issue of a flaky test. -/
def closeOrReopen (env : Env) (gi : GithubIssue) (fi : flakyIssue) (ts : TestStat)
    (passedLastTime dryrun : Bool) : Tracker GoError := fun log =>
  if env.isPassed ts then
    if fi.issue.State = IssueOpenState then
      if passedLastTime then
        match run "closing issue".toList
            (fun log =>
              match gi.CloseIssue env.org (getRepoFromIssue fi.issue) fi.issue.Number log with
              | (none, log) =>
                gi.CreateComment env.org (getRepoFromIssue fi.issue) fi.issue.Number
                  closeComment log
              | (some closeErr, log) => (some closeErr, log))
            dryrun log with
        | (some err, log) =>
          (some ("failed closing issue '".toList ++ fi.issue.URL ++ "': '".toList ++ err
            ++ "'".toList), log)
        | (none, log) => (none, log)
      else (none, log)
    else (none, log)
  else if env.isFlaky ts then
    if fi.issue.State = IssueCloseState then
      match run "reopening issue".toList
          (fun log =>
            match gi.ReopenIssue env.org (getRepoFromIssue fi.issue) fi.issue.Number log with
            | (none, log) =>
              gi.CreateComment env.org (getRepoFromIssue fi.issue) fi.issue.Number
                openComment log
            | (some openErr, log) => (some openErr, log))
          dryrun log with
      | (some _, log) =>
        (some ("failed reopen issue: '".toList ++ fi.issue.URL ++ "'".toList), log)
      | (none, log) => (none, log)
    else (none, log)
  else (none, log)

/-- `updateIssue`: the three parts in sequence, each error returned at once. -/
def updateIssue (env : Env) (gi : GithubIssue) (fi : flakyIssue) (newComment : Str)
    (ts : TestStat) (dryrun : Bool) : Tracker GoError := fun log =>
  match passedLastTime env fi with
  | .error e => (some e, log)
  | .ok passedLastTime =>
    match updateComment env gi fi newComment ts dryrun log with
    | (some err, log) => (some err, log)
    | (none, log) => closeOrReopen env gi fi ts passedLastTime dryrun log

/-- The digit of `fmt.Sprintf("%d", …)` for a number below ten. -/
def digitChar : Nat → Char
  | 0 => '0'
  | 1 => '1'
  | 2 => '2'
  | 3 => '3'
  | 4 => '4'
  | 5 => '5'
  | 6 => '6'
  | 7 => '7'
  | 8 => '8'
  | _ => '9'

/-- The decimal digits of `n`; `fuel` bounds the number of digits. -/
def fmtNatAux : Nat → Nat → Str
  | 0, n => [digitChar (n % 10)]
  | fuel + 1, n =>
    if n < 10 then [digitChar n] else fmtNatAux fuel (n / 10) ++ [digitChar (n % 10)]

/-- `fmt.Sprintf("%d", n)` for an `int`. -/
def fmtInt (n : Int) : Str :=
  if n < 0 then '-' :: fmtNatAux n.natAbs n.natAbs else fmtNatAux n.natAbs n.natAbs

/-- The glyph of one build in the history line: the `switch` of
`createHistoryUnicode`. -/
def statusUnicode : TestStatusEnum → Str
  | .Passed => passedUnicode
  | .Failed => failedUnicode
  | .Skipped => skippedUnicode

/-- The loop of `createHistoryUnicode` over `rd.BuildIDs`, from index `i` on:
the text it appends to `currentUnicode`; `none` when `resultSlice[i]` is out
of range (a run-time panic). -/
def historyLinks (jobName : Str) (resultSlice : List TestStatusEnum) :
    Nat → List Int → Option Str
  | _, [] => some []
  | i, buildID :: rest =>
    match resultSlice.get? i with
    | none => none
    | some status =>
      let url := jobLogsURL ++ jobName ++ "/".toList ++ fmtInt buildID
      (historyLinks jobName resultSlice (i + 1) rest).map (fun more =>
        " [".toList ++ statusUnicode status ++ "](".toList ++ url ++ ")".toList ++ more)

/-- The text that `createHistoryUnicode` puts between the two history tokens
(its variable `res`), given the line of the current cycle. -/
def historyBlock (currentUnicode comment : Str) : Str :=
  let oldHistory := reHistory comment
  let res := '\n' :: currentUnicode
  match oldHistory with
  | some old =>
    let oldHistoryEntries := stringsSplit '\n' old
    let oldHistoryEntries :=
      if oldHistoryEntries.length ≥ maxHistoryEntries then
        oldHistoryEntries.take (maxHistoryEntries - 1)
      else oldHistoryEntries
    res ++ stringsJoin oldHistoryEntries "\n".toList
  | none => res ++ "\n".toList

/-- The line of the current cycle in `createHistoryUnicode` (its variable
`currentUnicode` after the loop). -/
def currentUnicode (env : Env) (rd : RepoData) (testFullName : Str) : Option Str :=
  (historyLinks rd.Config.Name (env.getResultSliceForTest rd testFullName) 0 rd.BuildIDs).map
    (fun links => env.timeString rd.LastBuildStartTime ++ ": ".toList ++ links)

/-- `createHistoryUnicode`; `none` when the function panics. -/
def createHistoryUnicode (env : Env) (rd : RepoData) (comment testFullName : Str) :
    Option Str :=
  (currentUnicode env rd testFullName).map (fun cur => historyPattern (historyBlock cur comment))

/-- The entries of a history block: its non-empty lines. -/
def historyEntries (block : Str) : List Str :=
  (stringsSplit '\n' block).filter (fun line => !line.isEmpty)

/-! ## Reconciliation of the tickets of one identity (`getFlakyIssues`) -/

/-- The `less` function that `getFlakyIssues` passes to `sort.Slice`: a
ticket with a creation time comes before one without, and an earlier
creation time before a later one. -/
def createdBefore (a b : flakyIssue) : Bool :=
  match a.issue.CreatedAt, b.issue.CreatedAt with
  | some ta, some tb => decide (ta < tb)
  | some _, none => true
  | none, _ => false

/-- The slice `issuesMap[k]` while the loop over `v` prunes it: `v` and
`issuesMap[k]` share one array (`backing`, of length `len(v)`), of which
`issuesMap[k]` is the first `len` elements. -/
structure PruneState where
  backing : List flakyIssue
  len : Nat
  deriving DecidableEq, Repr

/-- One iteration `i` of `for i, fi := range v` in the pruning branch:
`fi` is `v[i]`, read from the shared array; for a closed `fi`,
`append(issuesMap[k][:i], issuesMap[k][i+1:]...)` moves the elements
`i+1 .. len-1` of the array one place down, in place, and the slice gets one
shorter. `none` is the run-time panic of `issuesMap[k][i+1:]` when `i+1`
exceeds the length of the slice. -/
def pruneStep (st : PruneState) (i : Nat) : Option PruneState :=
  match st.backing.get? i with
  | none => none
  | some fi =>
    if IssueCloseState = fi.issue.State then
      if i + 1 ≤ st.len then
        some { backing := st.backing.take i ++ (st.backing.take st.len).drop (i + 1)
                            ++ st.backing.drop (st.len - 1),
               len := st.len - 1 }
      else none
    else some st

/-- The pruning loop of `getFlakyIssues` (lines 407-411) on the group `v`:
the value of `issuesMap[k]` after the loop, `none` when it panics. -/
def pruneClosed (v : List flakyIssue) : Option (List flakyIssue) :=
  ((List.range v.length).foldlM pruneStep { backing := v, len := v.length }).map
    (fun st => st.backing.take st.len)

/-- The body of the loop `for k, v := range issuesMap` of `getFlakyIssues`
(lines 395-419) for one group `v`: the value of `issuesMap[k]` after it,
`none` when it panics. `sortSlice less x` stands for `sort.Slice(x, less)`. -/
def reconcile (sortSlice : (flakyIssue → flakyIssue → Bool) → List flakyIssue → List flakyIssue)
    (v : List flakyIssue) : Option (List flakyIssue) :=
  let hasOpen := v.any (fun fi => fi.issue.State = IssueOpenState)
  let hasClosed := v.any (fun fi => fi.issue.State = IssueCloseState)
  if hasOpen && hasClosed then pruneClosed v
  else if !hasOpen then
    match sortSlice createdBefore v with
    | [] => none
    | first :: _ => some [first]
  else some v

/-! ## More of the tracker -/

def GithubIssue.ListRepos (gi : GithubIssue) (org : Str) : Tracker (Except Str (List Str)) :=
  fun log => (gi.client.ListRepos log org, log ++ [Call.ListRepos org])

def GithubIssue.ListIssuesByRepo (gi : GithubIssue) (org repo : Str) (labels : List Str) :
    Tracker (Except Str (List Issue)) := fun log =>
  (gi.client.ListIssuesByRepo log org repo labels, log ++ [Call.ListIssuesByRepo org repo labels])

def GithubIssue.ListComments (gi : GithubIssue) (org repo : Str) (issueNumber : Int) :
    Tracker (Except Str (List IssueComment)) := fun log =>
  (gi.client.ListComments log org repo issueNumber, log ++ [Call.ListComments org repo issueNumber])

def GithubIssue.CreateIssue (gi : GithubIssue) (org repo title body : Str) :
    Tracker (Except Str Issue) := fun log =>
  (gi.client.CreateIssue log org repo title body, log ++ [Call.CreateIssue org repo title body])

def GithubIssue.AddLabelsToIssue (gi : GithubIssue) (org repo : Str) (issueNumber : Int)
    (labels : List Str) : Tracker GoError := fun log =>
  (gi.client.AddLabelsToIssue log org repo issueNumber labels,
    log ++ [Call.AddLabelsToIssue org repo issueNumber labels])

def GithubIssue.RemoveLabelForIssue (gi : GithubIssue) (org repo : Str) (issueNumber : Int)
    (label : Str) : Tracker GoError := fun log =>
  (gi.client.RemoveLabelForIssue log org repo issueNumber label,
    log ++ [Call.RemoveLabelForIssue org repo issueNumber label])

/-- Modelled from the spec: the executor `run` of package `main` (see `run`)
for a closure that assigns variables of its caller or may panic. The result
`α` of the closure is all that the caller sees of it: the error, the
variables assigned, a panic; `idle` is what the caller sees when the closure
is not run: a nil error and nothing assigned. -/
def runCapturing {α : Type} (idle : α) (_message : Str) (call : Tracker α) (dryrun : Bool) :
    Tracker α :=
  fun log => if dryrun then (idle, log) else call log

/-! ## `createNewIssue` -/

/-- `createNewIssue`, lines 270-281: create the issue. The result is the
error of `run` and the value of the variable `newIssue` (`none` is `nil`). -/
def createIssueStep (gi : GithubIssue) (org repoForIssue title body : Str) (dryrun : Bool) :
    Tracker (GoError × Option Issue) :=
  runCapturing (none, none) "creating issue".toList
    (fun log =>
      match gi.CreateIssue org repoForIssue title body log with
      | (.ok issue, log) => ((none, some issue), log)
      | (.error err, log) => ((some err, none), log))
    dryrun

/-- `createNewIssue`, lines 283-292: add the comment. The result is the list
`addIdentityErrs`; `none` is the panic of `*newIssue.Number` or
`*newIssue.URL` on a nil `newIssue`. -/
def addCommentStep (gi : GithubIssue) (org repoForIssue comment : Str)
    (newIssue : Option Issue) (dryrun : Bool) : Tracker (Option (List Str)) := fun log =>
  match runCapturing (some none) "adding comment".toList
      (fun log =>
        match newIssue with
        | none => (none, log)
        | some issue =>
          match gi.CreateComment org repoForIssue issue.Number comment log with
          | (err, log) => (some err, log))
      dryrun log with
  | (none, log) => (none, log)
  | (some none, log) => (some [], log)
  | (some (some err), log) =>
    match newIssue with
    | none => (none, log)
    | some issue =>
      (some ["failed adding comment to issue '".toList ++ issue.URL ++ "', '".toList ++ err
        ++ "'".toList], log)

/-- `createNewIssue`, lines 293-303: add the flaky label when no error
occurred so far. -/
def addLabelStep (env : Env) (gi : GithubIssue) (org repoForIssue : Str)
    (newIssue : Option Issue) (addIdentityErrs : List Str) (dryrun : Bool) :
    Tracker (Option (List Str)) := fun log =>
  if env.combineErrors addIdentityErrs = none then
    match runCapturing (some none) "adding flaky label".toList
        (fun log =>
          match newIssue with
          | none => (none, log)
          | some issue =>
            match gi.AddLabelsToIssue org repoForIssue issue.Number [flakyLabel] log with
            | (err, log) => (some err, log))
        dryrun log with
    | (none, log) => (none, log)
    | (some none, log) => (some addIdentityErrs, log)
    | (some (some err), log) =>
      match newIssue with
      | none => (none, log)
      | some issue =>
        (some (addIdentityErrs ++ ["failed adding '".toList ++ flakyLabel
          ++ "' label to issue '".toList ++ issue.URL ++ "', '".toList ++ err ++ "'".toList]), log)
  else (some addIdentityErrs, log)

/-- `createNewIssue`, lines 308-325: when an error occurred, remove the
flaky label and close the issue. -/
def cleanupStep (env : Env) (gi : GithubIssue) (org repoForIssue : Str)
    (newIssue : Option Issue) (addIdentityErrs : List Str) (dryrun : Bool) :
    Tracker (Option (List Str)) := fun log =>
  if env.combineErrors addIdentityErrs ≠ none then
    match runCapturing (some none) "cleaning up invalid issue".toList
        (fun log =>
          match newIssue with
          | none => (none, log)
          | some issue =>
            match gi.RemoveLabelForIssue org repoForIssue issue.Number flakyLabel log with
            | (rlErr, log) =>
              match gi.CloseIssue org repoForIssue issue.Number log with
              | (cErr, log) => (some (env.combineErrors (rlErr.toList ++ cErr.toList)), log))
        dryrun log with
    | (none, log) => (none, log)
    | (some none, log) => (some addIdentityErrs, log)
    | (some (some err), log) => (some (addIdentityErrs ++ [err]), log)
  else (some addIdentityErrs, log)

/-- `createNewIssue`: the four parts in sequence; `none` is a panic,
`some err` the error returned. -/
def createNewIssue (env : Env) (gi : GithubIssue) (org repoForIssue title body comment : Str)
    (dryrun : Bool) : Tracker (Option GoError) := fun log =>
  match createIssueStep gi org repoForIssue title body dryrun log with
  | ((some _, _), log) =>
    (some (some ("failed creating issue '".toList ++ title ++ "' in repo '".toList
      ++ repoForIssue ++ "'".toList)), log)
  | ((none, newIssue), log) =>
    match addCommentStep gi org repoForIssue comment newIssue dryrun log with
    | (none, log) => (none, log)
    | (some addIdentityErrs, log) =>
      match addLabelStep env gi org repoForIssue newIssue addIdentityErrs dryrun log with
      | (none, log) => (none, log)
      | (some addIdentityErrs, log) =>
        match cleanupStep env gi org repoForIssue newIssue addIdentityErrs dryrun log with
        | (none, log) => (none, log)
        | (some addIdentityErrs, log) => (some (env.combineErrors addIdentityErrs), log)

/-- What the proofs use of `combineErrors`: it returns nil for no error and
an error otherwise. -/
structure CombinesErrors (env : Env) : Prop where
  nil : env.combineErrors [] = none
  cons : ∀ e es, env.combineErrors (e :: es) ≠ none

/-- The calls that follow `CreateIssue` in `createNewIssue`. -/
def isFollowUpCall : Call → Bool
  | .CreateComment _ _ _ _ => true
  | .AddLabelsToIssue _ _ _ _ => true
  | .RemoveLabelForIssue _ _ _ _ => true
  | .CloseIssue _ _ _ => true
  | _ => false

/-! ## `findExistingComment` and `getFlakyIssues` -/

/-- The `less` function that `findExistingComment` passes to `sort.Slice`: a
comment with a creation time comes before one without, and an earlier
creation time before a later one. -/
def commentCreatedBefore (a b : IssueComment) : Bool :=
  match a.CreatedAt, b.CreatedAt with
  | some ta, some tb => decide (ta < tb)
  | some _, none => true
  | none, _ => false

/-- The test of the loop of `findExistingComment`: the comment is written by
the tool's own account, and `reTestIdentifier` finds in its body a first
match that is the identity of the issue. -/
def isAutoComment (gi : GithubIssue) (issueIdentity : Str) (comment : IssueComment) : Bool :=
  decide (comment.User.ID = gi.user.ID)
    && decide (reTestIdentifier comment.Body = some issueIdentity)

/-- `findExistingComment`; `sortSlice less x` stands for `sort.Slice(x, less)`. -/
def findExistingComment
    (sortSlice : (IssueComment → IssueComment → Bool) → List IssueComment → List IssueComment)
    (env : Env) (gi : GithubIssue) (issue : Issue) (issueIdentity : Str) :
    Tracker (Except Str IssueComment) := fun log =>
  match gi.ListComments env.org (getRepoFromIssue issue) issue.Number log with
  | (.error err, log) => (.error err, log)
  | (.ok comments, log) =>
    let comments := sortSlice commentCreatedBefore comments
    match comments.find? (isAutoComment gi issueIdentity) with
    | some targetComment => (.ok targetComment, log)
    | none => (.error "no comment match".toList, log)

/-- The map `issuesMap` of `getFlakyIssues`, from identity to the tickets of
that identity, as the list of its entries. -/
abbrev IssuesMap := List (Str × List flakyIssue)

/-- The assignment `issuesMap[k] = append(issuesMap[k], fi)`. -/
def mapAppend : IssuesMap → Str → flakyIssue → IssuesMap
  | [], k, fi => [(k, [fi])]
  | (k2, v) :: rest, k, fi =>
    if k2 = k then (k2, v ++ [fi]) :: rest else (k2, v) :: mapAppend rest k fi

/-- The test of line 373: the issue was closed before `timeConsiderOld`. -/
def closedLongAgo (env : Env) (issue : Issue) : Bool :=
  match issue.ClosedAt with
  | some closedAt => decide (closedAt < env.timeConsiderOld)
  | none => false

/-- The body of the loop over the issues of one repository in
`getFlakyIssues` (lines 372-389). -/
def indexIssue
    (sortSlice : (IssueComment → IssueComment → Bool) → List IssueComment → List IssueComment)
    (env : Env) (gi : GithubIssue) (issuesMap : IssuesMap) (issue : Issue) :
    Tracker (Except Str IssuesMap) := fun log =>
  if closedLongAgo env issue then (.ok issuesMap, log)
  else
    match reTestIdentifier issue.Body with
    | none => (.error "cannot get test identifier from auto flaky issue '<nil>'".toList, log)
    | some issueIdentity =>
      match findExistingComment sortSlice env gi issue issueIdentity log with
      | (.error err, log) =>
        (.error ("cannot find auto comment for issue '".toList ++ issue.URL ++ "': '".toList
          ++ err ++ "'".toList), log)
      | (.ok autoComment, log) =>
        (.ok (mapAppend issuesMap issueIdentity
          { issue := issue, identity := issueIdentity, comment := autoComment }), log)

/-- The loop over the issues of one repository (lines 372-389). -/
def indexIssues
    (sortSlice : (IssueComment → IssueComment → Bool) → List IssueComment → List IssueComment)
    (env : Env) (gi : GithubIssue) : IssuesMap → List Issue → Tracker (Except Str IssuesMap)
  | issuesMap, [] => fun log => (.ok issuesMap, log)
  | issuesMap, issue :: rest => fun log =>
    match indexIssue sortSlice env gi issuesMap issue log with
    | (.error err, log) => (.error err, log)
    | (.ok issuesMap, log) => indexIssues sortSlice env gi issuesMap rest log

/-- The loop over the repositories (lines 367-390). -/
def indexRepos
    (sortSlice : (IssueComment → IssueComment → Bool) → List IssueComment → List IssueComment)
    (env : Env) (gi : GithubIssue) : IssuesMap → List Str → Tracker (Except Str IssuesMap)
  | issuesMap, [] => fun log => (.ok issuesMap, log)
  | issuesMap, repoForIssue :: rest => fun log =>
    match gi.ListIssuesByRepo env.org repoForIssue [flakyLabel] log with
    | (.error err, log) => (.error err, log)
    | (.ok issues, log) =>
      match indexIssues sortSlice env gi issuesMap issues log with
      | (.error err, log) => (.error err, log)
      | (.ok issuesMap, log) => indexRepos sortSlice env gi issuesMap rest log

/-- The loop `for k, v := range issuesMap` (lines 395-419): every group is
reconciled on its own; `none` when one of them panics. -/
def reconcileAll
    (sortSlice : (flakyIssue → flakyIssue → Bool) → List flakyIssue → List flakyIssue) :
    IssuesMap → Option IssuesMap
  | [] => some []
  | (k, v) :: rest =>
    match reconcile sortSlice v, reconcileAll sortSlice rest with
    | some v2, some rest2 => some ((k, v2) :: rest2)
    | _, _ => none

/-- `getFlakyIssues`: `none` is a panic, `some (.error err)` the result
`nil, err`, `some (.ok issuesMap)` the result `issuesMap, nil`. -/
def getFlakyIssues
    (sortIssues : (flakyIssue → flakyIssue → Bool) → List flakyIssue → List flakyIssue)
    (sortComments : (IssueComment → IssueComment → Bool) → List IssueComment → List IssueComment)
    (env : Env) (gi : GithubIssue) : Tracker (Option (Except Str IssuesMap)) := fun log =>
  match gi.ListRepos env.org log with
  | (.error err, log) => (some (.error err), log)
  | (.ok reposForIssue, log) =>
    match indexRepos sortComments env gi [] reposForIssue log with
    | (.error err, log) => (some (.error err), log)
    | (.ok issuesMap, log) =>
      match reconcileAll sortIssues issuesMap with
      | none => (none, log)
      | some issuesMap => (some (.ok issuesMap), log)

/-- The answers of the tracker to the three listing calls do not depend on
the calls made before: the tickets and comments are those of one snapshot. -/
structure StableListing (client : GithubOperations) : Prop where
  listRepos : ∀ log1 log2 org, client.ListRepos log1 org = client.ListRepos log2 org
  listIssuesByRepo : ∀ log1 log2 org repo labels,
    client.ListIssuesByRepo log1 org repo labels = client.ListIssuesByRepo log2 org repo labels
  listComments : ∀ log1 log2 org repo n,
    client.ListComments log1 org repo n = client.ListComments log2 org repo n

/-- A sorting function for the comments of the samples: merge sort by `less`. -/
def sampleSortComments (less : IssueComment → IssueComment → Bool) (l : List IssueComment) :
    List IssueComment :=
  l.mergeSort (fun a b => !less b a)

/-- No ticket of the map was closed before `timeConsiderOld`. -/
def AllFresh (env : Env) (issuesMap : IssuesMap) : Prop :=
  ∀ entry ∈ issuesMap, ∀ fi ∈ entry.2, closedLongAgo env fi.issue = false

/-! ## `processGithubIssueForRepo` -/

/-- `getBulkIssueIdentity`:
`fmt.Sprintf("%.2f%% tests failed in repo %s on %s", flakyRate*100, …)`, the
rate rendered by `env.flakyRatePercent`. -/
def getBulkIssueIdentity (env : Env) (rd : RepoData) : Str :=
  env.flakyRatePercent rd ++ "% tests failed in repo ".toList ++ rd.Config.Repo
    ++ " on ".toList ++ env.timeString rd.LastBuildStartTime

/-- `createCommentForTest`; `none` is the panic of `rd.TestStats[testFullName]`
being nil for a name that is not a key of the map. -/
def createCommentForTest (env : Env) (rd : RepoData) (testFullName : Str) : Option Str :=
  match rd.TestStats.lookup testFullName with
  | none => none
  | some ts =>
    let totalCount := ts.Passed.length + ts.Skipped.length + ts.Failed.length
    let content := latestStatusPattern (env.getTestStatus ts)
      ++ "\nLast build start time: ".toList ++ env.timeString rd.LastBuildStartTime
      ++ "\nFailed ".toList ++ fmtInt ts.Failed.length ++ " times out of ".toList
      ++ fmtInt totalCount ++ " runs.".toList
    if ts.Failed.length > 0 then
      some (content ++ " Failed runs: ".toList
        ++ stringsJoin (ts.Failed.map (fun buildID =>
            "[".toList ++ fmtInt buildID ++ "](".toList ++ jobLogsURL ++ rd.Config.Name
              ++ "/".toList ++ fmtInt buildID ++ ")".toList)) ", ".toList)
    else some content

/-- The loop over the existing issues of one test (lines 462-476). Its state
is the variable `comment`, which the loop extends, and the lists `messages`
and `errs`; `none` is a panic. -/
def updateExistingIssues (env : Env) (gi : GithubIssue) (rd : RepoData) (testFullName : Str)
    (ts : TestStat) (dryrun : Bool) :
    Str × List Str × List Str → List flakyIssue → Tracker (Option (Str × List Str × List Str))
  | st, [] => fun log => (some st, log)
  | (comment, messages, errs), existIssue :: rest => fun log =>
    if stringsContains existIssue.comment.Body comment then
      updateExistingIssues env gi rd testFullName ts dryrun (comment, messages, errs) rest log
    else
      match createHistoryUnicode env rd existIssue.comment.Body testFullName with
      | none => (none, log)
      | some history =>
        let comment := comment ++ history
        let message := "Updating issue '".toList ++ existIssue.issue.URL ++ "' for '".toList
          ++ existIssue.identity ++ "'".toList
        let messages := messages ++ [message]
        match updateIssue env gi existIssue comment ts dryrun log with
        | (some err, log) =>
          updateExistingIssues env gi rd testFullName ts dryrun
            (comment, messages, errs ++ [err]) rest log
        | (none, log) =>
          updateExistingIssues env gi rd testFullName ts dryrun (comment, messages, errs) rest log

/-- The body of the loop over `rd.TestStats` (lines 455-491) for one entry
of the map. Its state is the lists `messages` and `errs`; `none` is a panic. -/
def processTest (env : Env) (gi : GithubIssue) (rd : RepoData) (flakyIssuesMap : IssuesMap)
    (dryrun : Bool) (st : List Str × List Str) (entry : Str × TestStat) :
    Tracker (Option (List Str × List Str)) := fun log =>
  let testFullName := entry.1
  let ts := entry.2
  let repoForIssue := rd.Config.IssueRepo
  if !env.isFlaky ts && !env.isPassed ts then (some st, log)
  else
    let identity := getIdentityForTest testFullName rd.Config.Repo
    match createCommentForTest env rd testFullName with
    | none => (none, log)
    | some comment =>
      match flakyIssuesMap.lookup identity with
      | some existIssues =>
        match updateExistingIssues env gi rd testFullName ts dryrun (comment, st.1, st.2)
            existIssues log with
        | (none, log) => (none, log)
        | (some (_, messages, errs), log) => (some (messages, errs), log)
      | none =>
        if env.isFlaky ts then
          let title := "[flaky] ".toList ++ testFullName
          match createHistoryUnicode env rd [] testFullName with
          | none => (none, log)
          | some history =>
            let comment := comment ++ history ++ "\n<!--".toList
              ++ testIdentifierPattern identity ++ "-->".toList
            let message := "Creating issue '".toList ++ title ++ "' in repo '".toList
              ++ repoForIssue ++ "'".toList
            let messages := st.1 ++ [message]
            match createNewIssue env gi env.org repoForIssue title
                (issueBodyTemplate testFullName rd.Config.Repo (testIdentifierPattern identity))
                comment dryrun log with
            | (none, log) => (none, log)
            | (some (some err), log) => (some (messages, st.2 ++ [err]), log)
            | (some none, log) => (some (messages, st.2), log)
        else (some st, log)

/-- The loop over `rd.TestStats` (lines 455-491), in the order of `tests`. -/
def processTests (env : Env) (gi : GithubIssue) (rd : RepoData) (flakyIssuesMap : IssuesMap)
    (dryrun : Bool) :
    List Str × List Str → List (Str × TestStat) → Tracker (Option (List Str × List Str))
  | st, [] => fun log => (some st, log)
  | st, entry :: rest => fun log =>
    match processTest env gi rd flakyIssuesMap dryrun st entry log with
    | (none, log) => (none, log)
    | (some st, log) => processTests env gi rd flakyIssuesMap dryrun st rest log

/-- `processGithubIssueForRepo`: the messages and the error returned; `none`
is a panic. The tests of `rd.TestStats` are visited in the order of the
list. -/
def processGithubIssueForRepo (env : Env) (gi : GithubIssue) (rd : RepoData)
    (flakyIssuesMap : IssuesMap) (dryrun : Bool) : Tracker (Option (List Str × GoError)) :=
  fun log =>
  let repoForIssue := rd.Config.IssueRepo
  if repoForIssue.length = 0 then
    (some (["skip creating/updating issues, job is marked to not create GitHub issues\n".toList],
      env.combineErrors []), log)
  else if env.flakyRateAboveThreshold rd then
    -- If there are too many failures, create a single issue tracking it.
    let identity := getBulkIssueIdentity env rd
    match flakyIssuesMap.lookup identity with
    | some _ => (some ([], none), log)
    | none =>
      let title := "[flaky] ".toList ++ identity
      let comment := "Bulk issue tracking: ".toList ++ identity ++ "\n<!--".toList
        ++ testIdentifierPattern identity ++ "-->".toList
      let message := "Creating issue '".toList ++ title ++ "' in repo '".toList
        ++ repoForIssue ++ "'".toList
      match createNewIssue env gi env.org repoForIssue title
          (issueBodyTemplate identity rd.Config.Repo (testIdentifierPattern identity))
          comment dryrun log with
      | (none, log) => (none, log)
      | (some err, log) => (some ([message], err), log)
  else
    match processTests env gi rd flakyIssuesMap dryrun ([], []) rd.TestStats log with
    | (none, log) => (none, log)
    | (some (messages, errs), log) => (some (messages, env.combineErrors errs), log)

/-- The call edits the comment with the given id. -/
def editsComment (commentID : Int) : Call → Bool
  | .EditComment _ _ id _ => decide (id = commentID)
  | _ => false

/-! ## Package `jsonreport` -/

/-- `path.Clean(p)`: slashes are collapsed, `.` elements dropped, an inner
`..` removed with the element before it, a `..` at the start of a rooted
path dropped; the empty result is `.`. -/
def pathClean (p : Str) : Str :=
  let rooted := p.head? == some '/'
  let elems := (stringsSplit '/' p).filter (fun e => !(e == []) && !(e == ".".toList))
  let stack := elems.foldl (fun st e =>
    if e == "..".toList then
      match st with
      | [] => if rooted then [] else [e]
      | top :: rest => if top == "..".toList then e :: top :: rest else rest
    else e :: st) []
  let body := stringsJoin stack.reverse "/".toList
  if rooted then '/' :: body
  else if body == [] then ".".toList
  else body

/-- `path.Join(elem...)`: the non-empty elements joined with slashes, then
cleaned; the empty string when there is no non-empty element. -/
def pathJoin (elem : List Str) : Str :=
  match elem.filter (fun e => !(e == [])) with
  | [] => []
  | e :: es => pathClean (stringsJoin (e :: es) "/".toList)

/-- `strings.HasSuffix(s, suffix)`. -/
def stringsHasSuffix (s suffix : Str) : Bool :=
  suffix.isSuffixOf s

/-- `strings.TrimPrefix(s, pre)`: `s` without the leading `pre`, or `s`
unchanged when it does not start with `pre`. -/
def stringsTrimPrefix (s pre : Str) : Str :=
  if pre.isPrefixOf s then s.drop pre.length else s

def filename : Str := "flaky-tests.json".toList

/-- The maximum age in days that JSON data is valid. -/
def maxAge : Int := 4

/-- What the code reads of a `prow.Build`: its field `StoragePath`, and the
results of its methods `GetArtifacts` and `GetStartTime` (seconds since the
Unix epoch, or an error). -/
structure Build where
  StoragePath : Str
  GetArtifacts : List Str
  GetStartTime : Except Str Int

/-- What the code reads of a `prow.Job`: the results of its methods
`GetLatestBuildNumber`, `GetBuildIDs` and `NewBuild`. -/
structure Job where
  GetLatestBuildNumber : Except Str Int
  GetBuildIDs : List Int
  NewBuild : Int → Build

/-- `getReportPaths`. -/
def getReportPaths (build : Build) (repo : Str) : List Str :=
  let suffix := pathJoin [repo, filename]
  (build.GetArtifacts.filter (fun artifact => stringsHasSuffix artifact suffix)).map
    (fun artifact => stringsTrimPrefix artifact build.StoragePath)

/-- `time.ParseDuration(fmt.Sprintf("%dh", maxAge*24))`, in nanoseconds. -/
def maxElapsedTime : Int := maxAge * 24 * 3600 * 1000000000

/-- An integer as a Go `int64`: its value modulo `2^64`, between `-2^63`
and `2^63 - 1`. -/
def wrap64 (x : Int) : Int := (x + 2 ^ 63) % 2 ^ 64 - 2 ^ 63

/-- The constant `unixToInternal` of package `time`: the seconds from the
first of January of year 1 to the Unix epoch. -/
def unixToInternal : Int := 62135596800

/-- `time.Since(time.Unix(startTimeInt, 0))` in nanoseconds, when the clock
reads `now` nanoseconds since the Unix epoch. `time.Unix` stores the seconds
`startTimeInt + unixToInternal` in an `int64`; `Time.Sub` computes the
difference `d` in `int64` arithmetic and returns it when adding `d` back to
the start time (`Time.Add`) gives the time of the clock, and otherwise the
smallest or the largest `Duration`, as the clock is before the start time or
not. -/
def timeSince (now startTimeInt : Int) : Int :=
  let tsec := now / 1000000000 + unixToInternal
  let tnsec := now % 1000000000
  let usec := wrap64 (startTimeInt + unixToInternal)
  let d := wrap64 (wrap64 (wrap64 (tsec - usec) * 1000000000) + tnsec)
  -- u.Add(d): the nanoseconds of u are 0
  let dsec := d.tdiv 1000000000
  let nsec := d.tmod 1000000000
  let sum := if nsec < 0 then (dsec - 1, nsec + 1000000000) else (dsec, nsec)
  if wrap64 (usec + sum.1) = tsec ∧ sum.2 = tnsec then d
  else if tsec < usec then -(2 ^ 63)
  else 2 ^ 63 - 1

/-- The errors of `getLatestValidBuild`: "latest JSON log is outdated: … days
old", with the age in nanoseconds, and "no JSON logs found in recent builds". -/
inductive BuildError where
  | outdated (age : Int)
  | notFound
  deriving DecidableEq, Repr

/-- Insertion of `x` into a list of integers in descending order. -/
def insertDescending (x : Int) : List Int → List Int
  | [] => [x]
  | y :: ys => if x > y then x :: y :: ys else y :: insertDescending x ys

/-- `sort.Sort(sort.Reverse(sort.IntSlice(buildIDs)))`: the build ids in
descending order. -/
def sortReverse (buildIDs : List Int) : List Int :=
  buildIDs.foldr insertDescending []

/-- The loop of `getLatestValidBuild` over the sorted build ids. -/
def olderValidBuild (job : Job) (repo : Str) (now : Int) : List Int → Except BuildError Int
  | [] => .error .notFound
  | buildID :: rest =>
    let build := job.NewBuild buildID
    if (getReportPaths build repo).length = 0 then olderValidBuild job repo now rest
    else
      match build.GetStartTime with
      | .error _ => olderValidBuild job repo now rest
      | .ok startTimeInt =>
        if timeSince now startTimeInt < maxElapsedTime then .ok buildID
        else .error (.outdated (timeSince now startTimeInt))

/-- `getLatestValidBuild`, with the clock at `now` nanoseconds since the
Unix epoch. -/
def getLatestValidBuild (job : Job) (repo : Str) (now : Int) : Except BuildError Int :=
  -- look at older builds
  let older := olderValidBuild job repo now (sortReverse job.GetBuildIDs)
  -- check latest build first, before looking to older builds
  match job.GetLatestBuildNumber with
  | .ok buildID =>
    if (getReportPaths (job.NewBuild buildID) repo).length ≠ 0 then .ok buildID
    else older
  | .error _ => older

/-! ## Sample data -/

/-- A ticket of repository `serving` with the given number, state, creation
time and pinned-comment body. -/
def sampleIssue (number : Int) (state : Str) (created : Option Int) (commentBody : Str) :
    flakyIssue :=
  { issue := { Number := number, URL := "https://api.github.com/repos/knative/serving/issues/".toList
                 ++ fmtInt number,
               RepositoryURL := "https://api.github.com/repos/knative/serving".toList,
               State := state,
               Body := issueBodyTemplate "TestA".toList "serving".toList
                 (testIdentifierPattern (getIdentityForTest "TestA".toList "serving".toList)),
               CreatedAt := created, ClosedAt := none },
    identity := getIdentityForTest "TestA".toList "serving".toList,
    comment := { ID := 100 + number, Body := commentBody, User := { ID := 7 },
                 CreatedAt := created } }

/-- A sorting function for the samples: merge sort by `less`. -/
def sampleSort (less : flakyIssue → flakyIssue → Bool) (l : List flakyIssue) : List flakyIssue :=
  l.mergeSort (fun a b => !less b a)

/-- A sample of what the code takes from the rest of package `main`: a test
is `Passed` when it has passes and no failure, `Flaky` when it has both. -/
def sampleEnv : Env where
  org := "knative".toList
  passedStatus := "Passed".toList
  flakyStatus := "Flaky".toList
  failedStatus := "Failed".toList
  lackDataStatus := "NotEnoughData".toList
  isPassed := fun ts => !ts.Passed.isEmpty && ts.Failed.isEmpty
  isFlaky := fun ts => !ts.Passed.isEmpty && !ts.Failed.isEmpty
  getTestStatus := fun ts =>
    if !ts.Passed.isEmpty && !ts.Failed.isEmpty then "Flaky".toList
    else if !ts.Passed.isEmpty then "Passed".toList
    else if ts.Failed.isEmpty then "NotEnoughData".toList
    else "Failed".toList
  getResultSliceForTest := fun rd testName =>
    match rd.TestStats.lookup testName with
    | none => rd.BuildIDs.map (fun _ => TestStatusEnum.Skipped)
    | some ts => rd.BuildIDs.map (fun buildID =>
        if ts.Failed.contains buildID then TestStatusEnum.Failed
        else if ts.Passed.contains buildID then TestStatusEnum.Passed
        else TestStatusEnum.Skipped)
  timeString := fun t => "time ".toList ++ fmtInt t
  combineErrors := fun errs =>
    match errs with
    | [] => none
    | e :: es => some (stringsJoin (e :: es) "\n".toList)
  flakyRateAboveThreshold := fun rd => decide (rd.TestStats.length ≥ 3)
  flakyRatePercent := fun _ => "50.00".toList
  timeConsiderOld := 500

/-- A tracker of which every call succeeds. -/
def sampleClient : GithubOperations where
  ListRepos := fun _ _ => .ok ["serving".toList]
  ListIssuesByRepo := fun _ _ _ _ => .ok []
  ListComments := fun _ _ _ _ => .ok []
  CreateIssue := fun _ _ _ _ body =>
    .ok { Number := 1, URL := "https://api.github.com/repos/knative/serving/issues/1".toList,
          RepositoryURL := "https://api.github.com/repos/knative/serving".toList,
          State := IssueOpenState, Body := body, CreatedAt := some 0, ClosedAt := none }
  CreateComment := fun _ _ _ _ _ => none
  EditComment := fun _ _ _ _ _ => none
  AddLabelsToIssue := fun _ _ _ _ _ => none
  RemoveLabelForIssue := fun _ _ _ _ _ => none
  CloseIssue := fun _ _ _ _ => none
  ReopenIssue := fun _ _ _ _ => none

/-- The tool with account 7 on the sample tracker. -/
def sampleGI : GithubIssue := { user := { ID := 7 }, client := sampleClient }

/-- A test that passed in builds 1 and 2. -/
def samplePassed : TestStat := { Passed := [1, 2], Skipped := [], Failed := [] }

/-- A test that passed in build 1 and failed in build 2. -/
def sampleFlaky : TestStat := { Passed := [1], Skipped := [], Failed := [2] }

/-- A test that failed in builds 1 and 2. -/
def sampleFailed : TestStat := { Passed := [], Skipped := [], Failed := [1, 2] }

/-- A job of repository `serving` with builds 1 and 2, in which `TestA`
passed once and failed once. -/
def sampleRepoData : RepoData where
  Config := { Name := "ci-knative-serving-continuous".toList, Repo := "serving".toList,
              IssueRepo := "serving".toList }
  BuildIDs := [1, 2]
  LastBuildStartTime := 1000
  TestStats := [("TestA".toList, sampleFlaky)]

/-- A tracker on which `AddLabelsToIssue` fails and every other call succeeds. -/
def sampleClientLabelFails : GithubOperations :=
  { sampleClient with AddLabelsToIssue := fun _ _ _ _ _ => some "label error".toList }

/-- The tool with account 7 on the tracker on which `AddLabelsToIssue` fails. -/
def sampleGILabelFails : GithubIssue := { user := { ID := 7 }, client := sampleClientLabelFails }

/-- The issue that the sample trackers return from `CreateIssue` for the body `body`. -/
def sampleNewIssue (body : Str) : Issue :=
  { Number := 1, URL := "https://api.github.com/repos/knative/serving/issues/1".toList,
    RepositoryURL := "https://api.github.com/repos/knative/serving".toList,
    State := IssueOpenState, Body := body, CreatedAt := some 0, ClosedAt := none }

/-- A job whose name holds a line break, with one build. -/
def sampleRepoDataBroken : RepoData where
  Config := { Name := "a\nb".toList, Repo := "serving".toList, IssueRepo := "serving".toList }
  BuildIDs := [1]
  LastBuildStartTime := 1000
  TestStats := [("TestA".toList, sampleFlaky)]

/-- The text that `createHistoryUnicode` renders for the current cycle of
`sampleRepoDataBroken`. -/
def sampleBrokenLine : Str :=
  "time 1000:  [&#10004;](https://prow.knative.dev/view/gcs/knative-prow/logs/a\nb/1)".toList

/-- A previous comment that holds the history block of a first cycle. -/
def sampleOldComment : Str :=
  "summary".toList ++ historyPattern (historyBlock "time 900:  [&#10004;](url/1)".toList [])

/-- A comment of account `user` with the given id, creation time and body. -/
def sampleComment (id user : Int) (created : Option Int) (body : Str) : IssueComment :=
  { ID := id, Body := body, User := { ID := user }, CreatedAt := created }

/-- The comments of a ticket of `TestA`: one of another account, and two of
the tool (account 7) that carry the identity, written at times 30 and 20. -/
def sampleComments : List IssueComment :=
  [sampleComment 1 8 (some 10)
      (testIdentifierPattern (getIdentityForTest "TestA".toList "serving".toList)),
    sampleComment 2 7 (some 30)
      (testIdentifierPattern (getIdentityForTest "TestA".toList "serving".toList)),
    sampleComment 3 7 (some 20)
      (testIdentifierPattern (getIdentityForTest "TestA".toList "serving".toList))]

/-- A tracker that lists `sampleComments` for every ticket. -/
def sampleClientComments : GithubOperations :=
  { sampleClient with ListComments := fun _ _ _ _ => .ok sampleComments }

/-- The tool with account 7 on the tracker that lists `sampleComments`. -/
def sampleGIComments : GithubIssue := { user := { ID := 7 }, client := sampleClientComments }

/-- Insertion of `x` into a list ordered by `less`. -/
def insertSorted {α : Type} (less : α → α → Bool) (x : α) : List α → List α
  | [] => [x]
  | y :: ys => if less x y then x :: y :: ys else y :: insertSorted less x ys

/-- A sorting function for the samples that are evaluated: insertion sort
by `less`. -/
def sampleInsertionSort {α : Type} (less : α → α → Bool) : List α → List α
  | [] => []
  | x :: xs => insertSorted less x (sampleInsertionSort less xs)

/-- A ticket of `TestA` closed at time 100, before `timeConsiderOld` of the
sample (500). -/
def sampleStaleIssue : Issue :=
  { (sampleIssue 1 IssueCloseState (some 10) []).issue with ClosedAt := some 100 }

/-- An open ticket of `TestA`. -/
def sampleFreshIssue : Issue := (sampleIssue 2 IssueOpenState (some 20) []).issue

/-- A labeled ticket whose body holds no identity. -/
def sampleMalformedIssue : Issue :=
  { (sampleIssue 3 IssueOpenState (some 30) []).issue with Body := "edited by hand".toList }

/-- A tracker with one repository, which holds `sampleStaleIssue` and
`sampleFreshIssue`, each with the comments `sampleComments`. -/
def sampleClientIndex : GithubOperations :=
  { sampleClient with
    ListIssuesByRepo := fun _ _ _ _ => .ok [sampleStaleIssue, sampleFreshIssue]
    ListComments := fun _ _ _ _ => .ok sampleComments }

/-- The tool with account 7 on `sampleClientIndex`. -/
def sampleGIIndex : GithubIssue := { user := { ID := 7 }, client := sampleClientIndex }

/-- A tracker with one repository, which holds `sampleFreshIssue` and
`sampleMalformedIssue`. -/
def sampleClientMalformed : GithubOperations :=
  { sampleClient with
    ListIssuesByRepo := fun _ _ _ _ => .ok [sampleFreshIssue, sampleMalformedIssue]
    ListComments := fun _ _ _ _ => .ok sampleComments }

/-- The tool with account 7 on `sampleClientMalformed`. -/
def sampleGIMalformed : GithubIssue := { user := { ID := 7 }, client := sampleClientMalformed }

/-- The index that `getFlakyIssues` builds on `sampleClientIndex`. -/
def sampleIndex : IssuesMap :=
  [(getIdentityForTest "TestA".toList "serving".toList,
    [{ issue := sampleFreshIssue,
       identity := getIdentityForTest "TestA".toList "serving".toList,
       comment := sampleComment 3 7 (some 20)
         (testIdentifierPattern (getIdentityForTest "TestA".toList "serving".toList)) }])]

/-- The text of `createCommentForTest` for `TestA` in `sampleRepoData`. -/
def sampleSummary : Str :=
  (createCommentForTest sampleEnv sampleRepoData "TestA".toList).getD []

/-- An open ticket of `TestA` whose pinned comment was not written by a
cycle over `sampleRepoData`. -/
def sampleTicketOther : flakyIssue :=
  sampleIssue 1 IssueOpenState (some 10)
    (latestStatusPattern "Flaky".toList
      ++ historyPattern (historyBlock "time 900:  [&#10004;](url/1)".toList []))

/-- An open ticket of `TestA` whose pinned comment was written by a cycle
over `sampleRepoData`: `prependComment` of its old body and of the summary
followed by the history built from the old body. -/
def sampleTicketWritten : flakyIssue :=
  sampleIssue 2 IssueOpenState (some 20)
    (prependComment (latestStatusPattern "Passed".toList)
      (sampleSummary ++
        (createHistoryUnicode sampleEnv sampleRepoData (latestStatusPattern "Passed".toList)
          "TestA".toList).getD []))

/-- A job of repository `serving` with three tests, which `sampleEnv` puts
above the bulk threshold. -/
def sampleRepoDataBulk : RepoData where
  Config := { Name := "ci-knative-serving-continuous".toList, Repo := "serving".toList,
              IssueRepo := "serving".toList }
  BuildIDs := [1, 2]
  LastBuildStartTime := 1000
  TestStats := [("TestA".toList, sampleFlaky), ("TestB".toList, sampleFlaky),
    ("TestC".toList, sampleFailed)]

/-- An open ticket of `TestA` whose pinned comment holds a status line and
no history block. -/
def sampleTicketPlain : flakyIssue :=
  sampleIssue 2 IssueOpenState (some 20) (latestStatusPattern "Passed".toList)

/-- The text of `createHistoryUnicode` for `TestA` in `sampleRepoData` from
the pinned comment of `sampleTicketOther`. -/
def sampleHistoryOther : Str :=
  (createHistoryUnicode sampleEnv sampleRepoData sampleTicketOther.comment.Body
    "TestA".toList).getD []

/-- The text of `createHistoryUnicode` for `TestA` in `sampleRepoData` from
the pinned comment of `sampleTicketPlain`. -/
def sampleHistoryPlain : Str :=
  (createHistoryUnicode sampleEnv sampleRepoData sampleTicketPlain.comment.Body
    "TestA".toList).getD []

/-- A job whose name is the closing token of the history block, with one
build. -/
def sampleRepoDataToken : RepoData where
  Config := { Name := afterHistoryToken, Repo := "serving".toList, IssueRepo := "serving".toList }
  BuildIDs := [1]
  LastBuildStartTime := 1000
  TestStats := [("TestA".toList, sampleFlaky)]

/-- The line that `createHistoryUnicode` renders for the current cycle of
`sampleRepoDataToken`. -/
def sampleTokenLine : Str :=
  "time 1000:  [&#10004;](https://prow.knative.dev/view/gcs/knative-prow/logs/".toList
    ++ afterHistoryToken ++ "/1)".toList

/-- A build of the reporter job with the reports of the repositories
`client` and `homebrew-client`, started at second `start`. -/
def sampleBuild (start : Int) : Build where
  StoragePath := "logs/ci-knative-flakes-reporter/7/".toList
  GetArtifacts :=
    ["logs/ci-knative-flakes-reporter/7/artifacts/client/flaky-tests.json".toList,
     "logs/ci-knative-flakes-reporter/7/artifacts/homebrew-client/flaky-tests.json".toList,
     "logs/ci-knative-flakes-reporter/7/build-log.txt".toList]
  GetStartTime := .ok start

/-- A reporter job whose only build, build 7, started at second 1000. -/
def sampleJob : Job where
  GetLatestBuildNumber := .ok 7
  GetBuildIDs := [7]
  NewBuild := fun _ => sampleBuild 1000

/-- Ten days after second 1000, in nanoseconds since the Unix epoch. -/
def sampleNow : Int := (1000 + 10 * 24 * 3600) * 1000000000

/-- A job of repository `serving` with one flaky test, whose name holds a
line break. -/
def sampleRepoDataBrokenTest : RepoData where
  Config := { Name := "ci-knative-serving-continuous".toList, Repo := "serving".toList,
              IssueRepo := "serving".toList }
  BuildIDs := [1, 2]
  LastBuildStartTime := 1000
  TestStats := [("a\nb".toList, sampleFlaky)]

/-- The issue body that `processGithubIssueForRepo` builds for the test of
`sampleRepoDataBrokenTest`. -/
def sampleBrokenBody : Str :=
  issueBodyTemplate "a\nb".toList "serving".toList
    (testIdentifierPattern (getIdentityForTest "a\nb".toList "serving".toList))

/-- The initial comment that `processGithubIssueForRepo` builds for the test
of `sampleRepoDataBrokenTest`. -/
def sampleBrokenComment : Str :=
  (createCommentForTest sampleEnv sampleRepoDataBrokenTest "a\nb".toList).getD []
    ++ (createHistoryUnicode sampleEnv sampleRepoDataBrokenTest [] "a\nb".toList).getD []
    ++ "\n<!--".toList
    ++ testIdentifierPattern (getIdentityForTest "a\nb".toList "serving".toList)
    ++ "-->".toList

/-- No occurrence of `pre` in `u ++ s` starts inside `u`. -/
def NoStart (pre : Str) : Str → Str → Prop
  | [], _ => True
  | c :: cs, s => ¬ pre <+: (c :: cs) ++ s ∧ NoStart pre cs s

/-! # Lemmas -/

/-! ## The regular-expression matchers -/

theorem noStart_append (pre u v s : Str) :
    NoStart pre (u ++ v) s ↔ NoStart pre u (v ++ s) ∧ NoStart pre v s := by
  induction u with
  | nil => simp [NoStart]
  | cons c cs ih =>
    show (¬ pre <+: (c :: (cs ++ v)) ++ s ∧ NoStart pre (cs ++ v) s) ↔
      (¬ pre <+: (c :: cs) ++ (v ++ s) ∧ NoStart pre cs (v ++ s)) ∧ NoStart pre v s
    rw [ih]
    simp only [List.cons_append, List.append_assoc]
    tauto

theorem noStart_of_head_not_mem (p : Char) (ps u s : Str) (h : p ∉ u) :
    NoStart (p :: ps) u s := by
  induction u with
  | nil => trivial
  | cons c cs ih =>
    simp only [List.mem_cons, not_or] at h
    refine ⟨?_, ih h.2⟩
    rintro ⟨t, ht⟩
    simp only [List.cons_append, List.cons.injEq] at ht
    exact h.1 ht.1

theorem noStart_of_not_infix (pre t : Str) (c : Char) (s : Str)
    (hin : ¬ pre <:+: t) (hc : c ∉ pre) : NoStart pre t (c :: s) := by
  induction t with
  | nil => trivial
  | cons x xs ih =>
    refine ⟨?_, ih (fun h => hin (h.trans (List.suffix_cons x xs).isInfix))⟩
    intro hp
    have hb : (x :: xs) <+: (x :: xs) ++ c :: s := List.prefix_append _ _
    rcases Nat.le_total pre.length (x :: xs).length with hle | hle
    · exact hin (List.prefix_of_prefix_length_le hp hb hle).isInfix
    · have hb2 : (x :: xs) ++ [c] <+: (x :: xs) ++ c :: s := by
        refine ⟨s, ?_⟩
        simp
      have hlt : (x :: xs).length < pre.length := by
        rcases Nat.lt_or_ge (x :: xs).length pre.length with h | h
        · exact h
        · exact absurd (List.prefix_of_prefix_length_le hp hb h).isInfix hin
      have hsub : (x :: xs) ++ [c] <+: pre :=
        List.prefix_of_prefix_length_le hb2 hp (by simpa using hlt)
      exact hc (hsub.subset (by simp))

theorem lazyCapture_prefix (post : Str) (d : Bool) (rest : Str) :
    lazyCapture post d (post ++ rest) = some [] := by
  cases h : post ++ rest with
  | nil =>
    have hp : post = [] := (List.append_eq_nil.mp h).1
    subst hp
    simp [lazyCapture]
  | cons c cs =>
    have hp : post.isPrefixOf (c :: cs) = true := by
      rw [← h]
      simp
    simp [lazyCapture, hp]

theorem lazyCapture_exact (post : Str) (d : Bool) (x rest : Str)
    (hns : NoStart post x (post ++ rest)) (hnl : d = false → '\n' ∉ x) :
    lazyCapture post d (x ++ (post ++ rest)) = some x := by
  induction x with
  | nil => simpa using lazyCapture_prefix post d rest
  | cons c cs ih =>
    have hc : ¬ post <+: c :: (cs ++ (post ++ rest)) := hns.1
    have hcn : (!d && c == '\n') = false := by
      cases d with
      | true => rfl
      | false =>
        have := hnl rfl
        simp only [List.mem_cons, not_or] at this
        simp [Ne.symm this.1]
    have ih2 := ih hns.2 (fun hd => by
      have := hnl hd
      simp only [List.mem_cons, not_or] at this
      exact this.2)
    simp [lazyCapture, hc, hcn, ih2]

theorem findLazyBetween_skip (pre post : Str) (d : Bool) (u s : Str)
    (hns : NoStart pre u s) :
    findLazyBetween pre post d (u ++ s) = findLazyBetween pre post d s := by
  induction u with
  | nil => rfl
  | cons c cs ih =>
    have hc : ¬ pre <+: c :: (cs ++ s) := hns.1
    simp [findLazyBetween, hc, ih hns.2]

theorem findLazyBetween_here (pre post : Str) (d : Bool) (y x : Str)
    (h : lazyCapture post d y = some x) :
    findLazyBetween pre post d (pre ++ y) = some x := by
  cases hs : pre ++ y with
  | nil =>
    have hp : pre = [] := (List.append_eq_nil.mp hs).1
    have hy : y = [] := (List.append_eq_nil.mp hs).2
    subst hp hy
    simp [findLazyBetween, h]
  | cons c cs =>
    have hp : pre.isPrefixOf (c :: cs) = true := by
      rw [← hs]
      simp
    have hd : (c :: cs).drop pre.length = y := by
      rw [← hs]
      simp
    simp [findLazyBetween, hp, hd, h]

/-! ## The identity codec -/

theorem token_infix_mark : testIdentifierToken <:+: testIdentifierMark :=
  ⟨['['], [']'], rfl⟩

theorem noStart_mark_name (t : Str) (c : Char) (s : Str)
    (ht : ¬ testIdentifierToken <:+: t) (hc : c ∉ testIdentifierMark) :
    NoStart testIdentifierMark t (c :: s) :=
  noStart_of_not_infix _ _ _ _ (fun h => ht (token_infix_mark.trans h)) hc

theorem noStart_mark_identity (t r s : Str)
    (ht : ¬ testIdentifierToken <:+: t) (hr : ¬ testIdentifierToken <:+: r) :
    NoStart testIdentifierMark (getIdentityForTest t r) s := by
  have h1 : getIdentityForTest t r =
      ['\''] ++ (t ++ ("' in repo '".toList ++ (r ++ ['\'']))) := by
    simp [getIdentityForTest]
  rw [h1, noStart_append, noStart_append, noStart_append, noStart_append]
  refine ⟨noStart_of_head_not_mem _ _ _ _ (by decide), ?_,
    noStart_of_head_not_mem _ _ _ _ (by decide), ?_,
    noStart_of_head_not_mem _ _ _ _ (by decide)⟩
  · exact noStart_mark_name t '\'' _ ht (by decide)
  · exact noStart_mark_name r '\'' _ hr (by decide)

theorem newline_not_mem_identity (t r : Str) (ht : '\n' ∉ t) (hr : '\n' ∉ r) :
    '\n' ∉ getIdentityForTest t r := by
  have h0 : '\n' ∉ "' in repo '".toList := by decide
  have h1 : ('\n' : Char) ≠ '\'' := by decide
  simp only [getIdentityForTest, List.mem_cons, List.mem_append, List.mem_singleton,
    List.not_mem_nil, or_false, not_or]
  exact ⟨h1, ⟨⟨ht, h0⟩, hr⟩, h1⟩

theorem append_cons_unique (c : Char) (x y a b : Str) (ha : c ∉ a) (hb : c ∉ b)
    (h : x ++ c :: a = y ++ c :: b) : x = y ∧ a = b := by
  induction x generalizing y with
  | nil =>
    cases y with
    | nil => simpa using h
    | cons d ys =>
      simp only [List.nil_append, List.cons_append, List.cons.injEq] at h
      exact absurd (h.2 ▸ (by simp : c ∈ ys ++ c :: b)) ha
  | cons e xs ih =>
    cases y with
    | nil =>
      simp only [List.nil_append, List.cons_append, List.cons.injEq] at h
      exact absurd (h.2.symm ▸ (by simp : c ∈ xs ++ c :: a)) hb
    | cons d ys =>
      simp only [List.cons_append, List.cons.injEq] at h
      obtain ⟨hxy, hab⟩ := ih ys h.2
      exact ⟨by rw [h.1, hxy], hab⟩

theorem getIdentityForTest_injective (t1 r1 t2 r2 : Str)
    (h1 : '\'' ∉ r1) (h2 : '\'' ∉ r2)
    (h : getIdentityForTest t1 r1 = getIdentityForTest t2 r2) : t1 = t2 ∧ r1 = r2 := by
  have shape : ∀ t r : Str, getIdentityForTest t r =
      (('\'' :: (t ++ "' in repo ".toList)) ++ '\'' :: r) ++ ['\''] := by
    intro t r
    simp only [getIdentityForTest, List.cons_append, List.append_assoc, List.cons.injEq,
      true_and, List.append_cancel_left_eq]
    rfl
  rw [shape, shape] at h
  have h3 := List.append_cancel_right h
  obtain ⟨hx, hr⟩ := append_cons_unique _ _ _ _ _ h1 h2 h3
  simp only [List.cons.injEq, true_and] at hx
  exact ⟨List.append_cancel_right hx, hr⟩

/-! ## Reconciliation -/

theorem createdBefore_irrefl (a : flakyIssue) : createdBefore a a = false := by
  unfold createdBefore
  cases a.issue.CreatedAt <;> simp

theorem not_createdBefore_trans (a b c : flakyIssue)
    (hab : createdBefore b a = false) (hbc : createdBefore c b = false) :
    createdBefore c a = false := by
  unfold createdBefore at *
  cases ha : a.issue.CreatedAt <;> cases hb : b.issue.CreatedAt <;>
    cases hc : c.issue.CreatedAt <;> simp_all
  omega

theorem not_createdBefore_total (a b : flakyIssue) :
    createdBefore b a = false ∨ createdBefore a b = false := by
  unfold createdBefore
  cases ha : a.issue.CreatedAt <;> cases hb : b.issue.CreatedAt <;> simp
  omega

theorem sampleSort_perm (l : List flakyIssue) : (sampleSort createdBefore l).Perm l :=
  List.mergeSort_perm l _

theorem sampleSort_sorted (l : List flakyIssue) :
    (sampleSort createdBefore l).Pairwise (fun a b => createdBefore b a = false) := by
  have h := @List.sorted_mergeSort flakyIssue (fun a b => !createdBefore b a)
    (by
      intro a b c hab hbc
      simp only [Bool.not_eq_true', Bool.not_eq_eq_eq_not, Bool.not_true] at hab hbc ⊢
      exact not_createdBefore_trans a b c hab hbc)
    (by
      intro a b
      rcases not_createdBefore_total a b with h | h <;> simp [h])
    l
  exact h.imp (by
    intro a b hab
    simpa using hab)

theorem any_state_false (v : List flakyIssue) (s t : Str) (hst : s ≠ t)
    (hall : ∀ fi ∈ v, fi.issue.State = s) :
    v.any (fun fi => decide (fi.issue.State = t)) = false := by
  rw [List.any_eq_false]
  intro fi hfi
  simp [hall fi hfi, hst]

theorem any_state_true (v : List flakyIssue) (s : Str) (hne : v ≠ [])
    (hall : ∀ fi ∈ v, fi.issue.State = s) :
    v.any (fun fi => decide (fi.issue.State = s)) = true := by
  cases v with
  | nil => exact absurd rfl hne
  | cons fi rest => simp [hall fi (List.mem_cons_self _ _)]

/-! ## `updateIssue` -/

theorem closed_ne_open : IssueCloseState ≠ IssueOpenState := by decide

theorem open_ne_closed : IssueOpenState ≠ IssueCloseState := by decide

theorem callsMade_of_eq {α : Type} (t : Tracker α) (log calls : List Call) (a : α)
    (h : t log = (a, log ++ calls)) : callsMade t log = calls := by
  simp [callsMade, h]

theorem passedLastTime_invalid (env : Env) (fi : flakyIssue) (status : Str)
    (h : reLastestStatus fi.comment.Body = some status)
    (hbad : status ∉ [env.passedStatus, env.flakyStatus, env.failedStatus, env.lackDataStatus]) :
    passedLastTime env fi = .error ("invalid test status code found from issue '".toList
      ++ fi.issue.URL ++ "'".toList) := by
  simp only [List.mem_cons, List.not_mem_nil, or_false, not_or] at hbad
  simp only [passedLastTime, h, if_neg hbad.1]
  rw [if_neg]
  tauto

theorem passedLastTime_valid (env : Env) (fi : flakyIssue)
    (hvalid : ∀ status, reLastestStatus fi.comment.Body = some status →
      status ∈ [env.passedStatus, env.flakyStatus, env.failedStatus, env.lackDataStatus]) :
    passedLastTime env fi = .ok (passedLast env fi) := by
  unfold passedLastTime passedLast
  cases hst : reLastestStatus fi.comment.Body with
  | none => simp
  | some status =>
    have hv := hvalid status hst
    simp only [List.mem_cons, List.not_mem_nil, or_false] at hv
    by_cases hps : status = env.passedStatus
    · simp [hps]
    · have hv2 : status = env.flakyStatus ∨ status = env.failedStatus
          ∨ status = env.lackDataStatus := by tauto
      simp [hps, hv2]

theorem passedLastTime_ok (env : Env) (fi : flakyIssue) (p : Bool)
    (h : passedLastTime env fi = .ok p) : p = passedLast env fi := by
  unfold passedLastTime at h
  unfold passedLast
  cases hst : reLastestStatus fi.comment.Body with
  | none =>
    rw [hst] at h
    simp only [Except.ok.injEq] at h
    simp [← h]
  | some status =>
    rw [hst] at h
    simp only at h
    by_cases hps : status = env.passedStatus
    · rw [if_pos hps] at h
      simp only [Except.ok.injEq] at h
      simp [← h, hps]
    · rw [if_neg hps] at h
      split at h
      · simp only [Except.ok.injEq] at h
        simp [← h, hps]
      · exact absurd h (by simp)

theorem updateComment_log (env : Env) (gi : GithubIssue) (fi : flakyIssue) (newComment : Str)
    (ts : TestStat) (dryrun : Bool) (log : List Call) :
    (updateComment env gi fi newComment ts dryrun log).2 =
      log ++ (if dryrun = false ∧ (env.isPassed ts = false ∨ fi.issue.State = IssueOpenState)
        then [editCall env fi newComment] else []) := by
  unfold updateComment run GithubIssue.EditComment editCall
  by_cases hc : (!env.isPassed ts || decide (fi.issue.State = IssueOpenState)) = true
  · have hc2 : env.isPassed ts = false ∨ fi.issue.State = IssueOpenState := by
      simpa using hc
    rw [if_pos hc]
    cases dryrun with
    | true => simp
    | false =>
      simp only [Bool.false_eq_true, if_false, true_and, if_pos hc2]
      split <;> simp_all
  · have hc2 : ¬ (env.isPassed ts = false ∨ fi.issue.State = IssueOpenState) := by
      simpa using hc
    rw [if_neg hc]
    simp [hc2]

theorem updateComment_ok (env : Env) (gi : GithubIssue) (fi : flakyIssue) (newComment : Str)
    (ts : TestStat) (log : List Call) (hok : MutationsSucceed gi.client) :
    (updateComment env gi fi newComment ts false log).1 = none := by
  unfold updateComment run GithubIssue.EditComment
  simp only [Bool.false_eq_true, if_false, hok.editComment]
  split <;> rfl

/-- The calls of the last part of `updateIssue`, whatever the tracker answers. -/
theorem closeOrReopen_log (env : Env) (gi : GithubIssue) (fi : flakyIssue) (ts : TestStat)
    (p dryrun : Bool) (log : List Call) :
    ∃ calls, (closeOrReopen env gi fi ts p dryrun log).2 = log ++ calls ∧
      (calls ≠ [] → dryrun = false) ∧
      (calls = [] ∨
        (calls <+: closeCalls env fi ∧ env.isPassed ts = true
          ∧ fi.issue.State = IssueOpenState ∧ p = true) ∨
        (calls <+: reopenCalls env fi ∧ env.isPassed ts = false ∧ env.isFlaky ts = true
          ∧ fi.issue.State = IssueCloseState)) := by
  unfold closeOrReopen
  by_cases hp : env.isPassed ts = true
  · rw [if_pos hp]
    by_cases ho : fi.issue.State = IssueOpenState
    · rw [if_pos ho]
      cases p with
      | false => exact ⟨[], by simp, by simp, Or.inl rfl⟩
      | true =>
        cases dryrun with
        | true => exact ⟨[], by simp [run], by simp, Or.inl rfl⟩
        | false =>
          simp only [run, Bool.false_eq_true, if_false, if_true, GithubIssue.CloseIssue,
            GithubIssue.CreateComment]
          cases h1 : gi.client.CloseIssue log env.org (getRepoFromIssue fi.issue)
              fi.issue.Number with
          | some e =>
            refine ⟨[Call.CloseIssue env.org (getRepoFromIssue fi.issue) fi.issue.Number],
              by simp, by simp, Or.inr (Or.inl ⟨⟨_, rfl⟩, hp, ho, trivial⟩)⟩
          | none =>
            refine ⟨closeCalls env fi, ?_, by simp,
              Or.inr (Or.inl ⟨List.prefix_refl _, hp, ho, trivial⟩)⟩
            simp only [closeCalls, closeComment]
            split <;> simp_all
    · rw [if_neg ho]
      exact ⟨[], by simp, by simp, Or.inl rfl⟩
  · rw [if_neg hp]
    have hp2 : env.isPassed ts = false := by simpa using hp
    by_cases hf : env.isFlaky ts = true
    · rw [if_pos hf]
      by_cases hc : fi.issue.State = IssueCloseState
      · rw [if_pos hc]
        cases dryrun with
        | true => exact ⟨[], by simp [run], by simp, Or.inl rfl⟩
        | false =>
          simp only [run, Bool.false_eq_true, if_false, GithubIssue.ReopenIssue,
            GithubIssue.CreateComment]
          cases h1 : gi.client.ReopenIssue log env.org (getRepoFromIssue fi.issue)
              fi.issue.Number with
          | some e =>
            refine ⟨[Call.ReopenIssue env.org (getRepoFromIssue fi.issue) fi.issue.Number],
              by simp, by simp, Or.inr (Or.inr ⟨⟨_, rfl⟩, hp2, hf, hc⟩)⟩
          | none =>
            refine ⟨reopenCalls env fi, ?_, by simp,
              Or.inr (Or.inr ⟨List.prefix_refl _, hp2, hf, hc⟩)⟩
            simp only [reopenCalls, openComment]
            split <;> simp_all
      · rw [if_neg hc]
        exact ⟨[], by simp, by simp, Or.inl rfl⟩
    · rw [if_neg hf]
      exact ⟨[], by simp, by simp, Or.inl rfl⟩

/-- The calls of the last part of `updateIssue` outside dry-run on a tracker
whose calls succeed. -/
theorem closeOrReopen_ok (env : Env) (gi : GithubIssue) (fi : flakyIssue) (ts : TestStat)
    (p : Bool) (log : List Call) (hok : MutationsSucceed gi.client) :
    closeOrReopen env gi fi ts p false log =
      (none, log ++
        (if env.isPassed ts = true then
          (if fi.issue.State = IssueOpenState ∧ p = true then closeCalls env fi else [])
         else if env.isFlaky ts = true ∧ fi.issue.State = IssueCloseState then
          reopenCalls env fi
         else [])) := by
  unfold closeOrReopen
  by_cases hp : env.isPassed ts = true
  · rw [if_pos hp, if_pos hp]
    by_cases ho : fi.issue.State = IssueOpenState
    · rw [if_pos ho]
      cases p with
      | false => simp
      | true =>
        simp only [run, Bool.false_eq_true, if_false, if_true, GithubIssue.CloseIssue,
          GithubIssue.CreateComment, hok.closeIssue, hok.createComment, closeCalls,
          closeComment, ho, and_self, List.append_assoc, List.singleton_append]
    · rw [if_neg ho]
      simp [ho]
  · rw [if_neg hp, if_neg hp]
    by_cases hf : env.isFlaky ts = true
    · rw [if_pos hf]
      by_cases hc : fi.issue.State = IssueCloseState
      · rw [if_pos hc]
        simp only [run, Bool.false_eq_true, if_false, GithubIssue.ReopenIssue,
          GithubIssue.CreateComment, hok.reopenIssue, hok.createComment, reopenCalls,
          openComment, hf, hc, and_self, if_true, List.append_assoc, List.singleton_append]
      · rw [if_neg hc]
        simp [hc]
    · rw [if_neg hf]
      simp [hf]

theorem updateIssue_invalid (env : Env) (gi : GithubIssue) (fi : flakyIssue) (newComment : Str)
    (ts : TestStat) (dryrun : Bool) (log : List Call) (status : Str)
    (h : reLastestStatus fi.comment.Body = some status)
    (hbad : status ∉ [env.passedStatus, env.flakyStatus, env.failedStatus, env.lackDataStatus]) :
    updateIssue env gi fi newComment ts dryrun log =
      (some ("invalid test status code found from issue '".toList ++ fi.issue.URL
        ++ "'".toList), log) := by
  unfold updateIssue
  rw [passedLastTime_invalid env fi status h hbad]

/-- The calls of `updateIssue` when the recorded status is absent or a
status: the edit of the comment, then what the last part calls. -/
theorem updateIssue_log (env : Env) (gi : GithubIssue) (fi : flakyIssue) (newComment : Str)
    (ts : TestStat) (dryrun : Bool) (log : List Call)
    (hvalid : ∀ status, reLastestStatus fi.comment.Body = some status →
      status ∈ [env.passedStatus, env.flakyStatus, env.failedStatus, env.lackDataStatus]) :
    ∃ calls, callsMade (updateIssue env gi fi newComment ts dryrun) log =
        (if dryrun = false ∧ (env.isPassed ts = false ∨ fi.issue.State = IssueOpenState)
          then [editCall env fi newComment] else []) ++ calls ∧
      (calls ≠ [] → dryrun = false) ∧
      (calls = [] ∨
        (calls <+: closeCalls env fi ∧ env.isPassed ts = true
          ∧ fi.issue.State = IssueOpenState ∧ passedLast env fi = true) ∨
        (calls <+: reopenCalls env fi ∧ env.isPassed ts = false ∧ env.isFlaky ts = true
          ∧ fi.issue.State = IssueCloseState)) := by
  have h1 := updateComment_log env gi fi newComment ts dryrun log
  unfold callsMade updateIssue
  rw [passedLastTime_valid env fi hvalid]
  simp only
  rcases hr : updateComment env gi fi newComment ts dryrun log with ⟨err, log1⟩
  rw [hr] at h1
  simp only at h1
  cases err with
  | some e =>
    refine ⟨[], ?_, by simp, Or.inl rfl⟩
    simp [h1]
  | none =>
    obtain ⟨calls, hc, hrest⟩ :=
      closeOrReopen_log env gi fi ts (passedLast env fi) dryrun log1
    refine ⟨calls, ?_, hrest⟩
    show List.drop log.length (closeOrReopen env gi fi ts (passedLast env fi) dryrun log1).2 = _
    rw [hc, h1, List.append_assoc, List.drop_left]

/-- The result of `updateIssue` when the recorded status is absent or a
status, outside dry-run, on a tracker whose calls succeed. -/
theorem updateIssue_ok (env : Env) (gi : GithubIssue) (fi : flakyIssue) (newComment : Str)
    (ts : TestStat) (log : List Call) (hok : MutationsSucceed gi.client)
    (hvalid : ∀ status, reLastestStatus fi.comment.Body = some status →
      status ∈ [env.passedStatus, env.flakyStatus, env.failedStatus, env.lackDataStatus]) :
    callsMade (updateIssue env gi fi newComment ts false) log =
      (if env.isPassed ts = false ∨ fi.issue.State = IssueOpenState
        then [editCall env fi newComment] else []) ++
      (if env.isPassed ts = true then
        (if fi.issue.State = IssueOpenState ∧ passedLast env fi = true
          then closeCalls env fi else [])
       else if env.isFlaky ts = true ∧ fi.issue.State = IssueCloseState then
        reopenCalls env fi
       else []) := by
  have h1 := updateComment_log env gi fi newComment ts false log
  have h2 := updateComment_ok env gi fi newComment ts log hok
  unfold callsMade updateIssue
  rw [passedLastTime_valid env fi hvalid]
  simp only
  rcases hr : updateComment env gi fi newComment ts false log with ⟨err, log1⟩
  rw [hr] at h1 h2
  simp only at h1 h2
  subst h2
  show List.drop log.length (closeOrReopen env gi fi ts (passedLast env fi) false log1).2 = _
  rw [closeOrReopen_ok env gi fi ts _ log1 hok, h1]
  simp only [true_and, List.append_assoc, List.drop_left]

theorem updateIssue_invalid_calls (env : Env) (gi : GithubIssue) (fi : flakyIssue)
    (newComment : Str) (ts : TestStat) (dryrun : Bool) (log : List Call)
    (hv : ¬ ∀ status, reLastestStatus fi.comment.Body = some status →
      status ∈ [env.passedStatus, env.flakyStatus, env.failedStatus, env.lackDataStatus]) :
    callsMade (updateIssue env gi fi newComment ts dryrun) log = [] := by
  push_neg at hv
  obtain ⟨status, hst, hbad⟩ := hv
  unfold callsMade
  rw [updateIssue_invalid env gi fi newComment ts dryrun log status hst hbad]
  simp

theorem mem_of_prefix {c : Call} {calls l : List Call} (hp : calls <+: l) (hc : c ∈ calls) :
    c ∈ l :=
  hp.subset hc

/-- Whatever the tracker answers, `updateIssue` sends `CloseIssue` only
outside dry-run, for an open ticket of a passed test that passed last time. -/
theorem updateIssue_close_only (env : Env) (gi : GithubIssue) (fi : flakyIssue)
    (newComment : Str) (ts : TestStat) (dryrun : Bool) (log : List Call)
    (org repo : Str) (n : Int)
    (hc : Call.CloseIssue org repo n ∈ callsMade (updateIssue env gi fi newComment ts dryrun) log) :
    dryrun = false ∧ env.isPassed ts = true ∧ fi.issue.State = IssueOpenState
      ∧ passedLast env fi = true := by
  by_cases hv : ∀ status, reLastestStatus fi.comment.Body = some status →
      status ∈ [env.passedStatus, env.flakyStatus, env.failedStatus, env.lackDataStatus]
  · obtain ⟨calls, heq, hdry, hcases⟩ := updateIssue_log env gi fi newComment ts dryrun log hv
    rw [heq, List.mem_append] at hc
    rcases hc with hc | hc
    · split at hc
      · simp [editCall] at hc
      · simp at hc
    · have hne : calls ≠ [] := List.ne_nil_of_mem hc
      rcases hcases with h | ⟨_, h⟩ | ⟨hpre, _⟩
      · exact absurd h hne
      · exact ⟨hdry hne, h⟩
      · have := mem_of_prefix hpre hc
        simp [reopenCalls] at this
  · rw [updateIssue_invalid_calls env gi fi newComment ts dryrun log hv] at hc
    simp at hc

/-- Whatever the tracker answers, `updateIssue` sends `ReopenIssue` only
outside dry-run, for a closed ticket of a flaky test that did not pass. -/
theorem updateIssue_reopen_only (env : Env) (gi : GithubIssue) (fi : flakyIssue)
    (newComment : Str) (ts : TestStat) (dryrun : Bool) (log : List Call)
    (org repo : Str) (n : Int)
    (hc : Call.ReopenIssue org repo n ∈ callsMade (updateIssue env gi fi newComment ts dryrun) log) :
    dryrun = false ∧ env.isPassed ts = false ∧ env.isFlaky ts = true
      ∧ fi.issue.State = IssueCloseState := by
  by_cases hv : ∀ status, reLastestStatus fi.comment.Body = some status →
      status ∈ [env.passedStatus, env.flakyStatus, env.failedStatus, env.lackDataStatus]
  · obtain ⟨calls, heq, hdry, hcases⟩ := updateIssue_log env gi fi newComment ts dryrun log hv
    rw [heq, List.mem_append] at hc
    rcases hc with hc | hc
    · split at hc
      · simp [editCall] at hc
      · simp at hc
    · have hne : calls ≠ [] := List.ne_nil_of_mem hc
      rcases hcases with h | ⟨hpre, _⟩ | ⟨_, h⟩
      · exact absurd h hne
      · have := mem_of_prefix hpre hc
        simp [closeCalls] at this
      · exact ⟨hdry hne, h⟩
  · rw [updateIssue_invalid_calls env gi fi newComment ts dryrun log hv] at hc
    simp at hc

theorem valid_of_validRecordedStatus (env : Env) (fi : flakyIssue)
    (h : validRecordedStatus env fi) :
    ∀ status, reLastestStatus fi.comment.Body = some status →
      status ∈ [env.passedStatus, env.flakyStatus, env.failedStatus, env.lackDataStatus] := by
  obtain ⟨s, hs, hmem⟩ := h
  intro status hst
  rw [hs] at hst
  cases hst
  exact hmem

/-! ## The history block -/

theorem stringsSplit_length (sep : Char) (s : Str) :
    (stringsSplit sep s).length = s.count sep + 1 := by
  induction s with
  | nil => simp [stringsSplit]
  | cons c cs ih =>
    by_cases h : c = sep
    · subst h
      simp [stringsSplit, ih]
    · have hne : (c == sep) = false := by simpa using h
      cases hs : stringsSplit sep cs with
      | nil => rw [hs] at ih; simp at ih
      | cons q qs =>
        rw [hs] at ih
        simp only [stringsSplit, if_neg h, hs, List.length_cons, List.count_cons, hne] at ih ⊢
        simpa using ih

theorem stringsSplit_no_sep (sep : Char) (s : Str) :
    ∀ piece ∈ stringsSplit sep s, sep ∉ piece := by
  induction s with
  | nil => simp [stringsSplit]
  | cons c cs ih =>
    by_cases h : c = sep
    · intro piece hp
      simp only [stringsSplit, if_pos h, List.mem_cons] at hp
      rcases hp with hp | hp
      · rw [hp]
        exact List.not_mem_nil _
      · exact ih piece hp
    · cases hs : stringsSplit sep cs with
      | nil =>
        intro piece hp
        simp only [stringsSplit, if_neg h, hs, List.mem_singleton] at hp
        rw [hp]
        simpa using Ne.symm h
      | cons q qs =>
        rw [hs] at ih
        intro piece hp
        simp only [stringsSplit, if_neg h, hs, List.mem_cons] at hp
        rcases hp with hp | hp
        · rw [hp]
          have hq := ih q (List.mem_cons_self _ _)
          simp only [List.mem_cons, not_or]
          exact ⟨Ne.symm h, hq⟩
        · exact ih piece (List.mem_cons_of_mem _ hp)

theorem stringsJoin_count (sep : Char) (es : List Str) (hes : ∀ e ∈ es, sep ∉ e) :
    (stringsJoin es [sep]).count sep = es.length - 1 := by
  induction es with
  | nil => simp [stringsJoin]
  | cons e rest ih =>
    cases rest with
    | nil =>
      simp only [stringsJoin, List.length_singleton, Nat.sub_self]
      exact List.count_eq_zero.mpr (hes e (List.mem_cons_self _ _))
    | cons e2 es =>
      have h1 : e.count sep = 0 := List.count_eq_zero.mpr (hes e (List.mem_cons_self _ _))
      have h2 := ih (fun x hx => hes x (List.mem_cons_of_mem _ hx))
      simp only [stringsJoin, List.count_append, h1, h2, List.length_cons]
      simp
      omega

theorem digitChar_ne_newline (d : Nat) : digitChar d ≠ '\n' := by
  unfold digitChar
  split <;> decide

theorem newline_not_mem_fmtNatAux (fuel n : Nat) : '\n' ∉ fmtNatAux fuel n := by
  induction fuel generalizing n with
  | zero =>
    simp only [fmtNatAux, List.mem_singleton]
    exact fun h => digitChar_ne_newline _ h.symm
  | succ k ih =>
    unfold fmtNatAux
    split
    · simp only [List.mem_singleton]
      exact fun h => digitChar_ne_newline _ h.symm
    · simp only [List.mem_append, List.mem_singleton, not_or]
      exact ⟨ih _, fun h => digitChar_ne_newline _ h.symm⟩

theorem newline_not_mem_fmtInt (n : Int) : '\n' ∉ fmtInt n := by
  unfold fmtInt
  split
  · simp only [List.mem_cons, not_or]
    exact ⟨by decide, newline_not_mem_fmtNatAux _ _⟩
  · exact newline_not_mem_fmtNatAux _ _

theorem newline_not_mem_statusUnicode (st : TestStatusEnum) : '\n' ∉ statusUnicode st := by
  cases st <;> decide

theorem historyLinks_some (jobName : Str) (resultSlice : List TestStatusEnum)
    (hname : '\n' ∉ jobName) (buildIDs : List Int) (i : Nat)
    (hlen : i + buildIDs.length ≤ resultSlice.length) :
    ∃ links, historyLinks jobName resultSlice i buildIDs = some links ∧ '\n' ∉ links := by
  induction buildIDs generalizing i with
  | nil => exact ⟨[], rfl, List.not_mem_nil _⟩
  | cons b rest ih =>
    have hi : i < resultSlice.length := by
      simp only [List.length_cons] at hlen
      omega
    obtain ⟨more, hmore, hnl⟩ := ih (i + 1) (by
      simp only [List.length_cons] at hlen
      omega)
    have hget : resultSlice.get? i = some (resultSlice.get ⟨i, hi⟩) := List.get?_eq_get hi
    refine ⟨_, by simp only [historyLinks, hget, hmore, Option.map_some']; rfl, ?_⟩
    have h1 : '\n' ∉ " [".toList := by decide
    have h2 : '\n' ∉ "](".toList := by decide
    have h3 : '\n' ∉ jobLogsURL := by decide
    have h4 : '\n' ∉ "/".toList := by decide
    have h5 : '\n' ∉ ")".toList := by decide
    have h6 := newline_not_mem_statusUnicode (resultSlice.get ⟨i, hi⟩)
    have h7 := newline_not_mem_fmtInt b
    simp only [List.mem_append, not_or]
    exact ⟨⟨⟨⟨⟨h1, h6⟩, h2⟩, ⟨⟨⟨h3, hname⟩, h4⟩, h7⟩⟩, h5⟩, hnl⟩

theorem historyBlock_count (cur comment : Str) (hcur : '\n' ∉ cur) :
    (historyBlock cur comment).count '\n' + 1 ≤ maxHistoryEntries := by
  have hc : cur.count '\n' = 0 := List.count_eq_zero.mpr hcur
  unfold historyBlock
  cases hre : reHistory comment with
  | none =>
    simp only [List.cons_append, List.count_cons_self, List.count_append, hc]
    decide
  | some old =>
    simp only [List.cons_append, List.count_cons_self, List.count_append, hc]
    have hpieces := stringsSplit_no_sep '\n' old
    split
    · rw [show "\n".toList = ['\n'] from rfl, stringsJoin_count '\n' _
        (fun e he => hpieces e (List.mem_of_mem_take he))]
      simp only [List.length_take, maxHistoryEntries]
      omega
    · rename_i hlt
      rw [show "\n".toList = ['\n'] from rfl, stringsJoin_count '\n' _ hpieces]
      simp only [maxHistoryEntries] at hlt ⊢
      omega

theorem historyEntries_length_le (block : Str) :
    (historyEntries block).length ≤ block.count '\n' + 1 := by
  unfold historyEntries
  rw [← stringsSplit_length]
  exact List.length_filter_le _ _

theorem lazyCapture_dotAll_prefix (post b rest : Str) :
    ∃ x, lazyCapture post true (b ++ (post ++ rest)) = some x ∧ x <+: b := by
  induction b with
  | nil => exact ⟨[], by simpa using lazyCapture_prefix post true rest, List.prefix_refl _⟩
  | cons c cs ih =>
    obtain ⟨x, hx, hpre⟩ := ih
    by_cases hp : post <+: c :: (cs ++ (post ++ rest))
    · exact ⟨[], by simp [lazyCapture, hp], List.nil_prefix⟩
    · refine ⟨c :: x, by simp [lazyCapture, hp, hx], ?_⟩
      obtain ⟨t, ht⟩ := hpre
      exact ⟨t, by simp [ht]⟩

theorem reHistory_historyPattern (block : Str) :
    ∃ captured, reHistory (historyPattern block) = some captured ∧ captured <+: block := by
  obtain ⟨x, hx, hpre⟩ := lazyCapture_dotAll_prefix afterHistoryToken block
    (('\n' :: passedUnicode) ++ " Passed\t".toList ++ failedUnicode ++ " Failed\t".toList
      ++ skippedUnicode ++ " Skipped\n".toList)
  refine ⟨x, ?_, hpre⟩
  have hshape : historyPattern block = ['\n'] ++ (beforeHistoryToken ++ (block ++
      (afterHistoryToken ++ (('\n' :: passedUnicode) ++ " Passed\t".toList ++ failedUnicode
        ++ " Failed\t".toList ++ skippedUnicode ++ " Skipped\n".toList)))) := by
    simp only [historyPattern, List.append_assoc, List.singleton_append, List.cons_append,
      List.nil_append]
  rw [hshape, reHistory, findLazyBetween_skip]
  · exact findLazyBetween_here _ _ _ _ _ hx
  · exact noStart_of_head_not_mem '<' _ _ _ (by decide)

/-! ## `createNewIssue` -/

theorem createIssueStep_dry (gi : GithubIssue) (org repoForIssue title body : Str)
    (log : List Call) :
    createIssueStep gi org repoForIssue title body true log = ((none, none), log) := by
  simp [createIssueStep, runCapturing]

theorem createIssueStep_ok (gi : GithubIssue) (org repoForIssue title body : Str)
    (log : List Call) (issue : Issue)
    (h : gi.client.CreateIssue log org repoForIssue title body = .ok issue) :
    createIssueStep gi org repoForIssue title body false log =
      ((none, some issue), log ++ [Call.CreateIssue org repoForIssue title body]) := by
  simp [createIssueStep, runCapturing, GithubIssue.CreateIssue, h]

theorem createIssueStep_error (gi : GithubIssue) (org repoForIssue title body : Str)
    (log : List Call) (err : Str)
    (h : gi.client.CreateIssue log org repoForIssue title body = .error err) :
    createIssueStep gi org repoForIssue title body false log =
      ((some err, none), log ++ [Call.CreateIssue org repoForIssue title body]) := by
  simp [createIssueStep, runCapturing, GithubIssue.CreateIssue, h]

theorem addCommentStep_dry (gi : GithubIssue) (org repoForIssue comment : Str)
    (newIssue : Option Issue) (log : List Call) :
    addCommentStep gi org repoForIssue comment newIssue true log = (some [], log) := by
  simp [addCommentStep, runCapturing]

theorem addCommentStep_run (gi : GithubIssue) (org repoForIssue comment : Str)
    (issue : Issue) (log : List Call) :
    addCommentStep gi org repoForIssue comment (some issue) false log =
      (some (match gi.client.CreateComment log org repoForIssue issue.Number comment with
          | none => []
          | some err => ["failed adding comment to issue '".toList ++ issue.URL
              ++ "', '".toList ++ err ++ "'".toList]),
        log ++ [Call.CreateComment org repoForIssue issue.Number comment]) := by
  cases h : gi.client.CreateComment log org repoForIssue issue.Number comment <;>
    simp [addCommentStep, runCapturing, GithubIssue.CreateComment, h]

theorem addLabelStep_dry (env : Env) (gi : GithubIssue) (org repoForIssue : Str)
    (newIssue : Option Issue) (errs : List Str) (log : List Call) :
    addLabelStep env gi org repoForIssue newIssue errs true log = (some errs, log) := by
  unfold addLabelStep
  split <;> simp [runCapturing]

theorem addLabelStep_skip (env : Env) (gi : GithubIssue) (org repoForIssue : Str)
    (newIssue : Option Issue) (errs : List Str) (dryrun : Bool) (log : List Call)
    (h : env.combineErrors errs ≠ none) :
    addLabelStep env gi org repoForIssue newIssue errs dryrun log = (some errs, log) := by
  unfold addLabelStep
  rw [if_neg h]

theorem addLabelStep_run (env : Env) (gi : GithubIssue) (org repoForIssue : Str)
    (issue : Issue) (errs : List Str) (log : List Call)
    (h : env.combineErrors errs = none) :
    addLabelStep env gi org repoForIssue (some issue) errs false log =
      (some (match gi.client.AddLabelsToIssue log org repoForIssue issue.Number [flakyLabel] with
          | none => errs
          | some err => errs ++ ["failed adding '".toList ++ flakyLabel
              ++ "' label to issue '".toList ++ issue.URL ++ "', '".toList ++ err
              ++ "'".toList]),
        log ++ [Call.AddLabelsToIssue org repoForIssue issue.Number [flakyLabel]]) := by
  unfold addLabelStep
  rw [if_pos h]
  cases h2 : gi.client.AddLabelsToIssue log org repoForIssue issue.Number [flakyLabel] <;>
    simp [runCapturing, GithubIssue.AddLabelsToIssue, h2]

theorem cleanupStep_dry (env : Env) (gi : GithubIssue) (org repoForIssue : Str)
    (newIssue : Option Issue) (errs : List Str) (log : List Call) :
    cleanupStep env gi org repoForIssue newIssue errs true log = (some errs, log) := by
  unfold cleanupStep
  split <;> simp [runCapturing]

theorem cleanupStep_skip (env : Env) (gi : GithubIssue) (org repoForIssue : Str)
    (newIssue : Option Issue) (errs : List Str) (dryrun : Bool) (log : List Call)
    (h : env.combineErrors errs = none) :
    cleanupStep env gi org repoForIssue newIssue errs dryrun log = (some errs, log) := by
  unfold cleanupStep
  rw [if_neg (by simpa using h)]

theorem cleanupStep_run (env : Env) (gi : GithubIssue) (org repoForIssue : Str)
    (issue : Issue) (errs : List Str) (log : List Call)
    (h : env.combineErrors errs ≠ none) :
    ∃ more, cleanupStep env gi org repoForIssue (some issue) errs false log =
      (some (errs ++ more),
        log ++ [Call.RemoveLabelForIssue org repoForIssue issue.Number flakyLabel,
          Call.CloseIssue org repoForIssue issue.Number]) := by
  unfold cleanupStep
  rw [if_pos h]
  simp only [runCapturing, Bool.false_eq_true, if_false, GithubIssue.RemoveLabelForIssue,
    GithubIssue.CloseIssue, List.append_assoc, List.singleton_append]
  cases h2 : env.combineErrors
      ((gi.client.RemoveLabelForIssue log org repoForIssue issue.Number flakyLabel).toList ++
        (gi.client.CloseIssue
          (log ++ [Call.RemoveLabelForIssue org repoForIssue issue.Number flakyLabel])
          org repoForIssue issue.Number).toList) with
  | none => exact ⟨[], by simp⟩
  | some err => exact ⟨[err], by simp⟩

/-- The result of `createNewIssue` outside dry-run when `CreateIssue`
succeeded and `CreateComment` failed. -/
theorem createNewIssue_comment_fails (env : Env) (gi : GithubIssue)
    (org repoForIssue title body comment : Str) (log : List Call) (issue : Issue) (e : Str)
    (hce : CombinesErrors env)
    (hcreate : gi.client.CreateIssue log org repoForIssue title body = .ok issue)
    (hcomment : gi.client.CreateComment (log ++ [Call.CreateIssue org repoForIssue title body])
      org repoForIssue issue.Number comment = some e) :
    ∃ errs, errs ≠ [] ∧ createNewIssue env gi org repoForIssue title body comment false log =
      (some (env.combineErrors errs),
        log ++ [Call.CreateIssue org repoForIssue title body,
          Call.CreateComment org repoForIssue issue.Number comment,
          Call.RemoveLabelForIssue org repoForIssue issue.Number flakyLabel,
          Call.CloseIssue org repoForIssue issue.Number]) := by
  obtain ⟨more, hclean⟩ := cleanupStep_run env gi org repoForIssue issue
    ["failed adding comment to issue '".toList ++ issue.URL ++ "', '".toList ++ e
      ++ "'".toList]
    (log ++ [Call.CreateIssue org repoForIssue title body] ++
      [Call.CreateComment org repoForIssue issue.Number comment]) (hce.cons _ _)
  refine ⟨["failed adding comment to issue '".toList ++ issue.URL ++ "', '".toList ++ e
      ++ "'".toList] ++ more, by simp, ?_⟩
  unfold createNewIssue
  rw [createIssueStep_ok gi org repoForIssue title body log issue hcreate]
  simp only
  rw [addCommentStep_run, hcomment]
  simp only
  rw [addLabelStep_skip env gi org repoForIssue _ _ _ _ (hce.cons _ _)]
  simp only
  rw [hclean]
  simp

/-- The result of `createNewIssue` outside dry-run when `CreateIssue` and
`CreateComment` succeeded and `AddLabelsToIssue` failed. -/
theorem createNewIssue_label_fails (env : Env) (gi : GithubIssue)
    (org repoForIssue title body comment : Str) (log : List Call) (issue : Issue) (e : Str)
    (hce : CombinesErrors env)
    (hcreate : gi.client.CreateIssue log org repoForIssue title body = .ok issue)
    (hcomment : gi.client.CreateComment (log ++ [Call.CreateIssue org repoForIssue title body])
      org repoForIssue issue.Number comment = none)
    (hlabel : gi.client.AddLabelsToIssue
      (log ++ [Call.CreateIssue org repoForIssue title body,
        Call.CreateComment org repoForIssue issue.Number comment])
      org repoForIssue issue.Number [flakyLabel] = some e) :
    ∃ errs, errs ≠ [] ∧ createNewIssue env gi org repoForIssue title body comment false log =
      (some (env.combineErrors errs),
        log ++ [Call.CreateIssue org repoForIssue title body,
          Call.CreateComment org repoForIssue issue.Number comment,
          Call.AddLabelsToIssue org repoForIssue issue.Number [flakyLabel],
          Call.RemoveLabelForIssue org repoForIssue issue.Number flakyLabel,
          Call.CloseIssue org repoForIssue issue.Number]) := by
  have hlog : log ++ [Call.CreateIssue org repoForIssue title body] ++
      [Call.CreateComment org repoForIssue issue.Number comment] =
      log ++ [Call.CreateIssue org repoForIssue title body,
        Call.CreateComment org repoForIssue issue.Number comment] := by simp
  obtain ⟨more, hclean⟩ := cleanupStep_run env gi org repoForIssue issue
    ([] ++ ["failed adding '".toList ++ flakyLabel ++ "' label to issue '".toList ++ issue.URL
      ++ "', '".toList ++ e ++ "'".toList])
    (log ++ [Call.CreateIssue org repoForIssue title body,
        Call.CreateComment org repoForIssue issue.Number comment] ++
      [Call.AddLabelsToIssue org repoForIssue issue.Number [flakyLabel]]) (hce.cons _ _)
  refine ⟨([] ++ ["failed adding '".toList ++ flakyLabel ++ "' label to issue '".toList
      ++ issue.URL ++ "', '".toList ++ e ++ "'".toList]) ++ more, by simp, ?_⟩
  unfold createNewIssue
  rw [createIssueStep_ok gi org repoForIssue title body log issue hcreate]
  simp only
  rw [addCommentStep_run, hcomment]
  simp only
  rw [hlog, addLabelStep_run env gi org repoForIssue issue [] _ hce.nil, hlabel]
  simp only
  rw [hclean]
  simp

/-- The result of `createNewIssue` outside dry-run when its three steps
succeeded. -/
theorem createNewIssue_all_succeed (env : Env) (gi : GithubIssue)
    (org repoForIssue title body comment : Str) (log : List Call) (issue : Issue)
    (hce : CombinesErrors env)
    (hcreate : gi.client.CreateIssue log org repoForIssue title body = .ok issue)
    (hcomment : gi.client.CreateComment (log ++ [Call.CreateIssue org repoForIssue title body])
      org repoForIssue issue.Number comment = none)
    (hlabel : gi.client.AddLabelsToIssue
      (log ++ [Call.CreateIssue org repoForIssue title body,
        Call.CreateComment org repoForIssue issue.Number comment])
      org repoForIssue issue.Number [flakyLabel] = none) :
    createNewIssue env gi org repoForIssue title body comment false log =
      (some none,
        log ++ [Call.CreateIssue org repoForIssue title body,
          Call.CreateComment org repoForIssue issue.Number comment,
          Call.AddLabelsToIssue org repoForIssue issue.Number [flakyLabel]]) := by
  have hlog : log ++ [Call.CreateIssue org repoForIssue title body] ++
      [Call.CreateComment org repoForIssue issue.Number comment] =
      log ++ [Call.CreateIssue org repoForIssue title body,
        Call.CreateComment org repoForIssue issue.Number comment] := by simp
  unfold createNewIssue
  rw [createIssueStep_ok gi org repoForIssue title body log issue hcreate]
  simp only
  rw [addCommentStep_run, hcomment]
  simp only
  rw [hlog, addLabelStep_run env gi org repoForIssue issue [] _ hce.nil, hlabel]
  simp only
  rw [cleanupStep_skip env gi org repoForIssue _ _ _ _ hce.nil]
  simp [hce.nil]

/-- The result of `createNewIssue` in dry-run. -/
theorem createNewIssue_dry (env : Env) (gi : GithubIssue)
    (org repoForIssue title body comment : Str) (log : List Call)
    (hnil : env.combineErrors [] = none) :
    createNewIssue env gi org repoForIssue title body comment true log = (some none, log) := by
  unfold createNewIssue
  rw [createIssueStep_dry]
  simp only
  rw [addCommentStep_dry]
  simp only
  rw [addLabelStep_dry]
  simp only
  rw [cleanupStep_dry]
  simp [hnil]

theorem callsMade_append {α : Type} (t : Tracker α) (log calls : List Call) (a : α)
    (h : t log = (a, log ++ calls)) : callsMade t log = calls := by
  simp [callsMade, h]

theorem sampleEnv_combinesErrors : CombinesErrors sampleEnv :=
  ⟨rfl, fun _ _ => by simp [sampleEnv]⟩

theorem updateIssue_dry (env : Env) (gi : GithubIssue) (fi : flakyIssue) (newComment : Str)
    (ts : TestStat) (log : List Call)
    (hvalid : ∀ status, reLastestStatus fi.comment.Body = some status →
      status ∈ [env.passedStatus, env.flakyStatus, env.failedStatus, env.lackDataStatus]) :
    updateIssue env gi fi newComment ts true log = (none, log) := by
  have h1 : updateComment env gi fi newComment ts true log = (none, log) := by
    unfold updateComment run
    split <;> simp
  have h2 : ∀ p, closeOrReopen env gi fi ts p true log = (none, log) := by
    intro p
    unfold closeOrReopen run
    repeat' split
    all_goals simp_all
  unfold updateIssue
  rw [passedLastTime_valid env fi hvalid]
  simp only [h1, h2]

/-! ## The order of the history block -/

theorem stringsSplit_ne_nil (sep : Char) (s : Str) : stringsSplit sep s ≠ [] := by
  intro h
  have := stringsSplit_length sep s
  rw [h] at this
  simp at this

theorem stringsSplit_cons_sep (sep : Char) (s : Str) :
    stringsSplit sep (sep :: s) = [] :: stringsSplit sep s := by
  simp [stringsSplit]

theorem stringsSplit_line_append (sep : Char) (a r : Str) (ha : sep ∉ a) :
    stringsSplit sep (a ++ sep :: r) = a :: stringsSplit sep r := by
  induction a with
  | nil => exact stringsSplit_cons_sep sep r
  | cons c cs ih =>
    simp only [List.mem_cons, not_or] at ha
    have hc : ¬ c = sep := fun h => ha.1 h.symm
    simp only [List.cons_append, stringsSplit, if_neg hc, List.append_eq, ih ha.2]

theorem stringsSplit_line (sep : Char) (a : Str) (ha : sep ∉ a) :
    stringsSplit sep a = [a] := by
  induction a with
  | nil => rfl
  | cons c cs ih =>
    simp only [List.mem_cons, not_or] at ha
    have hc : ¬ c = sep := fun h => ha.1 h.symm
    simp only [stringsSplit, if_neg hc, ih ha.2]

theorem stringsSplit_join (sep : Char) (pieces : List Str) (hne : pieces ≠ [])
    (hp : ∀ piece ∈ pieces, sep ∉ piece) :
    stringsSplit sep (stringsJoin pieces [sep]) = pieces := by
  induction pieces with
  | nil => exact absurd rfl hne
  | cons e rest ih =>
    cases rest with
    | nil => exact stringsSplit_line sep e (hp e (List.mem_cons_self _ _))
    | cons e2 es =>
      have h1 := ih (by simp) (fun x hx => hp x (List.mem_cons_of_mem _ hx))
      simp only [stringsJoin, List.append_assoc, List.singleton_append]
      rw [stringsSplit_line_append sep e _ (hp e (List.mem_cons_self _ _)), h1]

theorem stringsJoin_nil_cons (pieces : List Str) (sep : Str) (hne : pieces ≠ []) :
    stringsJoin ([] :: pieces) sep = sep ++ stringsJoin pieces sep := by
  cases pieces with
  | nil => exact absurd rfl hne
  | cons e es => simp [stringsJoin]

theorem historyBlock_starts_with_newline (cur comment : Str) :
    ∃ rest, historyBlock cur comment = '\n' :: rest := by
  unfold historyBlock
  cases reHistory comment with
  | none => exact ⟨_, rfl⟩
  | some old => exact ⟨_, rfl⟩

/-- The entries of the block rendered over an old block that starts with a
line break: the current line, then the first entries of the old block. -/
theorem historyBlock_entries (cur comment rest : Str) (hcur : '\n' ∉ cur) (hne : cur ≠ [])
    (hre : reHistory comment = some ('\n' :: rest)) :
    ∃ m, m ≤ (historyEntries ('\n' :: rest)).length ∧
      historyEntries (historyBlock cur comment) =
        cur :: (historyEntries ('\n' :: rest)).take m := by
  have hS := stringsSplit_ne_nil '\n' rest
  have hpieces := stringsSplit_no_sep '\n' rest
  -- the pieces kept of the old block, without the empty first one
  obtain ⟨kept, hkept, hpfx, hkne⟩ : ∃ kept : List Str,
      (if (stringsSplit '\n' ('\n' :: rest)).length ≥ maxHistoryEntries
        then (stringsSplit '\n' ('\n' :: rest)).take (maxHistoryEntries - 1)
        else stringsSplit '\n' ('\n' :: rest)) = [] :: kept
      ∧ kept <+: stringsSplit '\n' rest ∧ kept ≠ [] := by
    rw [stringsSplit_cons_sep]
    split
    · refine ⟨(stringsSplit '\n' rest).take 8, rfl, List.take_prefix _ _, ?_⟩
      cases h : stringsSplit '\n' rest with
      | nil => exact absurd h hS
      | cons a as => simp
    · exact ⟨stringsSplit '\n' rest, rfl, List.prefix_refl _, hS⟩
  have hblock : historyBlock cur comment = '\n' :: (cur ++ '\n' :: stringsJoin kept ['\n']) := by
    unfold historyBlock
    rw [hre]
    simp only
    rw [hkept, show "\n".toList = ['\n'] from rfl, stringsJoin_nil_cons kept _ hkne]
    simp
  have hsplit : stringsSplit '\n' (historyBlock cur comment) = [] :: cur :: kept := by
    rw [hblock, stringsSplit_cons_sep, stringsSplit_line_append '\n' cur _ hcur,
      stringsSplit_join '\n' kept hkne (fun q hq => hpieces q (hpfx.subset hq))]
  have hfilter : (kept.filter (fun line => !line.isEmpty)) <+:
      (stringsSplit '\n' rest).filter (fun line => !line.isEmpty) := hpfx.filter _
  have hcurne : (!cur.isEmpty) = true := by
    cases cur with
    | nil => exact absurd rfl hne
    | cons c cs => rfl
  refine ⟨(kept.filter (fun line => !line.isEmpty)).length, ?_, ?_⟩
  · unfold historyEntries
    rw [stringsSplit_cons_sep]
    simpa using hfilter.length_le
  · unfold historyEntries
    rw [hsplit, stringsSplit_cons_sep]
    simp only [List.filter_cons, List.isEmpty_nil, Bool.not_true, Bool.false_eq_true, if_false,
      hcurne, if_true]
    rw [← List.prefix_iff_eq_take.mp hfilter]

/-! ## `findExistingComment` -/

theorem commentCreatedBefore_irrefl (a : IssueComment) : commentCreatedBefore a a = false := by
  unfold commentCreatedBefore
  cases a.CreatedAt <;> simp

theorem not_commentCreatedBefore_trans (a b c : IssueComment)
    (hab : commentCreatedBefore b a = false) (hbc : commentCreatedBefore c b = false) :
    commentCreatedBefore c a = false := by
  unfold commentCreatedBefore at *
  cases ha : a.CreatedAt <;> cases hb : b.CreatedAt <;>
    cases hc : c.CreatedAt <;> simp_all
  omega

theorem not_commentCreatedBefore_total (a b : IssueComment) :
    commentCreatedBefore b a = false ∨ commentCreatedBefore a b = false := by
  unfold commentCreatedBefore
  cases ha : a.CreatedAt <;> cases hb : b.CreatedAt <;> simp
  omega

theorem sampleSortComments_perm (l : List IssueComment) :
    (sampleSortComments commentCreatedBefore l).Perm l :=
  List.mergeSort_perm l _

theorem sampleSortComments_sorted (l : List IssueComment) :
    (sampleSortComments commentCreatedBefore l).Pairwise
      (fun a b => commentCreatedBefore b a = false) := by
  have h := @List.sorted_mergeSort IssueComment (fun a b => !commentCreatedBefore b a)
    (by
      intro a b c hab hbc
      simp only [Bool.not_eq_true', Bool.not_eq_eq_eq_not, Bool.not_true] at hab hbc ⊢
      exact not_commentCreatedBefore_trans a b c hab hbc)
    (by
      intro a b
      rcases not_commentCreatedBefore_total a b with h | h <;> simp [h])
    l
  exact h.imp (by
    intro a b hab
    simpa using hab)

/-- The result of `findExistingComment` when `ListComments` succeeds. -/
theorem findExistingComment_listed
    (sortSlice : (IssueComment → IssueComment → Bool) → List IssueComment → List IssueComment)
    (env : Env) (gi : GithubIssue) (issue : Issue) (issueIdentity : Str) (log : List Call)
    (comments : List IssueComment)
    (hlist : gi.client.ListComments log env.org (getRepoFromIssue issue) issue.Number
      = .ok comments) :
    findExistingComment sortSlice env gi issue issueIdentity log =
      ((match (sortSlice commentCreatedBefore comments).find? (isAutoComment gi issueIdentity) with
        | some targetComment => .ok targetComment
        | none => .error "no comment match".toList),
       log ++ [Call.ListComments env.org (getRepoFromIssue issue) issue.Number]) := by
  unfold findExistingComment GithubIssue.ListComments
  rw [hlist]
  simp only
  split <;> rfl

/-! ## `getFlakyIssues` -/

theorem mapAppend_fresh (env : Env) (issuesMap : IssuesMap) (k : Str) (fi : flakyIssue)
    (hm : AllFresh env issuesMap) (hfi : closedLongAgo env fi.issue = false) :
    AllFresh env (mapAppend issuesMap k fi) := by
  induction issuesMap with
  | nil =>
    intro entry he x hx
    simp only [mapAppend, List.mem_singleton] at he
    subst he
    simp only [List.mem_singleton] at hx
    rw [hx]
    exact hfi
  | cons head rest ih =>
    obtain ⟨k2, v⟩ := head
    have hrest : AllFresh env rest := fun e he => hm e (List.mem_cons_of_mem _ he)
    have hhead := hm (k2, v) (List.mem_cons_self _ _)
    intro entry he x hx
    unfold mapAppend at he
    split at he
    · rcases List.mem_cons.mp he with h | h
      · subst h
        rcases List.mem_append.mp hx with h2 | h2
        · exact hhead x h2
        · simp only [List.mem_singleton] at h2
          rw [h2]
          exact hfi
      · exact hrest entry h x hx
    · rcases List.mem_cons.mp he with h | h
      · subst h
        exact hhead x hx
      · exact ih hrest entry h x hx

theorem indexIssue_fresh
    (sortSlice : (IssueComment → IssueComment → Bool) → List IssueComment → List IssueComment)
    (env : Env) (gi : GithubIssue) (issuesMap result : IssuesMap) (issue : Issue)
    (log : List Call) (hm : AllFresh env issuesMap)
    (h : (indexIssue sortSlice env gi issuesMap issue log).1 = .ok result) :
    AllFresh env result := by
  unfold indexIssue at h
  by_cases hold : closedLongAgo env issue = true
  · rw [if_pos hold] at h
    simp only [Except.ok.injEq] at h
    rw [← h]
    exact hm
  · rw [if_neg hold] at h
    have hfresh : closedLongAgo env issue = false := by simpa using hold
    cases hid : reTestIdentifier issue.Body with
    | none =>
      rw [hid] at h
      exact absurd h (by simp)
    | some identity =>
      rw [hid] at h
      simp only at h
      rcases hf : findExistingComment sortSlice env gi issue identity log with ⟨r, log2⟩
      rw [hf] at h
      cases r with
      | error e => exact absurd h (by simp)
      | ok c =>
        simp only [Except.ok.injEq] at h
        rw [← h]
        exact mapAppend_fresh env issuesMap identity _ hm hfresh

theorem indexIssues_fresh
    (sortSlice : (IssueComment → IssueComment → Bool) → List IssueComment → List IssueComment)
    (env : Env) (gi : GithubIssue) (issues : List Issue) :
    ∀ (issuesMap result : IssuesMap) (log : List Call), AllFresh env issuesMap →
      (indexIssues sortSlice env gi issuesMap issues log).1 = .ok result →
      AllFresh env result := by
  induction issues with
  | nil =>
    intro issuesMap result log hm h
    simp only [indexIssues, Except.ok.injEq] at h
    rw [← h]
    exact hm
  | cons issue rest ih =>
    intro issuesMap result log hm h
    unfold indexIssues at h
    rcases hstep : indexIssue sortSlice env gi issuesMap issue log with ⟨r, log2⟩
    rw [hstep] at h
    cases r with
    | error e => exact absurd h (by simp)
    | ok m2 =>
      simp only at h
      have hm2 := indexIssue_fresh sortSlice env gi issuesMap m2 issue log hm (by rw [hstep])
      exact ih m2 result log2 hm2 h

theorem indexRepos_fresh
    (sortSlice : (IssueComment → IssueComment → Bool) → List IssueComment → List IssueComment)
    (env : Env) (gi : GithubIssue) (repos : List Str) :
    ∀ (issuesMap result : IssuesMap) (log : List Call), AllFresh env issuesMap →
      (indexRepos sortSlice env gi issuesMap repos log).1 = .ok result →
      AllFresh env result := by
  induction repos with
  | nil =>
    intro issuesMap result log hm h
    simp only [indexRepos, Except.ok.injEq] at h
    rw [← h]
    exact hm
  | cons repo rest ih =>
    intro issuesMap result log hm h
    unfold indexRepos at h
    rcases hl : gi.ListIssuesByRepo env.org repo [flakyLabel] log with ⟨r, log2⟩
    rw [hl] at h
    cases r with
    | error e => exact absurd h (by simp)
    | ok issues =>
      simp only at h
      rcases hi : indexIssues sortSlice env gi issuesMap issues log2 with ⟨r2, log3⟩
      rw [hi] at h
      cases r2 with
      | error e => exact absurd h (by simp)
      | ok m2 =>
        simp only at h
        have hm2 := indexIssues_fresh sortSlice env gi issues issuesMap m2 log2 hm (by rw [hi])
        exact ih m2 result log3 hm2 h

theorem pruneStep_subset (st st2 : PruneState) (i : Nat) (h : pruneStep st i = some st2) :
    ∀ x ∈ st2.backing, x ∈ st.backing := by
  unfold pruneStep at h
  cases hget : st.backing.get? i with
  | none =>
    rw [hget] at h
    exact absurd h (by simp)
  | some fi =>
    rw [hget] at h
    simp only at h
    split at h
    · split at h
      · simp only [Option.some.injEq] at h
        rw [← h]
        intro x hx
        simp only [List.mem_append] at hx
        rcases hx with (hx | hx) | hx
        · exact List.mem_of_mem_take hx
        · exact List.mem_of_mem_take (List.mem_of_mem_drop hx)
        · exact List.mem_of_mem_drop hx
      · exact absurd h (by simp)
    · simp only [Option.some.injEq] at h
      rw [← h]
      exact fun x hx => hx

theorem pruneLoop_subset (indices : List Nat) :
    ∀ (st st2 : PruneState), indices.foldlM pruneStep st = some st2 →
      ∀ x ∈ st2.backing, x ∈ st.backing := by
  induction indices with
  | nil =>
    intro st st2 h
    simp only [List.foldlM_nil, Option.pure_def, Option.some.injEq] at h
    rw [← h]
    exact fun x hx => hx
  | cons i rest ih =>
    intro st st2 h
    simp only [List.foldlM_cons, Option.bind_eq_bind] at h
    cases hstep : pruneStep st i with
    | none =>
      rw [hstep] at h
      exact absurd h (by simp)
    | some st1 =>
      rw [hstep] at h
      simp only [Option.some_bind] at h
      intro x hx
      exact pruneStep_subset st st1 i hstep x (ih st1 st2 h x hx)

theorem pruneClosed_subset (v result : List flakyIssue) (h : pruneClosed v = some result) :
    ∀ x ∈ result, x ∈ v := by
  unfold pruneClosed at h
  cases hloop : (List.range v.length).foldlM pruneStep { backing := v, len := v.length } with
  | none =>
    rw [hloop] at h
    exact absurd h (by simp)
  | some st =>
    rw [hloop] at h
    simp only [Option.map_some', Option.some.injEq] at h
    rw [← h]
    intro x hx
    exact pruneLoop_subset _ _ st hloop x (List.mem_of_mem_take hx)

theorem reconcile_subset
    (sortSlice : (flakyIssue → flakyIssue → Bool) → List flakyIssue → List flakyIssue)
    (hperm : ∀ l, (sortSlice createdBefore l).Perm l)
    (v result : List flakyIssue) (h : reconcile sortSlice v = some result) :
    ∀ x ∈ result, x ∈ v := by
  unfold reconcile at h
  simp only at h
  split at h
  · exact pruneClosed_subset v result h
  · split at h
    · cases hs : sortSlice createdBefore v with
      | nil =>
        rw [hs] at h
        exact absurd h (by simp)
      | cons first rest =>
        rw [hs] at h
        simp only [Option.some.injEq] at h
        rw [← h]
        intro x hx
        simp only [List.mem_singleton] at hx
        rw [hx]
        exact (hperm v).subset (by rw [hs]; exact List.mem_cons_self _ _)
    · simp only [Option.some.injEq] at h
      rw [← h]
      exact fun x hx => hx

theorem reconcileAll_fresh
    (sortSlice : (flakyIssue → flakyIssue → Bool) → List flakyIssue → List flakyIssue)
    (hperm : ∀ l, (sortSlice createdBefore l).Perm l) (env : Env) (issuesMap : IssuesMap) :
    ∀ result, AllFresh env issuesMap → reconcileAll sortSlice issuesMap = some result →
      AllFresh env result := by
  induction issuesMap with
  | nil =>
    intro result _ h
    simp only [reconcileAll, Option.some.injEq] at h
    rw [← h]
    intro entry he
    exact absurd he (List.not_mem_nil _)
  | cons head rest ih =>
    obtain ⟨k, v⟩ := head
    intro result hm h
    unfold reconcileAll at h
    cases hv : reconcile sortSlice v with
    | none =>
      rw [hv] at h
      exact absurd h (by simp)
    | some v2 =>
      cases hr : reconcileAll sortSlice rest with
      | none =>
        rw [hv, hr] at h
        exact absurd h (by simp)
      | some rest2 =>
        rw [hv, hr] at h
        simp only [Option.some.injEq] at h
        rw [← h]
        have hrest := ih rest2 (fun e he => hm e (List.mem_cons_of_mem _ he)) hr
        intro entry he x hx
        rcases List.mem_cons.mp he with h2 | h2
        · subst h2
          exact hm (k, v) (List.mem_cons_self _ _) x
            (reconcile_subset sortSlice hperm v v2 hv x hx)
        · exact hrest entry h2 x hx

theorem insertSorted_perm {α : Type} (less : α → α → Bool) (x : α) (l : List α) :
    (insertSorted less x l).Perm (x :: l) := by
  induction l with
  | nil => exact List.Perm.refl _
  | cons y ys ih =>
    unfold insertSorted
    split
    · exact List.Perm.refl _
    · exact (List.Perm.cons y ih).trans (List.Perm.swap x y ys)

theorem sampleInsertionSort_perm {α : Type} (less : α → α → Bool) (l : List α) :
    (sampleInsertionSort less l).Perm l := by
  induction l with
  | nil => exact List.Perm.refl _
  | cons x xs ih =>
    unfold sampleInsertionSort
    exact (insertSorted_perm less x _).trans (List.Perm.cons x ih)

/-- The result of `indexIssue` for a ticket that is not stale and has no
identity or no comment of the tool with its identity. -/
theorem indexIssue_malformed
    (sortSlice : (IssueComment → IssueComment → Bool) → List IssueComment → List IssueComment)
    (hperm : ∀ l, (sortSlice commentCreatedBefore l).Perm l)
    (env : Env) (gi : GithubIssue) (hstable : StableListing gi.client)
    (log0 : List Call) (issue : Issue)
    (hfresh : closedLongAgo env issue = false)
    (hbad : reTestIdentifier issue.Body = none ∨
      ∃ identity, reTestIdentifier issue.Body = some identity ∧
        ∀ comments, gi.client.ListComments log0 env.org (getRepoFromIssue issue) issue.Number
            = .ok comments →
          ∀ c ∈ comments, c.User.ID = gi.user.ID → reTestIdentifier c.Body ≠ some identity)
    (issuesMap : IssuesMap) (log : List Call) :
    ∃ err, (indexIssue sortSlice env gi issuesMap issue log).1 = .error err := by
  unfold indexIssue
  rw [hfresh]
  simp only [Bool.false_eq_true, if_false]
  rcases hbad with hnone | ⟨identity, hid, hcomments⟩
  · rw [hnone]
    exact ⟨_, rfl⟩
  · rw [hid]
    simp only
    cases hl : gi.client.ListComments log env.org (getRepoFromIssue issue) issue.Number with
    | error e =>
      have : findExistingComment sortSlice env gi issue identity log =
          (.error e, log ++ [Call.ListComments env.org (getRepoFromIssue issue) issue.Number]) := by
        unfold findExistingComment GithubIssue.ListComments
        rw [hl]
      rw [this]
      exact ⟨_, rfl⟩
    | ok comments =>
      rw [findExistingComment_listed sortSlice env gi issue identity log comments hl]
      have hl0 : gi.client.ListComments log0 env.org (getRepoFromIssue issue) issue.Number
          = .ok comments := by
        rw [hstable.listComments log0 log]
        exact hl
      have hnone : (sortSlice commentCreatedBefore comments).find? (isAutoComment gi identity)
          = none := by
        rw [List.find?_eq_none]
        intro c hc hauto
        have hcm : c ∈ comments := (hperm comments).subset hc
        simp only [isAutoComment, Bool.and_eq_true, decide_eq_true_eq] at hauto
        exact hcomments comments hl0 c hcm hauto.1 hauto.2
      rw [hnone]
      exact ⟨_, rfl⟩

theorem indexIssues_malformed
    (sortSlice : (IssueComment → IssueComment → Bool) → List IssueComment → List IssueComment)
    (env : Env) (gi : GithubIssue) (issue : Issue)
    (hissue : ∀ (issuesMap : IssuesMap) (log : List Call),
      ∃ err, (indexIssue sortSlice env gi issuesMap issue log).1 = .error err)
    (issues : List Issue) (hmem : issue ∈ issues) :
    ∀ (issuesMap : IssuesMap) (log : List Call),
      ∃ err, (indexIssues sortSlice env gi issuesMap issues log).1 = .error err := by
  induction issues with
  | nil => exact absurd hmem (List.not_mem_nil _)
  | cons head rest ih =>
    intro issuesMap log
    unfold indexIssues
    rcases hstep : indexIssue sortSlice env gi issuesMap head log with ⟨r, log2⟩
    cases r with
    | error e => exact ⟨e, rfl⟩
    | ok m2 =>
      simp only
      rcases List.mem_cons.mp hmem with h | h
      · subst h
        obtain ⟨err, herr⟩ := hissue issuesMap log
        rw [hstep] at herr
        exact absurd herr (by simp)
      · exact ih h m2 log2

theorem indexRepos_malformed
    (sortSlice : (IssueComment → IssueComment → Bool) → List IssueComment → List IssueComment)
    (env : Env) (gi : GithubIssue) (hstable : StableListing gi.client) (log0 : List Call)
    (issue : Issue)
    (hissue : ∀ (issuesMap : IssuesMap) (log : List Call),
      ∃ err, (indexIssue sortSlice env gi issuesMap issue log).1 = .error err)
    (repo : Str) (issues : List Issue)
    (hissues : gi.client.ListIssuesByRepo log0 env.org repo [flakyLabel] = .ok issues)
    (hmem : issue ∈ issues) (repos : List Str) (hrepo : repo ∈ repos) :
    ∀ (issuesMap : IssuesMap) (log : List Call),
      ∃ err, (indexRepos sortSlice env gi issuesMap repos log).1 = .error err := by
  induction repos with
  | nil => exact absurd hrepo (List.not_mem_nil _)
  | cons head rest ih =>
    intro issuesMap log
    unfold indexRepos GithubIssue.ListIssuesByRepo
    cases hl : gi.client.ListIssuesByRepo log env.org head [flakyLabel] with
    | error e => exact ⟨e, rfl⟩
    | ok listed =>
      simp only
      rcases hi : indexIssues sortSlice env gi issuesMap listed
        (log ++ [Call.ListIssuesByRepo env.org head [flakyLabel]]) with ⟨r, log3⟩
      cases r with
      | error e => exact ⟨e, rfl⟩
      | ok m2 =>
        simp only
        rcases List.mem_cons.mp hrepo with h | h
        · subst h
          have hsame : listed = issues := by
            have := hstable.listIssuesByRepo log0 log env.org repo [flakyLabel]
            rw [hissues, hl] at this
            exact (Except.ok.inj this).symm
          subst hsame
          obtain ⟨err, herr⟩ := indexIssues_malformed sortSlice env gi issue hissue listed hmem
            issuesMap (log ++ [Call.ListIssuesByRepo env.org repo [flakyLabel]])
          rw [hi] at herr
          exact absurd herr (by simp)
        · exact ih h m2 log3

/-! ## `processGithubIssueForRepo` -/

theorem addLabelStep_shape (env : Env) (gi : GithubIssue) (org repoForIssue : Str)
    (issue : Issue) (errs : List Str) (log : List Call) :
    ∃ errs2 calls, addLabelStep env gi org repoForIssue (some issue) errs false log
        = (some errs2, log ++ calls) ∧ ∀ c ∈ calls, isFollowUpCall c = true := by
  by_cases h : env.combineErrors errs = none
  · rw [addLabelStep_run env gi org repoForIssue issue errs log h]
    exact ⟨_, _, rfl, by simp [isFollowUpCall]⟩
  · rw [addLabelStep_skip env gi org repoForIssue _ errs false log h]
    exact ⟨errs, [], by simp, by simp⟩

theorem cleanupStep_shape (env : Env) (gi : GithubIssue) (org repoForIssue : Str)
    (issue : Issue) (errs : List Str) (log : List Call) :
    ∃ errs2 calls, cleanupStep env gi org repoForIssue (some issue) errs false log
        = (some errs2, log ++ calls) ∧ ∀ c ∈ calls, isFollowUpCall c = true := by
  by_cases h : env.combineErrors errs = none
  · rw [cleanupStep_skip env gi org repoForIssue _ errs false log h]
    exact ⟨errs, [], by simp, by simp⟩
  · obtain ⟨more, hmore⟩ := cleanupStep_run env gi org repoForIssue issue errs log h
    rw [hmore]
    exact ⟨_, _, rfl, by simp [isFollowUpCall]⟩

/-- The calls of `createNewIssue`, whatever the tracker answers: none, or
`CreateIssue` followed by calls on the new issue. -/
theorem createNewIssue_calls (env : Env) (gi : GithubIssue)
    (org repoForIssue title body comment : Str) (dryrun : Bool) (log : List Call) :
    ∃ calls, (createNewIssue env gi org repoForIssue title body comment dryrun log).2
        = log ++ calls ∧
      (calls = [] ∨ ∃ rest, calls = Call.CreateIssue org repoForIssue title body :: rest
        ∧ ∀ c ∈ rest, isFollowUpCall c = true) := by
  cases dryrun with
  | true =>
    refine ⟨[], ?_, Or.inl rfl⟩
    unfold createNewIssue
    rw [createIssueStep_dry]
    simp only
    rw [addCommentStep_dry]
    simp only
    rw [addLabelStep_dry]
    simp only
    rw [cleanupStep_dry]
    simp
  | false =>
    cases hcreate : gi.client.CreateIssue log org repoForIssue title body with
    | error e =>
      refine ⟨[Call.CreateIssue org repoForIssue title body], ?_, Or.inr ⟨[], rfl, by simp⟩⟩
      unfold createNewIssue
      rw [createIssueStep_error gi org repoForIssue title body log e hcreate]
    | ok issue =>
      unfold createNewIssue
      rw [createIssueStep_ok gi org repoForIssue title body log issue hcreate]
      simp only
      rw [addCommentStep_run]
      simp only
      obtain ⟨errs2, calls2, h2, hc2⟩ := addLabelStep_shape env gi org repoForIssue issue
        (match gi.client.CreateComment (log ++ [Call.CreateIssue org repoForIssue title body])
            org repoForIssue issue.Number comment with
          | none => []
          | some err => ["failed adding comment to issue '".toList ++ issue.URL
              ++ "', '".toList ++ err ++ "'".toList])
        (log ++ [Call.CreateIssue org repoForIssue title body]
          ++ [Call.CreateComment org repoForIssue issue.Number comment])
      rw [h2]
      simp only
      obtain ⟨errs3, calls3, h3, hc3⟩ := cleanupStep_shape env gi org repoForIssue issue errs2
        (log ++ [Call.CreateIssue org repoForIssue title body]
          ++ [Call.CreateComment org repoForIssue issue.Number comment] ++ calls2)
      rw [h3]
      refine ⟨Call.CreateIssue org repoForIssue title body
        :: (Call.CreateComment org repoForIssue issue.Number comment :: (calls2 ++ calls3)),
        by simp, Or.inr ⟨_, rfl, ?_⟩⟩
      intro c hc
      rcases List.mem_cons.mp hc with h | h
      · rw [h]
        rfl
      · rcases List.mem_append.mp h with h | h
        · exact hc2 c h
        · exact hc3 c h

theorem processTest_skip (env : Env) (gi : GithubIssue) (rd : RepoData)
    (flakyIssuesMap : IssuesMap) (dryrun : Bool) (st : List Str × List Str)
    (testFullName : Str) (ts : TestStat) (log : List Call)
    (hflaky : env.isFlaky ts = false) (hpassed : env.isPassed ts = false) :
    processTest env gi rd flakyIssuesMap dryrun st (testFullName, ts) log = (some st, log) := by
  simp [processTest, hflaky, hpassed]

theorem processTests_skip (env : Env) (gi : GithubIssue) (rd : RepoData)
    (flakyIssuesMap : IssuesMap) (dryrun : Bool) (testFullName : Str) (ts : TestStat)
    (hflaky : env.isFlaky ts = false) (hpassed : env.isPassed ts = false)
    (earlier later : List (Str × TestStat)) :
    ∀ (st : List Str × List Str) (log : List Call),
      processTests env gi rd flakyIssuesMap dryrun st (earlier ++ (testFullName, ts) :: later) log
        = processTests env gi rd flakyIssuesMap dryrun st (earlier ++ later) log := by
  induction earlier with
  | nil =>
    intro st log
    simp only [List.nil_append, processTests]
    rw [processTest_skip env gi rd flakyIssuesMap dryrun st testFullName ts log hflaky hpassed]
  | cons head rest ih =>
    intro st log
    simp only [List.cons_append, processTests]
    rcases processTest env gi rd flakyIssuesMap dryrun st head log with ⟨r, log2⟩
    cases r with
    | none => rfl
    | some st2 => exact ih st2 log2

/-! ## The recorded status -/

theorem findLettersAfter_here (pre letters rest : Str)
    (hl : ∀ c ∈ letters, isAsciiLetter c = true)
    (hr : ∀ c ∈ rest.head?, isAsciiLetter c = false) :
    findLettersAfter pre (pre ++ (letters ++ rest)) = some letters := by
  have htake : (letters ++ rest).takeWhile isAsciiLetter = letters := by
    rw [List.takeWhile_append_of_pos hl]
    cases rest with
    | nil => simp
    | cons r rs =>
      have := hr r (by simp)
      simp [List.takeWhile, this]
  cases h : pre ++ (letters ++ rest) with
  | nil =>
    have hp : pre = [] := (List.append_eq_nil.mp h).1
    have hls : letters = [] := (List.append_eq_nil.mp (List.append_eq_nil.mp h).2).1
    subst hp
    subst hls
    simp [findLettersAfter]
  | cons c cs =>
    unfold findLettersAfter
    rw [← h]
    have hpre : pre.isPrefixOf (pre ++ (letters ++ rest)) = true := by
      rw [List.isPrefixOf_iff_prefix]
      exact List.prefix_append _ _
    rw [if_pos hpre, List.drop_left, htake]

theorem createCommentForTest_shape (env : Env) (rd : RepoData) (test : Str) (ts : TestStat)
    (hts : rd.TestStats.lookup test = some ts) :
    ∃ more, createCommentForTest env rd test
      = some (latestStatusToken ++ (env.getTestStatus ts ++ '\n' :: more)) := by
  have hnl : "\nLast build start time: ".toList = '\n' :: "Last build start time: ".toList := rfl
  unfold createCommentForTest
  rw [hts]
  simp only [latestStatusPattern, hnl]
  split
  · simp only [List.append_assoc, List.cons_append]
    exact ⟨_, rfl⟩
  · simp only [List.append_assoc, List.cons_append]
    exact ⟨_, rfl⟩

/-! ## Tokens in the rendered texts -/

theorem mem_digitChar (d : Nat) : digitChar d ∈ "0123456789".toList := by
  unfold digitChar
  split <;> decide

theorem mem_fmtNatAux (fuel n : Nat) (c : Char) (h : c ∈ fmtNatAux fuel n) :
    c ∈ "0123456789".toList := by
  induction fuel generalizing n with
  | zero =>
    simp only [fmtNatAux, List.mem_singleton] at h
    rw [h]
    exact mem_digitChar _
  | succ k ih =>
    unfold fmtNatAux at h
    split at h
    · simp only [List.mem_singleton] at h
      rw [h]
      exact mem_digitChar _
    · simp only [List.mem_append, List.mem_singleton] at h
      rcases h with h | h
      · exact ih _ h
      · rw [h]
        exact mem_digitChar _

theorem mem_fmtInt (n : Int) (c : Char) (h : c ∈ fmtInt n) : c ∈ "-0123456789".toList := by
  unfold fmtInt at h
  split at h
  · simp only [List.mem_cons] at h
    rcases h with h | h
    · rw [h]
      decide
    · exact List.mem_cons_of_mem _ (mem_fmtNatAux _ _ c h)
  · exact List.mem_cons_of_mem _ (mem_fmtNatAux _ _ c h)

theorem not_mem_fmtInt (n : Int) (c : Char) (hc : c ∉ "-0123456789".toList) : c ∉ fmtInt n :=
  fun h => hc (mem_fmtInt n c h)

theorem noStart_of_not_infix_tail (p : Char) (ps t : Str) (c : Char) (s : Str)
    (hin : ¬ (p :: ps) <:+: t) (hc : c ∉ ps) : NoStart (p :: ps) t (c :: s) := by
  induction t with
  | nil => trivial
  | cons x xs ih =>
    refine ⟨?_, ih (fun h => hin (h.trans (List.suffix_cons x xs).isInfix))⟩
    intro hp
    have hb : (x :: xs) <+: (x :: xs) ++ c :: s := List.prefix_append _ _
    have hlt : (x :: xs).length < (p :: ps).length := by
      rcases Nat.lt_or_ge (x :: xs).length (p :: ps).length with h | h
      · exact h
      · exact absurd (List.prefix_of_prefix_length_le hp hb h).isInfix hin
    have hb2 : (x :: xs) ++ [c] <+: (x :: xs) ++ c :: s := by
      refine ⟨s, ?_⟩
      simp
    have hsub : (x :: xs) ++ [c] <+: p :: ps :=
      List.prefix_of_prefix_length_le hb2 hp (by simpa using hlt)
    obtain ⟨r, hr⟩ := hsub
    simp only [List.cons_append, List.cons.injEq] at hr
    exact hc (hr.2 ▸ (by simp : c ∈ xs ++ [c] ++ r))

theorem noStart_historyLinks (p : Char) (ps jobName : Str) (resultSlice : List TestStatusEnum)
    (hopen : ∀ st s, NoStart (p :: ps) (" [".toList ++ statusUnicode st) s)
    (hfixed : p ∉ "]()/-0123456789".toList ++ jobLogsURL)
    (hname : ¬ (p :: ps) <:+: jobName) (hslash : '/' ∉ ps)
    (buildIDs : List Int) (i : Nat) (links s : Str)
    (h : historyLinks jobName resultSlice i buildIDs = some links) :
    NoStart (p :: ps) links s := by
  induction buildIDs generalizing i links with
  | nil =>
    simp only [historyLinks, Option.some.injEq] at h
    rw [← h]
    trivial
  | cons b rest ih =>
    unfold historyLinks at h
    cases hget : resultSlice.get? i with
    | none =>
      rw [hget] at h
      exact absurd h (by simp)
    | some st =>
      cases hmore : historyLinks jobName resultSlice (i + 1) rest with
      | none =>
        rw [hget, hmore] at h
        exact absurd h (by simp)
      | some more =>
        simp only [hget, hmore, Option.map_some', Option.some.injEq] at h
        rw [← h]
        have hshape : " [".toList ++ statusUnicode st ++ "](".toList
            ++ (jobLogsURL ++ jobName ++ "/".toList ++ fmtInt b) ++ ")".toList ++ more
            = (" [".toList ++ statusUnicode st) ++ (("](".toList ++ jobLogsURL) ++ (jobName
              ++ (('/' :: (fmtInt b ++ ")".toList)) ++ more))) := by
          simp only [List.append_assoc, List.cons_append, List.nil_append,
            show "/".toList = ['/'] from rfl, List.singleton_append]
        rw [hshape]
        have h1 : p ∉ "](".toList ++ jobLogsURL := by
          intro hm
          apply hfixed
          simp only [List.mem_append] at hm ⊢
          rcases hm with hm | hm
          · left
            revert hm
            simp only [show "](".toList = [']', '('] from rfl,
              show "]()/-0123456789".toList = [']', '(', ')', '/', '-', '0', '1', '2', '3', '4',
                '5', '6', '7', '8', '9'] from rfl, List.mem_cons, List.mem_singleton,
                List.not_mem_nil, or_false]
            tauto
          · right
            exact hm
        have h2 : p ∉ '/' :: (fmtInt b ++ ")".toList) := by
          intro hm
          apply hfixed
          simp only [List.mem_append, List.mem_cons] at hm ⊢
          left
          rcases hm with hm | hm | hm
          · rw [hm]
            decide
          · have := mem_fmtInt b p hm
            revert this
            simp only [show "-0123456789".toList = ['-', '0', '1', '2', '3', '4',
                '5', '6', '7', '8', '9'] from rfl,
              show "]()/-0123456789".toList = [']', '(', ')', '/', '-', '0', '1', '2', '3', '4',
                '5', '6', '7', '8', '9'] from rfl, List.mem_cons, List.mem_singleton,
                List.not_mem_nil, or_false]
            tauto
          · simp only [show ")".toList = [')'] from rfl, List.mem_singleton] at hm
            rw [hm]
            decide
        refine (noStart_append _ _ _ _).mpr ⟨hopen st _, ?_⟩
        refine (noStart_append _ _ _ _).mpr ⟨noStart_of_head_not_mem _ _ _ _ h1, ?_⟩
        refine (noStart_append _ _ _ _).mpr
          ⟨noStart_of_not_infix_tail p ps jobName '/' _ hname hslash, ?_⟩
        exact (noStart_append _ _ _ _).mpr ⟨noStart_of_head_not_mem _ _ _ _ h2, ih _ _ hmore⟩

theorem afterHistoryToken_cons :
    afterHistoryToken = '<' :: "!------End of History------>".toList := rfl

theorem noStart_after_line (env : Env) (rd : RepoData) (test cur s : Str)
    (hname : ¬ afterHistoryToken <:+: rd.Config.Name)
    (htime : ∀ t, ¬ afterHistoryToken <:+: env.timeString t)
    (hcur : currentUnicode env rd test = some cur) :
    NoStart afterHistoryToken cur s := by
  unfold currentUnicode at hcur
  cases hlinks : historyLinks rd.Config.Name (env.getResultSliceForTest rd test) 0 rd.BuildIDs with
  | none =>
    rw [hlinks] at hcur
    exact absurd hcur (by simp)
  | some links =>
    rw [hlinks] at hcur
    simp only [Option.map_some', Option.some.injEq] at hcur
    rw [← hcur, afterHistoryToken_cons] at *
    have hshape : env.timeString rd.LastBuildStartTime ++ ": ".toList ++ links
        = env.timeString rd.LastBuildStartTime ++ (':' :: (" ".toList ++ links)) := by
      simp only [List.append_assoc, show ": ".toList = ':' :: " ".toList from rfl,
        List.cons_append]
    have hcolon : ∀ x : Str, ':' :: x = [':'] ++ x := fun _ => rfl
    rw [hshape]
    refine (noStart_append _ _ _ _).mpr
      ⟨noStart_of_not_infix_tail _ _ _ ':' _ (htime _) (by decide), ?_⟩
    have hlk := noStart_historyLinks '<' _ rd.Config.Name (env.getResultSliceForTest rd test)
      (fun st s => noStart_of_head_not_mem _ _ _ _ (by cases st <;> decide))
      (by decide) hname (by decide) rd.BuildIDs 0 links s hlinks
    rw [hcolon]
    exact (noStart_append _ [':'] _ _).mpr ⟨noStart_of_head_not_mem _ _ _ _ (by decide),
      (noStart_append _ _ _ _).mpr ⟨noStart_of_head_not_mem _ _ _ _ (by decide), hlk⟩⟩

theorem reHistory_exact (block : Str)
    (hns : NoStart afterHistoryToken block (afterHistoryToken ++
      (('\n' :: passedUnicode) ++ " Passed\t".toList ++ failedUnicode ++ " Failed\t".toList
        ++ skippedUnicode ++ " Skipped\n".toList))) :
    reHistory (historyPattern block) = some block := by
  have hshape : historyPattern block = ['\n'] ++ (beforeHistoryToken ++ (block ++
      (afterHistoryToken ++ (('\n' :: passedUnicode) ++ " Passed\t".toList ++ failedUnicode
        ++ " Failed\t".toList ++ skippedUnicode ++ " Skipped\n".toList)))) := by
    simp only [historyPattern, List.append_assoc, List.singleton_append, List.cons_append,
      List.nil_append]
  rw [hshape, reHistory, findLazyBetween_skip]
  · exact findLazyBetween_here _ _ _ _ _
      (lazyCapture_exact _ _ _ _ hns (fun h => absurd h (by decide)))
  · exact noStart_of_head_not_mem '<' _ _ _ (by decide)

theorem historyBlock_first (cur comment : Str) (hnone : reHistory comment = none) :
    historyBlock cur comment = '\n' :: (cur ++ ['\n']) := by
  unfold historyBlock
  rw [hnone]
  rfl

/-! ## Recovering the identity of a new ticket -/

theorem testIdentifierMark_cons :
    testIdentifierMark = '[' :: (testIdentifierToken ++ [']']) := rfl

theorem not_infix_mark (t : Str) (ht : ¬ testIdentifierToken <:+: t) :
    ¬ testIdentifierMark <:+: t :=
  fun h => ht (token_infix_mark.trans h)

theorem noStart_mark_free (u s : Str) (h : '[' ∉ u) : NoStart testIdentifierMark u s :=
  noStart_of_head_not_mem '[' _ u s h

theorem noStart_mark_bracket (c : Char) (s : Str) (hc : c ≠ 'D') :
    NoStart testIdentifierMark ['['] (c :: s) := by
  refine ⟨?_, trivial⟩
  rintro ⟨t, ht⟩
  have h2 : testIdentifierMark = '[' :: 'D' :: "ONT_MODIFY_TEST_IDENTIFIER]".toList := rfl
  rw [h2] at ht
  simp only [List.cons_append, List.nil_append, List.cons.injEq, true_and] at ht
  exact hc ht.1.symm

theorem fmtNatAux_ne_nil (fuel n : Nat) : fmtNatAux fuel n ≠ [] := by
  cases fuel with
  | zero => simp [fmtNatAux]
  | succ k =>
    unfold fmtNatAux
    split <;> simp

theorem fmtInt_cons (n : Int) : ∃ c cs, fmtInt n = c :: cs ∧ c ∈ "-0123456789".toList := by
  have hne : fmtInt n ≠ [] := by
    unfold fmtInt
    split
    · simp
    · exact fmtNatAux_ne_nil _ _
  cases h : fmtInt n with
  | nil => exact absurd h hne
  | cons c cs => exact ⟨c, cs, rfl, mem_fmtInt n c (by rw [h]; exact List.mem_cons_self _ _)⟩

theorem noStart_mark_number (n : Int) (s : Str) :
    NoStart testIdentifierMark ("[".toList ++ fmtInt n) s := by
  obtain ⟨c, cs, hcs, hc⟩ := fmtInt_cons n
  have hfree : '[' ∉ fmtInt n := not_mem_fmtInt n '[' (by decide)
  refine (noStart_append _ _ _ _).mpr ⟨?_, noStart_mark_free _ _ hfree⟩
  rw [hcs]
  exact noStart_mark_bracket c _ (by
    intro h
    rw [h] at hc
    exact absurd hc (by decide))

theorem noStart_mark_glyph (st : TestStatusEnum) (s : Str) :
    NoStart testIdentifierMark (" [".toList ++ statusUnicode st) s := by
  have h1 : " [".toList = [' '] ++ ['['] := rfl
  have h2 : ∃ g, statusUnicode st = '&' :: g := by
    cases st
    · exact ⟨_, rfl⟩
    · exact ⟨_, rfl⟩
    · exact ⟨_, rfl⟩
  have h3 : '[' ∉ statusUnicode st := by cases st <;> decide
  obtain ⟨g, hg⟩ := h2
  rw [h1]
  refine (noStart_append _ _ _ _).mpr ⟨(noStart_append _ _ _ _).mpr
    ⟨noStart_mark_free _ _ (by decide), ?_⟩, noStart_mark_free _ _ h3⟩
  rw [hg]
  exact noStart_mark_bracket '&' _ (by decide)

theorem noStart_mark_link (jobName : Str) (buildID : Int) (s : Str)
    (hname : ¬ testIdentifierToken <:+: jobName) :
    NoStart testIdentifierMark ("[".toList ++ fmtInt buildID ++ "](".toList ++ jobLogsURL
      ++ jobName ++ "/".toList ++ fmtInt buildID ++ ")".toList) s := by
  have hshape : "[".toList ++ fmtInt buildID ++ "](".toList ++ jobLogsURL
      ++ jobName ++ "/".toList ++ fmtInt buildID ++ ")".toList
      = ("[".toList ++ fmtInt buildID) ++ (("](".toList ++ jobLogsURL) ++ (jobName
        ++ ('/' :: (fmtInt buildID ++ ")".toList)))) := by
    simp only [List.append_assoc, show "/".toList = ['/'] from rfl, List.singleton_append,
      List.cons_append, List.nil_append]
  have hnum : '[' ∉ '/' :: (fmtInt buildID ++ ")".toList) := by
    have h1 := not_mem_fmtInt buildID '[' (by decide)
    have h2 : '[' ∉ ")".toList := by decide
    simp only [List.mem_cons, List.mem_append, not_or]
    exact ⟨by decide, h1, h2⟩
  rw [hshape]
  refine (noStart_append _ _ _ _).mpr ⟨noStart_mark_number _ _, ?_⟩
  refine (noStart_append _ _ _ _).mpr ⟨noStart_mark_free _ _ (by decide), ?_⟩
  exact (noStart_append _ _ _ _).mpr
    ⟨noStart_mark_name jobName '/' _ hname (by decide), noStart_mark_free _ _ hnum⟩

theorem noStart_mark_links (jobName : Str) (hname : ¬ testIdentifierToken <:+: jobName)
    (failed : List Int) (s : Str) :
    NoStart testIdentifierMark
      (stringsJoin (failed.map (fun buildID =>
        "[".toList ++ fmtInt buildID ++ "](".toList ++ jobLogsURL ++ jobName
          ++ "/".toList ++ fmtInt buildID ++ ")".toList)) ", ".toList) s := by
  induction failed with
  | nil => trivial
  | cons b rest ih =>
    cases rest with
    | nil => exact noStart_mark_link jobName b s hname
    | cons b2 rest2 =>
      simp only [List.map_cons, stringsJoin] at ih ⊢
      rw [List.append_assoc]
      exact (noStart_append _ _ _ _).mpr ⟨noStart_mark_link jobName b _ hname,
        (noStart_append _ _ _ _).mpr ⟨noStart_mark_free _ _ (by decide), ih⟩⟩

theorem noStart_mark_summary (env : Env) (rd : RepoData) (test summary s : Str)
    (hname : ¬ testIdentifierToken <:+: rd.Config.Name)
    (htime : ∀ t, ¬ testIdentifierToken <:+: env.timeString t)
    (hstatus : ∀ ts, ¬ testIdentifierToken <:+: env.getTestStatus ts)
    (h : createCommentForTest env rd test = some summary) :
    NoStart testIdentifierMark summary s := by
  unfold createCommentForTest at h
  cases hts : rd.TestStats.lookup test with
  | none =>
    rw [hts] at h
    exact absurd h (by simp)
  | some ts =>
    rw [hts] at h
    have hcontent : ∀ s2, NoStart testIdentifierMark
        (latestStatusPattern (env.getTestStatus ts)
          ++ "\nLast build start time: ".toList ++ env.timeString rd.LastBuildStartTime
          ++ "\nFailed ".toList ++ fmtInt ts.Failed.length ++ " times out of ".toList
          ++ fmtInt (ts.Passed.length + ts.Skipped.length + ts.Failed.length)
          ++ " runs.".toList) s2 := by
      intro s2
      have hshape : latestStatusPattern (env.getTestStatus ts)
          ++ "\nLast build start time: ".toList ++ env.timeString rd.LastBuildStartTime
          ++ "\nFailed ".toList ++ fmtInt ts.Failed.length ++ " times out of ".toList
          ++ fmtInt (ts.Passed.length + ts.Skipped.length + ts.Failed.length)
          ++ " runs.".toList
          = latestStatusToken ++ (env.getTestStatus ts
            ++ (('\n' :: "Last build start time: ".toList)
            ++ (env.timeString rd.LastBuildStartTime
            ++ ('\n' :: ("Failed ".toList ++ fmtInt ts.Failed.length ++ " times out of ".toList
              ++ fmtInt (ts.Passed.length + ts.Skipped.length + ts.Failed.length)
              ++ " runs.".toList))))) := by
        simp only [latestStatusPattern, List.append_assoc, List.cons_append,
          show "\nLast build start time: ".toList = '\n' :: "Last build start time: ".toList
            from rfl,
          show "\nFailed ".toList = '\n' :: "Failed ".toList from rfl]
      have hrest : '[' ∉ '\n' :: ("Failed ".toList ++ fmtInt ts.Failed.length
          ++ " times out of ".toList
          ++ fmtInt (ts.Passed.length + ts.Skipped.length + ts.Failed.length)
          ++ " runs.".toList) := by
        have h1 : '[' ∉ "Failed ".toList := by decide
        have h2 : '[' ∉ " times out of ".toList := by decide
        have h3 : '[' ∉ " runs.".toList := by decide
        simp only [List.mem_cons, List.mem_append, not_or]
        exact ⟨by decide, ⟨⟨⟨h1, not_mem_fmtInt _ '[' (by decide)⟩, h2⟩,
          not_mem_fmtInt _ '[' (by decide)⟩, h3⟩
      rw [hshape]
      refine (noStart_append _ _ _ _).mpr ⟨noStart_mark_free _ _ (by decide), ?_⟩
      refine (noStart_append _ _ _ _).mpr
        ⟨noStart_mark_name _ '\n' _ (hstatus ts) (by decide), ?_⟩
      refine (noStart_append _ _ _ _).mpr ⟨noStart_mark_free _ _ (by decide), ?_⟩
      exact (noStart_append _ _ _ _).mpr
        ⟨noStart_mark_name _ '\n' _ (htime _) (by decide), noStart_mark_free _ _ hrest⟩
    simp only at h
    split at h
    · simp only [Option.some.injEq] at h
      rw [← h, List.append_assoc]
      exact (noStart_append _ _ _ _).mpr ⟨hcontent _,
        (noStart_append _ _ _ _).mpr ⟨noStart_mark_free _ _ (by decide),
          noStart_mark_links rd.Config.Name hname ts.Failed s⟩⟩
    · simp only [Option.some.injEq] at h
      rw [← h]
      exact hcontent s

theorem noStart_mark_line (env : Env) (rd : RepoData) (test cur s : Str)
    (hname : ¬ testIdentifierToken <:+: rd.Config.Name)
    (htime : ∀ t, ¬ testIdentifierToken <:+: env.timeString t)
    (hcur : currentUnicode env rd test = some cur) :
    NoStart testIdentifierMark cur s := by
  unfold currentUnicode at hcur
  cases hlinks : historyLinks rd.Config.Name (env.getResultSliceForTest rd test) 0 rd.BuildIDs with
  | none =>
    rw [hlinks] at hcur
    exact absurd hcur (by simp)
  | some links =>
    rw [hlinks] at hcur
    simp only [Option.map_some', Option.some.injEq] at hcur
    rw [← hcur]
    have hshape : env.timeString rd.LastBuildStartTime ++ ": ".toList ++ links
        = env.timeString rd.LastBuildStartTime ++ (':' :: (" ".toList ++ links)) := by
      simp only [List.append_assoc, show ": ".toList = ':' :: " ".toList from rfl,
        List.cons_append]
    have hcolon : ∀ x : Str, ':' :: x = [':'] ++ x := fun _ => rfl
    rw [hshape]
    refine (noStart_append _ _ _ _).mpr
      ⟨noStart_mark_name _ ':' _ (htime _) (by decide), ?_⟩
    have hlk : NoStart testIdentifierMark links s :=
      noStart_historyLinks '[' _ rd.Config.Name (env.getResultSliceForTest rd test)
        noStart_mark_glyph (by decide) (not_infix_mark _ hname) (by decide)
        rd.BuildIDs 0 links s hlinks
    rw [hcolon]
    exact (noStart_append _ [':'] _ _).mpr ⟨noStart_mark_free _ _ (by decide),
      (noStart_append _ _ _ _).mpr ⟨noStart_mark_free _ _ (by decide), hlk⟩⟩

theorem noStart_mark_history (env : Env) (rd : RepoData) (test history s : Str)
    (hname : ¬ testIdentifierToken <:+: rd.Config.Name)
    (htime : ∀ t, ¬ testIdentifierToken <:+: env.timeString t)
    (h : createHistoryUnicode env rd [] test = some history) :
    NoStart testIdentifierMark history s := by
  unfold createHistoryUnicode at h
  cases hcur : currentUnicode env rd test with
  | none =>
    rw [hcur] at h
    exact absurd h (by simp)
  | some cur =>
    rw [hcur] at h
    simp only [Option.map_some', Option.some.injEq] at h
    rw [← h, historyBlock_first cur [] (by rfl)]
    have hshape : historyPattern ('\n' :: (cur ++ ['\n']))
        = ('\n' :: (beforeHistoryToken ++ ['\n'])) ++ (cur ++ ('\n' :: (afterHistoryToken
          ++ ('\n' :: passedUnicode) ++ " Passed\t".toList ++ failedUnicode
          ++ " Failed\t".toList ++ skippedUnicode ++ " Skipped\n".toList))) := by
      simp only [historyPattern, List.append_assoc, List.cons_append, List.nil_append,
        List.singleton_append]
    rw [hshape]
    exact (noStart_append _ _ _ _).mpr ⟨noStart_mark_free _ _ (by decide),
      (noStart_append _ _ _ _).mpr ⟨noStart_mark_line env rd test cur _ hname htime hcur,
        noStart_mark_free _ _ (by decide)⟩⟩

theorem reTestIdentifier_marked (u identity rest : Str)
    (hu : NoStart testIdentifierMark u
      (testIdentifierMark ++ (identity ++ (testIdentifierMark ++ rest))))
    (hid : NoStart testIdentifierMark identity (testIdentifierMark ++ rest))
    (hnl : '\n' ∉ identity) :
    reTestIdentifier (u ++ (testIdentifierMark ++ (identity ++ (testIdentifierMark ++ rest))))
      = some identity := by
  rw [reTestIdentifier, findLazyBetween_skip _ _ _ _ _ hu]
  exact findLazyBetween_here _ _ _ _ _ (lazyCapture_exact _ _ _ _ hid (fun _ => hnl))

theorem reTestIdentifier_body (testName repoName identity : Str)
    (ht : ∀ s, NoStart testIdentifierMark testName ('\n' :: s))
    (hr : ∀ s, NoStart testIdentifierMark repoName ('\n' :: s))
    (hid : NoStart testIdentifierMark identity (testIdentifierMark ++ "-->".toList))
    (hnl : '\n' ∉ identity) :
    reTestIdentifier (issueBodyTemplate testName repoName (testIdentifierPattern identity))
      = some identity := by
  have hbody : issueBodyTemplate testName repoName (testIdentifierPattern identity)
      = ("\n### Auto-generated issue tracking flakiness of test\n* **Test name**: ".toList
          ++ (testName ++ (('\n' :: "* **Repository name**: ".toList) ++ (repoName
          ++ ('\n' :: "\n<!-------------End of issue body, Please don't edit below this line------------->\n<!--".toList)))))
        ++ (testIdentifierMark ++ (identity ++ (testIdentifierMark ++ "-->".toList))) := by
    simp only [issueBodyTemplate, testIdentifierPattern, List.append_assoc]
    rfl
  rw [hbody]
  apply reTestIdentifier_marked _ _ _ _ hid hnl
  refine (noStart_append _ _ _ _).mpr ⟨noStart_mark_free _ _ (by decide), ?_⟩
  refine (noStart_append _ _ _ _).mpr ⟨ht _, ?_⟩
  refine (noStart_append _ _ _ _).mpr ⟨noStart_mark_free _ _ (by decide), ?_⟩
  exact (noStart_append _ _ _ _).mpr ⟨hr _, noStart_mark_free _ _ (by decide)⟩

theorem noStart_mark_bulk (env : Env) (rd : RepoData) (c : Char) (s : Str)
    (hrepo : ¬ testIdentifierToken <:+: rd.Config.Repo)
    (htime : ∀ t, ¬ testIdentifierToken <:+: env.timeString t)
    (hrate : ¬ testIdentifierToken <:+: env.flakyRatePercent rd)
    (hc : c ∉ testIdentifierToken ++ [']']) :
    NoStart testIdentifierMark (getBulkIssueIdentity env rd) (c :: s) := by
  have hshape : getBulkIssueIdentity env rd
      = env.flakyRatePercent rd ++ (('%' :: " tests failed in repo ".toList)
        ++ (rd.Config.Repo ++ ((' ' :: "on ".toList)
        ++ env.timeString rd.LastBuildStartTime))) := by
    simp only [getBulkIssueIdentity, List.append_assoc]
    rfl
  rw [hshape]
  refine (noStart_append _ _ _ _).mpr ⟨noStart_mark_name _ '%' _ hrate (by decide), ?_⟩
  refine (noStart_append _ _ _ _).mpr ⟨noStart_mark_free _ _ (by decide), ?_⟩
  refine (noStart_append _ _ _ _).mpr ⟨noStart_mark_name _ ' ' _ hrepo (by decide), ?_⟩
  exact (noStart_append _ _ _ _).mpr ⟨noStart_mark_free _ _ (by decide),
    noStart_of_not_infix_tail '[' _ _ c s (not_infix_mark _ (htime _)) hc⟩

theorem newline_not_mem_bulk (env : Env) (rd : RepoData)
    (hrepo : '\n' ∉ rd.Config.Repo)
    (htime : ∀ t, '\n' ∉ env.timeString t)
    (hrate : '\n' ∉ env.flakyRatePercent rd) :
    '\n' ∉ getBulkIssueIdentity env rd := by
  have h1 : '\n' ∉ "% tests failed in repo ".toList := by decide
  have h2 : '\n' ∉ " on ".toList := by decide
  simp only [getBulkIssueIdentity, List.mem_append, not_or]
  exact ⟨⟨⟨⟨hrate, h1⟩, hrepo⟩, h2⟩, htime _⟩

theorem historyLinks_returns (jobName : Str) (resultSlice : List TestStatusEnum)
    (buildIDs : List Int) (i : Nat) (hlen : i + buildIDs.length ≤ resultSlice.length) :
    ∃ links, historyLinks jobName resultSlice i buildIDs = some links := by
  induction buildIDs generalizing i with
  | nil => exact ⟨[], rfl⟩
  | cons b rest ih =>
    have hi : i < resultSlice.length := by
      simp only [List.length_cons] at hlen
      omega
    obtain ⟨more, hmore⟩ := ih (i + 1) (by
      simp only [List.length_cons] at hlen
      omega)
    have hget : resultSlice.get? i = some (resultSlice.get ⟨i, hi⟩) := List.get?_eq_get hi
    exact ⟨_, by simp only [historyLinks, hget, hmore, Option.map_some']; rfl⟩

theorem createHistoryUnicode_returns (env : Env) (rd : RepoData) (comment test : Str)
    (hlen : rd.BuildIDs.length ≤ (env.getResultSliceForTest rd test).length) :
    ∃ history, createHistoryUnicode env rd comment test = some history := by
  obtain ⟨links, hlinks⟩ := historyLinks_returns rd.Config.Name
    (env.getResultSliceForTest rd test) rd.BuildIDs 0 (by simpa using hlen)
  exact ⟨_, by simp only [createHistoryUnicode, currentUnicode, hlinks, Option.map_some']; rfl⟩

theorem createCommentForTest_returns (env : Env) (rd : RepoData) (test : Str) (ts : TestStat)
    (hts : rd.TestStats.lookup test = some ts) :
    ∃ summary, createCommentForTest env rd test = some summary := by
  obtain ⟨more, hmore⟩ := createCommentForTest_shape env rd test ts hts
  exact ⟨_, hmore⟩

theorem processTest_create (env : Env) (gi : GithubIssue) (rd : RepoData)
    (flakyIssuesMap : IssuesMap) (dryrun : Bool) (st : List Str × List Str)
    (test : Str) (ts : TestStat) (log : List Call) (summary history : Str)
    (hflaky : env.isFlaky ts = true)
    (hsummary : createCommentForTest env rd test = some summary)
    (hhistory : createHistoryUnicode env rd [] test = some history)
    (hnew : flakyIssuesMap.lookup (getIdentityForTest test rd.Config.Repo) = none) :
    (processTest env gi rd flakyIssuesMap dryrun st (test, ts) log).2
      = (createNewIssue env gi env.org rd.Config.IssueRepo ("[flaky] ".toList ++ test)
          (issueBodyTemplate test rd.Config.Repo
            (testIdentifierPattern (getIdentityForTest test rd.Config.Repo)))
          (summary ++ history ++ "\n<!--".toList
            ++ testIdentifierPattern (getIdentityForTest test rd.Config.Repo) ++ "-->".toList)
          dryrun log).2 := by
  unfold processTest
  simp only [hflaky, Bool.not_true, Bool.false_and, Bool.false_eq_true, if_false, hsummary,
    hnew, hhistory, if_true]
  split <;> simp_all

theorem processGithubIssueForRepo_create (env : Env) (gi : GithubIssue) (rd : RepoData)
    (flakyIssuesMap : IssuesMap) (dryrun : Bool) (log : List Call)
    (hrepo : rd.Config.IssueRepo ≠ [])
    (habove : env.flakyRateAboveThreshold rd = true)
    (hnew : flakyIssuesMap.lookup (getBulkIssueIdentity env rd) = none) :
    (processGithubIssueForRepo env gi rd flakyIssuesMap dryrun log).2
      = (createNewIssue env gi env.org rd.Config.IssueRepo
          ("[flaky] ".toList ++ getBulkIssueIdentity env rd)
          (issueBodyTemplate (getBulkIssueIdentity env rd) rd.Config.Repo
            (testIdentifierPattern (getBulkIssueIdentity env rd)))
          ("Bulk issue tracking: ".toList ++ getBulkIssueIdentity env rd ++ "\n<!--".toList
            ++ testIdentifierPattern (getBulkIssueIdentity env rd) ++ "-->".toList)
          dryrun log).2 := by
  have hlen : ¬ rd.Config.IssueRepo.length = 0 := by
    intro h
    exact hrepo (List.length_eq_zero.mp h)
  unfold processGithubIssueForRepo
  simp only [if_neg hlen, habove, if_true, hnew]
  split <;> simp_all

theorem reTestIdentifier_test_comment (env : Env) (rd : RepoData) (test summary history : Str)
    (htime : ∀ t, ¬ testIdentifierToken <:+: env.timeString t)
    (hstatus : ∀ ts, ¬ testIdentifierToken <:+: env.getTestStatus ts)
    (htest : ¬ testIdentifierToken <:+: test) (htest_nl : '\n' ∉ test)
    (hrepo : ¬ testIdentifierToken <:+: rd.Config.Repo) (hrepo_nl : '\n' ∉ rd.Config.Repo)
    (hname : ¬ testIdentifierToken <:+: rd.Config.Name)
    (hsummary : createCommentForTest env rd test = some summary)
    (hhistory : createHistoryUnicode env rd [] test = some history) :
    reTestIdentifier (summary ++ history ++ "\n<!--".toList
        ++ testIdentifierPattern (getIdentityForTest test rd.Config.Repo) ++ "-->".toList)
      = some (getIdentityForTest test rd.Config.Repo) := by
  have hshape : summary ++ history ++ "\n<!--".toList
        ++ testIdentifierPattern (getIdentityForTest test rd.Config.Repo) ++ "-->".toList
      = (summary ++ (history ++ "\n<!--".toList)) ++ (testIdentifierMark
        ++ (getIdentityForTest test rd.Config.Repo ++ (testIdentifierMark ++ "-->".toList))) := by
    simp only [testIdentifierPattern, List.append_assoc]
  rw [hshape]
  apply reTestIdentifier_marked _ _ _ _ (noStart_mark_identity _ _ _ htest hrepo)
    (newline_not_mem_identity _ _ htest_nl hrepo_nl)
  exact (noStart_append _ _ _ _).mpr
    ⟨noStart_mark_summary env rd test summary _ hname htime hstatus hsummary,
      (noStart_append _ _ _ _).mpr
        ⟨noStart_mark_history env rd test history _ hname htime hhistory,
          noStart_mark_free _ _ (by decide)⟩⟩

theorem reTestIdentifier_bulk_comment (env : Env) (rd : RepoData)
    (htime : ∀ t, ¬ testIdentifierToken <:+: env.timeString t)
    (htime_nl : ∀ t, '\n' ∉ env.timeString t)
    (hrate : ¬ testIdentifierToken <:+: env.flakyRatePercent rd)
    (hrate_nl : '\n' ∉ env.flakyRatePercent rd)
    (hrepo : ¬ testIdentifierToken <:+: rd.Config.Repo) (hrepo_nl : '\n' ∉ rd.Config.Repo) :
    reTestIdentifier ("Bulk issue tracking: ".toList ++ getBulkIssueIdentity env rd
        ++ "\n<!--".toList ++ testIdentifierPattern (getBulkIssueIdentity env rd)
        ++ "-->".toList)
      = some (getBulkIssueIdentity env rd) := by
  have hshape : "Bulk issue tracking: ".toList ++ getBulkIssueIdentity env rd
        ++ "\n<!--".toList ++ testIdentifierPattern (getBulkIssueIdentity env rd)
        ++ "-->".toList
      = ("Bulk issue tracking: ".toList ++ (getBulkIssueIdentity env rd
          ++ ('\n' :: "<!--".toList))) ++ (testIdentifierMark
        ++ (getBulkIssueIdentity env rd ++ (testIdentifierMark ++ "-->".toList))) := by
    simp only [testIdentifierPattern, List.append_assoc]
    rfl
  rw [hshape]
  apply reTestIdentifier_marked _ _ _ _
    (noStart_mark_bulk env rd '[' _ hrepo htime hrate (by decide))
    (newline_not_mem_bulk env rd hrepo_nl htime_nl hrate_nl)
  refine (noStart_append _ _ _ _).mpr ⟨noStart_mark_free _ _ (by decide), ?_⟩
  exact (noStart_append _ _ _ _).mpr
    ⟨noStart_mark_bulk env rd '\n' _ hrepo htime hrate (by decide),
      noStart_mark_free _ _ (by decide)⟩

theorem reTestIdentifier_bulk_body (env : Env) (rd : RepoData)
    (htime : ∀ t, ¬ testIdentifierToken <:+: env.timeString t)
    (htime_nl : ∀ t, '\n' ∉ env.timeString t)
    (hrate : ¬ testIdentifierToken <:+: env.flakyRatePercent rd)
    (hrate_nl : '\n' ∉ env.flakyRatePercent rd)
    (hrepo : ¬ testIdentifierToken <:+: rd.Config.Repo) (hrepo_nl : '\n' ∉ rd.Config.Repo) :
    reTestIdentifier (issueBodyTemplate (getBulkIssueIdentity env rd) rd.Config.Repo
        (testIdentifierPattern (getBulkIssueIdentity env rd)))
      = some (getBulkIssueIdentity env rd) :=
  reTestIdentifier_body _ _ _
    (fun s => noStart_mark_bulk env rd '\n' s hrepo htime hrate (by decide))
    (fun s => noStart_mark_name _ '\n' s hrepo (by decide))
    (noStart_mark_bulk env rd '[' _ hrepo htime hrate (by decide))
    (newline_not_mem_bulk env rd hrepo_nl htime_nl hrate_nl)

theorem reTestIdentifier_test_body (test repo : Str)
    (htest : ¬ testIdentifierToken <:+: test) (htest_nl : '\n' ∉ test)
    (hrepo : ¬ testIdentifierToken <:+: repo) (hrepo_nl : '\n' ∉ repo) :
    reTestIdentifier (issueBodyTemplate test repo
        (testIdentifierPattern (getIdentityForTest test repo)))
      = some (getIdentityForTest test repo) :=
  reTestIdentifier_body _ _ _
    (fun s => noStart_mark_name _ '\n' s htest (by decide))
    (fun s => noStart_mark_name _ '\n' s hrepo (by decide))
    (noStart_mark_identity _ _ _ htest hrepo)
    (newline_not_mem_identity _ _ htest_nl hrepo_nl)

theorem isAutoComment_of_body (gi : GithubIssue) (identity : Str) (c : IssueComment)
    (huser : c.User.ID = gi.user.ID) (hbody : reTestIdentifier c.Body = some identity) :
    isAutoComment gi identity c = true := by
  simp [isAutoComment, huser, hbody]

theorem not_infix_of_head_not_mem (p : Char) (ps t : Str) (h : p ∉ t) : ¬ (p :: ps) <:+: t := by
  rintro ⟨a, b, hab⟩
  apply h
  rw [← hab]
  simp

theorem sampleEnv_time_token (t : Int) : ¬ testIdentifierToken <:+: sampleEnv.timeString t := by
  have h0 : testIdentifierToken = 'D' :: "ONT_MODIFY_TEST_IDENTIFIER".toList := rfl
  rw [h0]
  apply not_infix_of_head_not_mem
  have h1 : 'D' ∉ "time ".toList := by decide
  show 'D' ∉ "time ".toList ++ fmtInt t
  simp only [List.mem_append, not_or]
  exact ⟨h1, not_mem_fmtInt t 'D' (by decide)⟩

theorem sampleEnv_time_newline (t : Int) : '\n' ∉ sampleEnv.timeString t := by
  have h1 : '\n' ∉ "time ".toList := by decide
  show '\n' ∉ "time ".toList ++ fmtInt t
  simp only [List.mem_append, not_or]
  exact ⟨h1, newline_not_mem_fmtInt t⟩

theorem sampleEnv_status_token (ts : TestStat) :
    ¬ testIdentifierToken <:+: sampleEnv.getTestStatus ts := by
  show ¬ testIdentifierToken <:+: (if (!ts.Passed.isEmpty && !ts.Failed.isEmpty) = true
    then "Flaky".toList
    else if (!ts.Passed.isEmpty) = true then "Passed".toList
    else if ts.Failed.isEmpty = true then "NotEnoughData".toList
    else "Failed".toList)
  split_ifs <;> decide

/-! # Claims -/

/-- C1 (as amended): for every test name and repository name that contain
neither the sentinel token nor a line break, matching `reTestIdentifier`
against the issue body built with `issueBodyTemplate` from the test name,
the repository name and `testIdentifierPattern` applied to
`getIdentityForTest testFullName repoName` captures exactly that identity. -/
theorem identity_roundtrip (testFullName repoName : Str)
    (ht : ¬ testIdentifierToken <:+: testFullName)
    (hr : ¬ testIdentifierToken <:+: repoName)
    (hnt : '\n' ∉ testFullName) (hnr : '\n' ∉ repoName) :
    reTestIdentifier (issueBodyTemplate testFullName repoName
        (testIdentifierPattern (getIdentityForTest testFullName repoName)))
      = some (getIdentityForTest testFullName repoName) := by
  have hbody : issueBodyTemplate testFullName repoName
        (testIdentifierPattern (getIdentityForTest testFullName repoName))
      = ("\n### Auto-generated issue tracking flakiness of test\n* **Test name**: ".toList
          ++ (testFullName ++ ("\n* **Repository name**: ".toList ++ (repoName
          ++ "\n\n<!-------------End of issue body, Please don't edit below this line------------->\n<!--".toList))))
        ++ (testIdentifierMark ++ (getIdentityForTest testFullName repoName
          ++ (testIdentifierMark ++ "-->".toList))) := by
    simp only [issueBodyTemplate, testIdentifierPattern, List.append_assoc]
  rw [hbody, reTestIdentifier, findLazyBetween_skip]
  · exact findLazyBetween_here _ _ _ _ _
      (lazyCapture_exact _ _ _ _ (noStart_mark_identity _ _ _ ht hr)
        (fun _ => newline_not_mem_identity _ _ hnt hnr))
  · rw [noStart_append, noStart_append, noStart_append, noStart_append]
    refine ⟨noStart_of_head_not_mem _ _ _ _ (by decide), ?_,
      noStart_of_head_not_mem _ _ _ _ (by decide), ?_,
      noStart_of_head_not_mem _ _ _ _ (by decide)⟩
    · exact noStart_mark_name testFullName '\n' _ ht (by decide)
    · exact noStart_mark_name repoName '\n' _ hr (by decide)

/-- Witness of `identity_roundtrip`: test `TestA` in repository `serving`. -/
theorem identity_roundtrip_witness :
    (¬ testIdentifierToken <:+: "TestA".toList ∧ ¬ testIdentifierToken <:+: "serving".toList
      ∧ '\n' ∉ "TestA".toList ∧ '\n' ∉ "serving".toList) ∧
    reTestIdentifier (issueBodyTemplate "TestA".toList "serving".toList
        (testIdentifierPattern (getIdentityForTest "TestA".toList "serving".toList)))
      = some (getIdentityForTest "TestA".toList "serving".toList) :=
  ⟨by decide, identity_roundtrip "TestA".toList "serving".toList (by decide) (by decide)
    (by decide) (by decide)⟩

/-- C1 as stated fails: the test name `a⏎b` (with a line break) and the
repository name `r` do not contain the sentinel token, yet `reTestIdentifier`
finds no match in the issue body built from them. -/
theorem identity_roundtrip_counterexample :
    ¬ (∀ testFullName repoName : Str,
        ¬ testIdentifierToken <:+: testFullName → ¬ testIdentifierToken <:+: repoName →
        reTestIdentifier (issueBodyTemplate testFullName repoName
            (testIdentifierPattern (getIdentityForTest testFullName repoName)))
          = some (getIdentityForTest testFullName repoName)) := by
  intro h
  have h1 := h "a\nb".toList "r".toList (by decide) (by decide)
  revert h1
  decide

/-- For repository names that contain no apostrophe, `getIdentityForTest`
gives different pairs of test name and repository name different
identities. -/
theorem getIdentityForTest_unique (testFullName1 repoName1 testFullName2 repoName2 : Str)
    (h1 : '\'' ∉ repoName1) (h2 : '\'' ∉ repoName2)
    (hne : (testFullName1, repoName1) ≠ (testFullName2, repoName2)) :
    getIdentityForTest testFullName1 repoName1 ≠ getIdentityForTest testFullName2 repoName2 := by
  intro h
  obtain ⟨ht, hr⟩ := getIdentityForTest_injective _ _ _ _ h1 h2 h
  exact hne (by rw [ht, hr])

/-- Witness of `getIdentityForTest_unique`: tests `TestA` and `TestB` of
repository `serving`. -/
theorem getIdentityForTest_unique_witness :
    ('\'' ∉ "serving".toList ∧
      ("TestA".toList, "serving".toList) ≠ ("TestB".toList, "serving".toList)) ∧
    getIdentityForTest "TestA".toList "serving".toList
      ≠ getIdentityForTest "TestB".toList "serving".toList :=
  ⟨by decide, getIdentityForTest_unique "TestA".toList "serving".toList "TestB".toList
    "serving".toList (by decide) (by decide) (by decide)⟩

/-- C2, the code at a failing input: test `a' in repo 'b` of repository `c`
and test `a` of repository `b' in repo 'c` are different pairs, and
`getIdentityForTest`, which inserts the two names without escaping, gives
both the same string. -/
theorem getIdentityForTest_collision :
    ("a' in repo 'b".toList, "c".toList) ≠ ("a".toList, "b' in repo 'c".toList) ∧
    getIdentityForTest "a' in repo 'b".toList "c".toList
      = getIdentityForTest "a".toList "b' in repo 'c".toList := by
  decide

/-- C3, the code at a failing input: a group of two closed tickets followed
by an open one is mixed, and the pruning loop of `getFlakyIssues` leaves the
second closed ticket in it, whatever the sorting function. -/
theorem reconcile_mixed_keeps_closed
    (sortSlice : (flakyIssue → flakyIssue → Bool) → List flakyIssue → List flakyIssue) :
    reconcile sortSlice
        [sampleIssue 1 IssueCloseState (some 10) [], sampleIssue 2 IssueCloseState (some 20) [],
          sampleIssue 3 IssueOpenState (some 30) []]
      = some [sampleIssue 2 IssueCloseState (some 20) [],
          sampleIssue 3 IssueOpenState (some 30) []]
    ∧ (sampleIssue 2 IssueCloseState (some 20) []).issue.State = IssueCloseState := by
  constructor
  · rfl
  · rfl

/-- C4: for every group (non-empty, as every group of the index is) in which
every ticket is closed, reconciliation leaves exactly one ticket, a member
of the original group, and no ticket of the group was created strictly
earlier: whenever a ticket of the group has a creation time, the kept one
has one that is not later. `sort.Slice` is any function that returns a
permutation of its argument ordered by the `less` function. -/
theorem reconcile_all_closed
    (sortSlice : (flakyIssue → flakyIssue → Bool) → List flakyIssue → List flakyIssue)
    (hperm : ∀ l, (sortSlice createdBefore l).Perm l)
    (hsorted : ∀ l, (sortSlice createdBefore l).Pairwise (fun a b => createdBefore b a = false))
    (v : List flakyIssue) (hne : v ≠ [])
    (hall : ∀ fi ∈ v, fi.issue.State = IssueCloseState) :
    ∃ kept, reconcile sortSlice v = some [kept] ∧ kept ∈ v ∧
      ∀ fi ∈ v, ∀ a, fi.issue.CreatedAt = some a →
        ∃ b, kept.issue.CreatedAt = some b ∧ b ≤ a := by
  have hopen : v.any (fun fi => decide (fi.issue.State = IssueOpenState)) = false :=
    any_state_false v _ _ (by decide) hall
  cases hs : sortSlice createdBefore v with
  | nil =>
    have := (hperm v).length_eq
    rw [hs] at this
    exact absurd (List.length_eq_zero.mp this.symm) hne
  | cons kept rest =>
    refine ⟨kept, ?_, ?_, ?_⟩
    · simp [reconcile, hopen, hs]
    · exact (hperm v).subset (by rw [hs]; exact List.mem_cons_self _ _)
    · intro fi hfi a ha
      have hmem : fi ∈ kept :: rest := by
        rw [← hs]
        exact (hperm v).symm.subset hfi
      have hpw := hsorted v
      rw [hs, List.pairwise_cons] at hpw
      have hnot : createdBefore fi kept = false := by
        rcases List.mem_cons.mp hmem with h | h
        · rw [h]
          exact createdBefore_irrefl kept
        · exact hpw.1 fi h
      unfold createdBefore at hnot
      rw [ha] at hnot
      cases hk : kept.issue.CreatedAt with
      | none => simp [hk] at hnot
      | some b =>
        refine ⟨b, rfl, ?_⟩
        simp only [hk, decide_eq_false_iff_not, not_lt] at hnot
        exact hnot

/-- Witness of `reconcile_all_closed`: two closed tickets created at times 20
and 10, sorted by merge sort. -/
theorem reconcile_all_closed_witness :
    ∃ kept, reconcile sampleSort
        [sampleIssue 1 IssueCloseState (some 20) [], sampleIssue 2 IssueCloseState (some 10) []]
        = some [kept] ∧
      kept ∈ [sampleIssue 1 IssueCloseState (some 20) [],
        sampleIssue 2 IssueCloseState (some 10) []] ∧
      ∀ fi ∈ [sampleIssue 1 IssueCloseState (some 20) [],
          sampleIssue 2 IssueCloseState (some 10) []],
        ∀ a, fi.issue.CreatedAt = some a → ∃ b, kept.issue.CreatedAt = some b ∧ b ≤ a :=
  reconcile_all_closed sampleSort sampleSort_perm sampleSort_sorted _ (by simp)
    (by
      intro fi hfi
      simp only [List.mem_cons, List.mem_singleton, List.not_mem_nil, or_false] at hfi
      rcases hfi with h | h <;> rw [h] <;> rfl)

/-- C5: for every group (non-empty, as every group of the index is) in which
every ticket is open, reconciliation leaves the group as it is: the same
tickets in the same order. -/
theorem reconcile_all_open
    (sortSlice : (flakyIssue → flakyIssue → Bool) → List flakyIssue → List flakyIssue)
    (v : List flakyIssue) (hne : v ≠ [])
    (hall : ∀ fi ∈ v, fi.issue.State = IssueOpenState) :
    reconcile sortSlice v = some v := by
  have hopen : v.any (fun fi => decide (fi.issue.State = IssueOpenState)) = true :=
    any_state_true v _ hne hall
  have hclosed : v.any (fun fi => decide (fi.issue.State = IssueCloseState)) = false :=
    any_state_false v _ _ (by decide) hall
  simp [reconcile, hopen, hclosed]

/-- Witness of `reconcile_all_open`: two open tickets of one identity. -/
theorem reconcile_all_open_witness :
    reconcile sampleSort
        [sampleIssue 1 IssueOpenState (some 20) [], sampleIssue 2 IssueOpenState (some 10) []]
      = some [sampleIssue 1 IssueOpenState (some 20) [],
          sampleIssue 2 IssueOpenState (some 10) []] :=
  reconcile_all_open sampleSort _ (by simp)
    (by
      intro fi hfi
      simp only [List.mem_cons, List.mem_singleton, List.not_mem_nil, or_false] at hfi
      rcases hfi with h | h <;> rw [h] <;> rfl)

/-- C6: for an open ticket, outside dry-run and with every tracker call
succeeding, `updateIssue` calls `CloseIssue` if and only if the current
`TestStat` is Passed and the status recorded in the pinned comment is
`passedStatus`; when it closes it calls `CloseIssue` on the ticket and posts
the comment `Closing issue: this test has passed in latest 2 scans`; a ticket
whose recorded status is one of the three other statuses gets no `CloseIssue`
call. The four status constants are distinct (Go rejects a `switch` with a
repeated constant). -/
theorem updateIssue_close_rule (env : Env) (gi : GithubIssue) (fi : flakyIssue)
    (newComment : Str) (ts : TestStat) (log : List Call)
    (hopen : fi.issue.State = IssueOpenState)
    (hok : MutationsSucceed gi.client)
    (hdistinct : env.passedStatus ∉ [env.flakyStatus, env.failedStatus, env.lackDataStatus]) :
    ((∃ org repo n, Call.CloseIssue org repo n ∈
          callsMade (updateIssue env gi fi newComment ts false) log)
        ↔ (env.isPassed ts = true ∧ reLastestStatus fi.comment.Body = some env.passedStatus))
    ∧ ((env.isPassed ts = true ∧ reLastestStatus fi.comment.Body = some env.passedStatus) →
        Call.CloseIssue env.org (getRepoFromIssue fi.issue) fi.issue.Number ∈
            callsMade (updateIssue env gi fi newComment ts false) log
        ∧ Call.CreateComment env.org (getRepoFromIssue fi.issue) fi.issue.Number
            "Closing issue: this test has passed in latest 2 scans".toList ∈
            callsMade (updateIssue env gi fi newComment ts false) log)
    ∧ (∀ status ∈ [env.flakyStatus, env.failedStatus, env.lackDataStatus],
        reLastestStatus fi.comment.Body = some status →
        ∀ org repo n, Call.CloseIssue org repo n ∉
          callsMade (updateIssue env gi fi newComment ts false) log) := by
  have hclose : (env.isPassed ts = true ∧ reLastestStatus fi.comment.Body = some env.passedStatus) →
      Call.CloseIssue env.org (getRepoFromIssue fi.issue) fi.issue.Number ∈
          callsMade (updateIssue env gi fi newComment ts false) log
      ∧ Call.CreateComment env.org (getRepoFromIssue fi.issue) fi.issue.Number
          "Closing issue: this test has passed in latest 2 scans".toList ∈
          callsMade (updateIssue env gi fi newComment ts false) log := by
    rintro ⟨hp, hst⟩
    have hv : ∀ status, reLastestStatus fi.comment.Body = some status →
        status ∈ [env.passedStatus, env.flakyStatus, env.failedStatus, env.lackDataStatus] := by
      intro status h
      rw [hst] at h
      cases h
      exact List.mem_cons_self _ _
    have hpl : passedLast env fi = true := by simp [passedLast, hst]
    rw [updateIssue_ok env gi fi newComment ts log hok hv]
    simp [hp, hopen, hpl, closeCalls]
  have honly : (∃ org repo n, Call.CloseIssue org repo n ∈
        callsMade (updateIssue env gi fi newComment ts false) log) →
      (env.isPassed ts = true ∧ reLastestStatus fi.comment.Body = some env.passedStatus) := by
    rintro ⟨org, repo, n, h⟩
    obtain ⟨_, hp, _, hpl⟩ := updateIssue_close_only env gi fi newComment ts false log org repo n h
    exact ⟨hp, by simpa [passedLast] using hpl⟩
  refine ⟨⟨honly, fun h => ⟨_, _, _, (hclose h).1⟩⟩, hclose, ?_⟩
  intro status hmem hst org repo n h
  have h2 := (honly ⟨org, repo, n, h⟩).2
  rw [hst] at h2
  cases h2
  exact hdistinct hmem

/-- Witness of `updateIssue_close_rule`: an open ticket with recorded status
`Passed`, a test that passed, the tracker of which every call succeeds. -/
theorem updateIssue_close_rule_witness :
    ∃ org repo n, Call.CloseIssue org repo n ∈
      callsMade (updateIssue sampleEnv sampleGI
        (sampleIssue 1 IssueOpenState (some 10) (latestStatusPattern "Passed".toList))
        "new".toList samplePassed false) [] :=
  ((updateIssue_close_rule sampleEnv sampleGI
      (sampleIssue 1 IssueOpenState (some 10) (latestStatusPattern "Passed".toList))
      "new".toList samplePassed [] rfl
      ⟨fun _ _ _ _ _ => rfl, fun _ _ _ _ _ => rfl, fun _ _ _ _ => rfl, fun _ _ _ _ => rfl⟩
      (by decide)).1).2 ⟨by decide, by decide⟩

/-- C7 (as amended): for a closed ticket whose pinned comment records no
unknown status (`reLastestStatus` finds no status token in it, or captures
one of the four statuses), outside dry-run and with every tracker call
succeeding, `updateIssue` calls `ReopenIssue` if and only if the current
`TestStat` is Flaky (Passed and Flaky exclude each other); and for every
ticket, tracker and mode, a `TestStat` that is not Flaky, or is Passed,
causes no `ReopenIssue` call, and an open ticket is never sent one. -/
theorem updateIssue_reopen_rule (env : Env) (gi : GithubIssue) (newComment : Str)
    (ts : TestStat) (log : List Call) :
    (∀ fi : flakyIssue, fi.issue.State = IssueCloseState →
        (∀ status, reLastestStatus fi.comment.Body = some status →
          status ∈ [env.passedStatus, env.flakyStatus, env.failedStatus, env.lackDataStatus]) →
        MutationsSucceed gi.client → (env.isPassed ts = true → env.isFlaky ts = false) →
        ((∃ org repo n, Call.ReopenIssue org repo n ∈
            callsMade (updateIssue env gi fi newComment ts false) log)
          ↔ env.isFlaky ts = true))
    ∧ (∀ (fi : flakyIssue) (dryrun : Bool),
        (env.isFlaky ts = false ∨ env.isPassed ts = true ∨ fi.issue.State = IssueOpenState) →
        ∀ org repo n, Call.ReopenIssue org repo n ∉
          callsMade (updateIssue env gi fi newComment ts dryrun) log) := by
  constructor
  · intro fi hclosed hvalid hok hexcl
    constructor
    · rintro ⟨org, repo, n, h⟩
      exact (updateIssue_reopen_only env gi fi newComment ts false log org repo n h).2.2.1
    · intro hf
      have hp : env.isPassed ts = false := by
        cases h : env.isPassed ts with
        | false => rfl
        | true => rw [hexcl h] at hf; exact absurd hf (by simp)
      refine ⟨env.org, getRepoFromIssue fi.issue, fi.issue.Number, ?_⟩
      rw [updateIssue_ok env gi fi newComment ts log hok hvalid]
      simp [hp, hf, hclosed, reopenCalls]
  · intro fi dryrun hcases org repo n h
    obtain ⟨_, hp, hf, hc⟩ := updateIssue_reopen_only env gi fi newComment ts dryrun log org repo n h
    rcases hcases with h1 | h1 | h1
    · rw [h1] at hf
      exact absurd hf (by simp)
    · rw [h1] at hp
      exact absurd hp (by simp)
    · rw [h1] at hc
      exact open_ne_closed hc

/-- Witness of `updateIssue_reopen_rule`: a closed ticket whose pinned
comment holds no status token and a flaky test, on the tracker of which
every call succeeds, is reopened; an open ticket with recorded status
`Passed` is not sent a `ReopenIssue` call. -/
theorem updateIssue_reopen_rule_witness :
    ((∃ org repo n, Call.ReopenIssue org repo n ∈
        callsMade (updateIssue sampleEnv sampleGI
          (sampleIssue 1 IssueCloseState (some 10) "edited by hand".toList)
          "new".toList sampleFlaky false) [])
      ↔ sampleEnv.isFlaky sampleFlaky = true)
    ∧ ∀ org repo n, Call.ReopenIssue org repo n ∉
        callsMade (updateIssue sampleEnv sampleGI
          (sampleIssue 1 IssueOpenState (some 10) (latestStatusPattern "Passed".toList))
          "new".toList sampleFlaky false) [] :=
  ⟨(updateIssue_reopen_rule sampleEnv sampleGI "new".toList sampleFlaky []).1
      (sampleIssue 1 IssueCloseState (some 10) "edited by hand".toList) rfl
      (fun status h => by
        have hnone : reLastestStatus
            (sampleIssue 1 IssueCloseState (some 10) "edited by hand".toList).comment.Body
            = none := by decide
        rw [hnone] at h
        cases h)
      ⟨fun _ _ _ _ _ => rfl, fun _ _ _ _ _ => rfl, fun _ _ _ _ => rfl, fun _ _ _ _ => rfl⟩
      (by decide),
    (updateIssue_reopen_rule sampleEnv sampleGI "new".toList sampleFlaky []).2
      (sampleIssue 1 IssueOpenState (some 10) (latestStatusPattern "Passed".toList)) false
      (Or.inr (Or.inr rfl))⟩

/-- C7 as stated fails: a closed ticket whose pinned comment holds the status
token followed by no letter (the empty text is none of the four statuses), a
flaky test, no dry-run, the tracker of which every call succeeds:
`updateIssue` stops at the unknown status and sends no `ReopenIssue`. -/
theorem updateIssue_reopen_rule_counterexample :
    ¬ (∀ (env : Env) (gi : GithubIssue) (fi : flakyIssue) (newComment : Str) (ts : TestStat)
        (log : List Call),
        fi.issue.State = IssueCloseState → MutationsSucceed gi.client →
        (env.isPassed ts = true → env.isFlaky ts = false) →
        ((∃ org repo n, Call.ReopenIssue org repo n ∈
            callsMade (updateIssue env gi fi newComment ts false) log)
          ↔ env.isFlaky ts = true)) := by
  intro h
  have h1 := (h sampleEnv sampleGI
    (sampleIssue 1 IssueCloseState (some 10) (latestStatusPattern []))
    "new".toList sampleFlaky [] rfl
    ⟨fun _ _ _ _ _ => rfl, fun _ _ _ _ _ => rfl, fun _ _ _ _ => rfl, fun _ _ _ _ => rfl⟩
    (by decide)).2 (by decide)
  obtain ⟨org, repo, n, hmem⟩ := h1
  have hnil : callsMade (updateIssue sampleEnv sampleGI
      (sampleIssue 1 IssueCloseState (some 10) (latestStatusPattern []))
      "new".toList sampleFlaky false) [] = [] := by decide
  rw [hnil] at hmem
  exact absurd hmem (List.not_mem_nil _)

/-- C8 (as amended): outside dry-run, for every ticket in state open or
closed whose recorded status is one of the four statuses, `updateIssue`
calls `EditComment` on the pinned comment with the body
`prependComment oldBody newComment`, unless the ticket is closed and the
current `TestStat` is Passed, in which case it makes no call at all; an open
ticket with recorded status `passedStatus` and a test that is Flaky and not
Passed gets the comment edit and no other call. -/
theorem updateIssue_comment_rule (env : Env) (gi : GithubIssue) (fi : flakyIssue)
    (newComment : Str) (ts : TestStat) (log : List Call)
    (hstate : fi.issue.State = IssueOpenState ∨ fi.issue.State = IssueCloseState)
    (hvalid : validRecordedStatus env fi) :
    ((fi.issue.State = IssueCloseState ∧ env.isPassed ts = true) →
        callsMade (updateIssue env gi fi newComment ts false) log = [])
    ∧ (¬ (fi.issue.State = IssueCloseState ∧ env.isPassed ts = true) →
        (callsMade (updateIssue env gi fi newComment ts false) log).head? =
          some (Call.EditComment env.org (getRepoFromIssue fi.issue) fi.comment.ID
            (prependComment fi.comment.Body newComment)))
    ∧ (fi.issue.State = IssueOpenState →
        reLastestStatus fi.comment.Body = some env.passedStatus →
        env.isFlaky ts = true → env.isPassed ts = false →
        callsMade (updateIssue env gi fi newComment ts false) log =
          [Call.EditComment env.org (getRepoFromIssue fi.issue) fi.comment.ID
            (prependComment fi.comment.Body newComment)]) := by
  obtain ⟨calls, heq, _, hcases⟩ := updateIssue_log env gi fi newComment ts false log
    (valid_of_validRecordedStatus env fi hvalid)
  refine ⟨?_, ?_, ?_⟩
  · rintro ⟨hc, hp⟩
    have hno : ¬ fi.issue.State = IssueOpenState := by
      rw [hc]
      exact closed_ne_open
    rcases hcases with h | ⟨_, _, ho, _⟩ | ⟨_, hp2, _⟩
    · rw [heq, h]
      simp [hp, hno]
    · exact absurd ho hno
    · rw [hp] at hp2
      exact absurd hp2 (by simp)
  · intro hnot
    have hcond : env.isPassed ts = false ∨ fi.issue.State = IssueOpenState := by
      rcases hstate with ho | hc
      · exact Or.inr ho
      · left
        cases hp : env.isPassed ts with
        | false => rfl
        | true => exact absurd ⟨hc, hp⟩ hnot
    rw [heq]
    simp [hcond, editCall]
  · intro ho _ hf hp
    have hnc : ¬ fi.issue.State = IssueCloseState := by
      rw [ho]
      exact open_ne_closed
    rcases hcases with h | ⟨_, hp2, _⟩ | ⟨_, _, _, hc⟩
    · rw [heq, h]
      simp [ho, editCall]
    · rw [hp] at hp2
      exact absurd hp2 (by simp)
    · exact absurd hc hnc

/-- Witness of `updateIssue_comment_rule`: an open ticket with recorded status
`Passed` and a flaky test. -/
theorem updateIssue_comment_rule_witness :
    callsMade (updateIssue sampleEnv sampleGI
        (sampleIssue 1 IssueOpenState (some 10) (latestStatusPattern "Passed".toList))
        "new".toList sampleFlaky false) [] =
      [Call.EditComment sampleEnv.org
        (getRepoFromIssue
          (sampleIssue 1 IssueOpenState (some 10) (latestStatusPattern "Passed".toList)).issue)
        (sampleIssue 1 IssueOpenState (some 10) (latestStatusPattern "Passed".toList)).comment.ID
        (prependComment
          (sampleIssue 1 IssueOpenState (some 10)
            (latestStatusPattern "Passed".toList)).comment.Body
          "new".toList)] :=
  (updateIssue_comment_rule sampleEnv sampleGI
    (sampleIssue 1 IssueOpenState (some 10) (latestStatusPattern "Passed".toList))
    "new".toList sampleFlaky [] (Or.inl rfl)
    ⟨"Passed".toList, by decide, by decide⟩).2.2 rfl (by decide) (by decide) (by decide)

/-- C8 as stated fails: in dry-run, an open ticket with recorded status
`Passed` and a flaky test gets no `EditComment` call. -/
theorem updateIssue_comment_rule_counterexample :
    ¬ (∀ (env : Env) (gi : GithubIssue) (fi : flakyIssue) (newComment : Str) (ts : TestStat)
        (dryrun : Bool) (log : List Call),
        (fi.issue.State = IssueOpenState ∨ fi.issue.State = IssueCloseState) →
        validRecordedStatus env fi →
        ¬ (fi.issue.State = IssueCloseState ∧ env.isPassed ts = true) →
        Call.EditComment env.org (getRepoFromIssue fi.issue) fi.comment.ID
            (prependComment fi.comment.Body newComment) ∈
          callsMade (updateIssue env gi fi newComment ts dryrun) log) := by
  intro h
  have h1 := h sampleEnv sampleGI
    (sampleIssue 1 IssueOpenState (some 10) (latestStatusPattern "Passed".toList))
    "new".toList sampleFlaky true [] (Or.inl rfl)
    ⟨"Passed".toList, by decide, by decide⟩ (by decide)
  have hnil : callsMade (updateIssue sampleEnv sampleGI
      (sampleIssue 1 IssueOpenState (some 10) (latestStatusPattern "Passed".toList))
      "new".toList sampleFlaky true) [] = [] := by decide
  rw [hnil] at h1
  exact absurd h1 (List.not_mem_nil _)

/-- C9 (as amended): if the status that `reLastestStatus` captures from the
pinned comment (the run of ASCII letters after the first latest-status
token) is none of the four statuses, `updateIssue` returns an error and
makes no tracker call, in dry-run or not. -/
theorem updateIssue_unknown_status (env : Env) (gi : GithubIssue) (fi : flakyIssue)
    (newComment : Str) (ts : TestStat) (dryrun : Bool) (log : List Call) (status : Str)
    (h : reLastestStatus fi.comment.Body = some status)
    (hbad : status ∉ [env.passedStatus, env.flakyStatus, env.failedStatus, env.lackDataStatus]) :
    (∃ err, (updateIssue env gi fi newComment ts dryrun log).1 = some err)
    ∧ (updateIssue env gi fi newComment ts dryrun log).2 = log
    ∧ callsMade (updateIssue env gi fi newComment ts dryrun) log = [] := by
  unfold callsMade
  rw [updateIssue_invalid env gi fi newComment ts dryrun log status h hbad]
  exact ⟨⟨_, rfl⟩, rfl, by simp⟩

/-- Witness of `updateIssue_unknown_status`: the pinned comment records the
status `Broken`. -/
theorem updateIssue_unknown_status_witness :
    (∃ err, (updateIssue sampleEnv sampleGI
        (sampleIssue 1 IssueOpenState (some 10) (latestStatusPattern "Broken".toList))
        "new".toList sampleFlaky false []).1 = some err)
    ∧ (updateIssue sampleEnv sampleGI
        (sampleIssue 1 IssueOpenState (some 10) (latestStatusPattern "Broken".toList))
        "new".toList sampleFlaky false []).2 = []
    ∧ callsMade (updateIssue sampleEnv sampleGI
        (sampleIssue 1 IssueOpenState (some 10) (latestStatusPattern "Broken".toList))
        "new".toList sampleFlaky false) [] = [] :=
  updateIssue_unknown_status sampleEnv sampleGI
    (sampleIssue 1 IssueOpenState (some 10) (latestStatusPattern "Broken".toList))
    "new".toList sampleFlaky false [] "Broken".toList (by decide) (by decide)

/-- C9 as stated fails: the pinned comment of an open ticket holds the
status token followed by `Passed2`, a value that is none of the four
statuses. `reLastestStatus` captures only the letters, `Passed`, so for a
test that passed `updateIssue` returns no error, edits the comment and
closes the ticket. -/
theorem updateIssue_unknown_status_counterexample :
    "Passed2".toList ∉ [sampleEnv.passedStatus, sampleEnv.flakyStatus, sampleEnv.failedStatus,
      sampleEnv.lackDataStatus]
    ∧ reLastestStatus (latestStatusPattern "Passed2".toList) = some "Passed".toList
    ∧ (updateIssue sampleEnv sampleGI
        (sampleIssue 1 IssueOpenState (some 10) (latestStatusPattern "Passed2".toList))
        "new".toList samplePassed false []).1 = none
    ∧ callsMade (updateIssue sampleEnv sampleGI
        (sampleIssue 1 IssueOpenState (some 10) (latestStatusPattern "Passed2".toList))
        "new".toList samplePassed false) []
      = editCall sampleEnv
          (sampleIssue 1 IssueOpenState (some 10) (latestStatusPattern "Passed2".toList))
          "new".toList
        :: closeCalls sampleEnv
          (sampleIssue 1 IssueOpenState (some 10) (latestStatusPattern "Passed2".toList)) := by
  refine ⟨?_, ?_, ?_, ?_⟩
  · decide
  · decide
  · decide
  · decide

/-- C10: for every `RepoData` whose job name has no line break (and whose
result slice covers the builds, so that the function returns; the time
stamp of Go has no line break) and every previous comment text,
`createHistoryUnicode` returns `historyPattern` filled with a block of at most
10 entries (non-empty lines); and what `reHistory` reads back from that
output, the block up to the first closing token, has at most 10 entries as
well, so the bound holds from cycle to cycle. -/
theorem createHistoryUnicode_bound (env : Env) (rd : RepoData) (comment testFullName : Str)
    (hname : '\n' ∉ rd.Config.Name)
    (htime : ∀ t, '\n' ∉ env.timeString t)
    (hlen : rd.BuildIDs.length ≤ (env.getResultSliceForTest rd testFullName).length) :
    ∃ block, createHistoryUnicode env rd comment testFullName = some (historyPattern block)
      ∧ (historyEntries block).length ≤ maxHistoryEntries
      ∧ ∃ captured, reHistory (historyPattern block) = some captured
          ∧ captured <+: block ∧ (historyEntries captured).length ≤ maxHistoryEntries := by
  obtain ⟨links, hlinks, hnl⟩ := historyLinks_some rd.Config.Name
    (env.getResultSliceForTest rd testFullName) hname rd.BuildIDs 0 (by simpa using hlen)
  have hcur : '\n' ∉ env.timeString rd.LastBuildStartTime ++ ": ".toList ++ links := by
    have h1 : '\n' ∉ ": ".toList := by decide
    simp only [List.mem_append, not_or]
    exact ⟨⟨htime _, h1⟩, hnl⟩
  have hcount := historyBlock_count _ comment hcur
  obtain ⟨captured, hcap, hpre⟩ := reHistory_historyPattern
    (historyBlock (env.timeString rd.LastBuildStartTime ++ ": ".toList ++ links) comment)
  refine ⟨_, by simp only [createHistoryUnicode, currentUnicode, hlinks, Option.map_some'],
    le_trans (historyEntries_length_le _) hcount, captured, hcap, hpre, ?_⟩
  refine le_trans (historyEntries_length_le _) (le_trans ?_ hcount)
  exact Nat.succ_le_succ (hpre.sublist.count_le _)

/-- Witness of `createHistoryUnicode_bound`: the sample job, test `TestA`, and
a previous comment that is not a history block of the tool. -/
theorem createHistoryUnicode_bound_witness :
    ('\n' ∉ sampleRepoData.Config.Name
      ∧ sampleRepoData.BuildIDs.length
          ≤ (sampleEnv.getResultSliceForTest sampleRepoData "TestA".toList).length)
    ∧ ∃ block, createHistoryUnicode sampleEnv sampleRepoData "free text".toList "TestA".toList
          = some (historyPattern block)
        ∧ (historyEntries block).length ≤ maxHistoryEntries
        ∧ ∃ captured, reHistory (historyPattern block) = some captured
            ∧ captured <+: block ∧ (historyEntries captured).length ≤ maxHistoryEntries :=
  ⟨by decide,
    createHistoryUnicode_bound sampleEnv sampleRepoData "free text".toList "TestA".toList
      (by decide)
      (fun t => by
        have h1 : '\n' ∉ "time ".toList := by decide
        show '\n' ∉ "time ".toList ++ fmtInt t
        simp only [List.mem_append, not_or]
        exact ⟨h1, newline_not_mem_fmtInt t⟩)
      (by decide)⟩

/-- C12: outside dry-run, when `CreateIssue` succeeds (`combineErrors` being
nil exactly for no error): if `CreateComment` fails, `createNewIssue` calls
`CreateIssue`, `CreateComment`, `RemoveLabelForIssue` with `flakyLabel` and
`CloseIssue` on the new issue, in this order and nothing else (so never
`AddLabelsToIssue`), and returns an error; if `CreateComment` succeeds and
`AddLabelsToIssue` fails, the calls are `CreateIssue`, `CreateComment`,
`AddLabelsToIssue`, `RemoveLabelForIssue`, `CloseIssue`, and it returns an
error; `CloseIssue` follows `RemoveLabelForIssue` whatever the latter
answers; if the three steps succeed, the calls are the three steps only and
nil is returned. -/
theorem createNewIssue_rollback (env : Env) (gi : GithubIssue)
    (org repoForIssue title body comment : Str) (log : List Call) (issue : Issue)
    (hce : CombinesErrors env)
    (hcreate : gi.client.CreateIssue log org repoForIssue title body = .ok issue) :
    (∀ e, gi.client.CreateComment (log ++ [Call.CreateIssue org repoForIssue title body])
          org repoForIssue issue.Number comment = some e →
        callsMade (createNewIssue env gi org repoForIssue title body comment false) log =
          [Call.CreateIssue org repoForIssue title body,
            Call.CreateComment org repoForIssue issue.Number comment,
            Call.RemoveLabelForIssue org repoForIssue issue.Number flakyLabel,
            Call.CloseIssue org repoForIssue issue.Number]
        ∧ ∃ err, (createNewIssue env gi org repoForIssue title body comment false log).1 =
            some (some err))
    ∧ (gi.client.CreateComment (log ++ [Call.CreateIssue org repoForIssue title body])
          org repoForIssue issue.Number comment = none →
        ∀ e, gi.client.AddLabelsToIssue
            (log ++ [Call.CreateIssue org repoForIssue title body,
              Call.CreateComment org repoForIssue issue.Number comment])
            org repoForIssue issue.Number [flakyLabel] = some e →
        callsMade (createNewIssue env gi org repoForIssue title body comment false) log =
          [Call.CreateIssue org repoForIssue title body,
            Call.CreateComment org repoForIssue issue.Number comment,
            Call.AddLabelsToIssue org repoForIssue issue.Number [flakyLabel],
            Call.RemoveLabelForIssue org repoForIssue issue.Number flakyLabel,
            Call.CloseIssue org repoForIssue issue.Number]
        ∧ ∃ err, (createNewIssue env gi org repoForIssue title body comment false log).1 =
            some (some err))
    ∧ (gi.client.CreateComment (log ++ [Call.CreateIssue org repoForIssue title body])
          org repoForIssue issue.Number comment = none →
        gi.client.AddLabelsToIssue
            (log ++ [Call.CreateIssue org repoForIssue title body,
              Call.CreateComment org repoForIssue issue.Number comment])
            org repoForIssue issue.Number [flakyLabel] = none →
        callsMade (createNewIssue env gi org repoForIssue title body comment false) log =
          [Call.CreateIssue org repoForIssue title body,
            Call.CreateComment org repoForIssue issue.Number comment,
            Call.AddLabelsToIssue org repoForIssue issue.Number [flakyLabel]]
        ∧ (createNewIssue env gi org repoForIssue title body comment false log).1 =
            some none) := by
  refine ⟨?_, ?_, ?_⟩
  · intro e hcomment
    obtain ⟨errs, hne, heq⟩ := createNewIssue_comment_fails env gi org repoForIssue title body
      comment log issue e hce hcreate hcomment
    refine ⟨callsMade_append _ _ _ _ heq, ?_⟩
    rw [heq]
    cases errs with
    | nil => exact absurd rfl hne
    | cons x xs =>
      obtain ⟨err, herr⟩ := Option.ne_none_iff_exists.mp (hce.cons x xs)
      exact ⟨err, by rw [← herr]⟩
  · intro hcomment e hlabel
    obtain ⟨errs, hne, heq⟩ := createNewIssue_label_fails env gi org repoForIssue title body
      comment log issue e hce hcreate hcomment hlabel
    refine ⟨callsMade_append _ _ _ _ heq, ?_⟩
    rw [heq]
    cases errs with
    | nil => exact absurd rfl hne
    | cons x xs =>
      obtain ⟨err, herr⟩ := Option.ne_none_iff_exists.mp (hce.cons x xs)
      exact ⟨err, by rw [← herr]⟩
  · intro hcomment hlabel
    have heq := createNewIssue_all_succeed env gi org repoForIssue title body comment log issue
      hce hcreate hcomment hlabel
    exact ⟨callsMade_append _ _ _ _ heq, by rw [heq]⟩

/-- Witness of `createNewIssue_rollback`: on the tracker on which
`AddLabelsToIssue` fails, the new issue is created, commented, then unlabeled
and closed, and an error is returned. -/
theorem createNewIssue_rollback_witness :
    callsMade (createNewIssue sampleEnv sampleGILabelFails "knative".toList "serving".toList
        "[flaky] TestA".toList "body".toList "comment".toList false) [] =
      [Call.CreateIssue "knative".toList "serving".toList "[flaky] TestA".toList "body".toList,
        Call.CreateComment "knative".toList "serving".toList 1 "comment".toList,
        Call.AddLabelsToIssue "knative".toList "serving".toList 1 [flakyLabel],
        Call.RemoveLabelForIssue "knative".toList "serving".toList 1 flakyLabel,
        Call.CloseIssue "knative".toList "serving".toList 1]
    ∧ ∃ err, (createNewIssue sampleEnv sampleGILabelFails "knative".toList "serving".toList
        "[flaky] TestA".toList "body".toList "comment".toList false []).1 = some (some err) :=
  (createNewIssue_rollback sampleEnv sampleGILabelFails "knative".toList "serving".toList
    "[flaky] TestA".toList "body".toList "comment".toList [] (sampleNewIssue "body".toList)
    sampleEnv_combinesErrors rfl).2.1 rfl "label error".toList rfl

/-- C19: in dry-run, with the executor returning success without running the
action (and `combineErrors` nil for no error), `updateIssue` on a ticket whose
recorded status is one of the four statuses, and `createNewIssue` on any
input, make no tracker call and return nil; `createNewIssue` returns, it does
not panic on the issue that was never created. -/
theorem dryrun_no_side_effects (env : Env) (gi : GithubIssue)
    (hnil : env.combineErrors [] = none) :
    (∀ (fi : flakyIssue) (newComment : Str) (ts : TestStat) (log : List Call),
        validRecordedStatus env fi →
        updateIssue env gi fi newComment ts true log = (none, log)
        ∧ callsMade (updateIssue env gi fi newComment ts true) log = [])
    ∧ (∀ (org repoForIssue title body comment : Str) (log : List Call),
        createNewIssue env gi org repoForIssue title body comment true log = (some none, log)
        ∧ callsMade (createNewIssue env gi org repoForIssue title body comment true) log = []) := by
  constructor
  · intro fi newComment ts log hvalid
    have h := updateIssue_dry env gi fi newComment ts log
      (valid_of_validRecordedStatus env fi hvalid)
    exact ⟨h, by simp [callsMade, h]⟩
  · intro org repoForIssue title body comment log
    have h := createNewIssue_dry env gi org repoForIssue title body comment log hnil
    exact ⟨h, by simp [callsMade, h]⟩

/-- Witness of `dryrun_no_side_effects`: an open ticket with recorded status
`Passed` and a passed test, which outside dry-run would be closed. -/
theorem dryrun_no_side_effects_witness :
    updateIssue sampleEnv sampleGI
        (sampleIssue 1 IssueOpenState (some 10) (latestStatusPattern "Passed".toList))
        "new".toList samplePassed true [] = (none, [])
    ∧ callsMade (updateIssue sampleEnv sampleGI
        (sampleIssue 1 IssueOpenState (some 10) (latestStatusPattern "Passed".toList))
        "new".toList samplePassed true) [] = [] :=
  (dryrun_no_side_effects sampleEnv sampleGI rfl).1
    (sampleIssue 1 IssueOpenState (some 10) (latestStatusPattern "Passed".toList))
    "new".toList samplePassed [] ⟨"Passed".toList, by decide, by decide⟩

/-- C20: for all strings `oldComment` and `newComment`,
`prependComment oldComment newComment` is `newComment`, two line breaks, and
then the old comment inside the collapsible block when it is not empty,
nothing when it is empty; so the result starts with `newComment` and holds
`oldComment` verbatim after it. -/
theorem prependComment_keeps_old (oldComment newComment : Str) :
    prependComment oldComment newComment =
        newComment ++ "\n\n".toList ++
          (if oldComment = [] then []
           else "\n<details>\n\t<summary>Click to see older results</summary><p>\n\n".toList
             ++ oldComment ++ "\n</p></details>".toList)
    ∧ newComment <+: prependComment oldComment newComment
    ∧ (∃ before after, prependComment oldComment newComment
        = newComment ++ before ++ oldComment ++ after)
    ∧ prependComment [] newComment = newComment ++ "\n\n".toList := by
  have hmain : prependComment oldComment newComment =
      newComment ++ "\n\n".toList ++
        (if oldComment = [] then []
         else "\n<details>\n\t<summary>Click to see older results</summary><p>\n\n".toList
           ++ oldComment ++ "\n</p></details>".toList) := by
    unfold prependComment collapseTemplate
    by_cases h : oldComment = []
    · simp only [h, ne_eq, not_true_eq_false, if_false, if_true]
    · simp only [h, ne_eq, not_false_eq_true, if_true, if_false, List.append_assoc]
      rfl
  refine ⟨hmain, ⟨_, by rw [hmain, List.append_assoc]⟩, ?_, ?_⟩
  · rw [hmain]
    by_cases h : oldComment = []
    · exact ⟨"\n\n".toList, [], by simp only [h, if_true, List.append_nil]⟩
    · exact ⟨"\n\n".toList
        ++ "\n<details>\n\t<summary>Click to see older results</summary><p>\n\n".toList,
        "\n</p></details>".toList, by simp only [h, if_false, List.append_assoc]⟩
  · unfold prependComment
    simp only [ne_eq, not_true_eq_false, if_false, List.append_nil]

/-- C11 (as amended): for a job name without line breaks (the time stamp of
Go has none, and the result slice covers the builds), when the text that
`reHistory` reads from the previous comment is a history block written by
`createHistoryUnicode`, with entries e1..ek, the entries of the new block are
the line of the current cycle first, followed by e1..em for some m ≤ k in
unchanged order: the entries dropped are the last ones of the old block,
the oldest. -/
theorem createHistoryUnicode_order (env : Env) (rd : RepoData)
    (comment testFullName curOld older : Str)
    (hname : '\n' ∉ rd.Config.Name)
    (htime : ∀ t, '\n' ∉ env.timeString t)
    (hlen : rd.BuildIDs.length ≤ (env.getResultSliceForTest rd testFullName).length)
    (hold : reHistory comment = some (historyBlock curOld older)) :
    ∃ cur m, currentUnicode env rd testFullName = some cur
      ∧ createHistoryUnicode env rd comment testFullName
          = some (historyPattern (historyBlock cur comment))
      ∧ m ≤ (historyEntries (historyBlock curOld older)).length
      ∧ historyEntries (historyBlock cur comment)
          = cur :: (historyEntries (historyBlock curOld older)).take m := by
  obtain ⟨links, hlinks, hnl⟩ := historyLinks_some rd.Config.Name
    (env.getResultSliceForTest rd testFullName) hname rd.BuildIDs 0 (by simpa using hlen)
  have hcur : '\n' ∉ env.timeString rd.LastBuildStartTime ++ ": ".toList ++ links := by
    have h1 : '\n' ∉ ": ".toList := by decide
    simp only [List.mem_append, not_or]
    exact ⟨⟨htime _, h1⟩, hnl⟩
  have hne : env.timeString rd.LastBuildStartTime ++ ": ".toList ++ links ≠ [] := by
    intro h
    have h2 : ':' ∈ env.timeString rd.LastBuildStartTime ++ ": ".toList ++ links := by
      have h3 : ':' ∈ ": ".toList := by decide
      simp only [List.mem_append]
      exact Or.inl (Or.inr h3)
    rw [h] at h2
    exact List.not_mem_nil _ h2
  obtain ⟨rest, hrest⟩ := historyBlock_starts_with_newline curOld older
  rw [hrest] at hold ⊢
  obtain ⟨m, hm, hent⟩ := historyBlock_entries _ comment rest hcur hne hold
  exact ⟨_, m, by simp only [currentUnicode, hlinks, Option.map_some'],
    by simp only [createHistoryUnicode, currentUnicode, hlinks, Option.map_some'], hm, hent⟩

/-- Witness of `createHistoryUnicode_order`: the sample job and a previous
comment that holds the block of a first cycle. -/
theorem createHistoryUnicode_order_witness :
    ∃ cur m, currentUnicode sampleEnv sampleRepoData "TestA".toList = some cur
      ∧ createHistoryUnicode sampleEnv sampleRepoData sampleOldComment "TestA".toList
          = some (historyPattern (historyBlock cur sampleOldComment))
      ∧ m ≤ (historyEntries
          (historyBlock "time 900:  [&#10004;](url/1)".toList [])).length
      ∧ historyEntries (historyBlock cur sampleOldComment)
          = cur :: (historyEntries
              (historyBlock "time 900:  [&#10004;](url/1)".toList [])).take m :=
  createHistoryUnicode_order sampleEnv sampleRepoData sampleOldComment "TestA".toList
    "time 900:  [&#10004;](url/1)".toList [] (by decide)
    (fun t => by
      have h1 : '\n' ∉ "time ".toList := by decide
      show '\n' ∉ "time ".toList ++ fmtInt t
      simp only [List.mem_append, not_or]
      exact ⟨h1, newline_not_mem_fmtInt t⟩)
    (by decide) (by decide)

/-- C11 as stated fails: for the job name `a⏎b` (with a line break) the text
of the current cycle spans two lines, so the first entry of the new block is
not the current cycle's text, although the previous comment holds a block
written by `createHistoryUnicode`. -/
theorem createHistoryUnicode_order_counterexample :
    ¬ (∀ (env : Env) (rd : RepoData) (comment testFullName curOld older : Str),
        (∀ t, '\n' ∉ env.timeString t) →
        rd.BuildIDs.length ≤ (env.getResultSliceForTest rd testFullName).length →
        reHistory comment = some (historyBlock curOld older) →
        ∃ cur m, currentUnicode env rd testFullName = some cur
          ∧ historyEntries (historyBlock cur comment)
              = cur :: (historyEntries (historyBlock curOld older)).take m) := by
  intro h
  obtain ⟨cur, m, hcur, hent⟩ := h sampleEnv sampleRepoDataBroken sampleOldComment
    "TestA".toList "time 900:  [&#10004;](url/1)".toList []
    (fun t => by
      have h1 : '\n' ∉ "time ".toList := by decide
      show '\n' ∉ "time ".toList ++ fmtInt t
      simp only [List.mem_append, not_or]
      exact ⟨h1, newline_not_mem_fmtInt t⟩)
    (by decide) (by decide)
  have hline : currentUnicode sampleEnv sampleRepoDataBroken "TestA".toList
      = some sampleBrokenLine := by decide
  rw [hline] at hcur
  cases hcur
  have hhead : (historyEntries (historyBlock sampleBrokenLine sampleOldComment)).head?
      ≠ some sampleBrokenLine := by decide
  rw [hent] at hhead
  exact hhead rfl

/-- C16: when `ListComments` succeeds, a comment returned by
`findExistingComment` is one of the listed comments, written by the tool's
own account, whose first `reTestIdentifier` match is the issue's identity,
and no listed comment with these two properties was created strictly earlier
(whenever such a comment has a creation time, the returned one has one that
is not later); the function returns a comment if one with the two
properties is listed, and the error `no comment match` if and only if none
is. `sort.Slice` is any function that returns a permutation of its argument
ordered by the `less` function. -/
theorem findExistingComment_earliest
    (sortSlice : (IssueComment → IssueComment → Bool) → List IssueComment → List IssueComment)
    (hperm : ∀ l, (sortSlice commentCreatedBefore l).Perm l)
    (hsorted : ∀ l, (sortSlice commentCreatedBefore l).Pairwise
      (fun a b => commentCreatedBefore b a = false))
    (env : Env) (gi : GithubIssue) (issue : Issue) (issueIdentity : Str) (log : List Call)
    (comments : List IssueComment)
    (hlist : gi.client.ListComments log env.org (getRepoFromIssue issue) issue.Number
      = .ok comments) :
    (∀ c, (findExistingComment sortSlice env gi issue issueIdentity log).1 = .ok c →
        c ∈ comments ∧ c.User.ID = gi.user.ID ∧ reTestIdentifier c.Body = some issueIdentity
        ∧ ∀ c2 ∈ comments, c2.User.ID = gi.user.ID →
            reTestIdentifier c2.Body = some issueIdentity →
            ∀ t2, c2.CreatedAt = some t2 → ∃ t, c.CreatedAt = some t ∧ t ≤ t2)
    ∧ ((∃ c2 ∈ comments, c2.User.ID = gi.user.ID
          ∧ reTestIdentifier c2.Body = some issueIdentity) →
        ∃ c, (findExistingComment sortSlice env gi issue issueIdentity log).1 = .ok c)
    ∧ ((findExistingComment sortSlice env gi issue issueIdentity log).1
          = .error "no comment match".toList
        ↔ ¬ ∃ c2 ∈ comments, c2.User.ID = gi.user.ID
            ∧ reTestIdentifier c2.Body = some issueIdentity) := by
  rw [findExistingComment_listed sortSlice env gi issue issueIdentity log comments hlist]
  have hauto : ∀ c, isAutoComment gi issueIdentity c = true ↔
      (c.User.ID = gi.user.ID ∧ reTestIdentifier c.Body = some issueIdentity) := by
    intro c
    simp [isAutoComment]
  have hmem : ∀ c, c ∈ sortSlice commentCreatedBefore comments ↔ c ∈ comments :=
    fun c => (hperm comments).mem_iff
  cases hfind : (sortSlice commentCreatedBefore comments).find? (isAutoComment gi issueIdentity) with
  | none =>
    have hnone : ∀ x ∈ comments, ¬ (x.User.ID = gi.user.ID
        ∧ reTestIdentifier x.Body = some issueIdentity) := by
      intro x hx hp
      have := List.find?_eq_none.mp hfind x ((hmem x).mpr hx)
      exact this ((hauto x).mpr hp)
    refine ⟨?_, ?_, ?_⟩
    · intro c hc
      exact absurd hc (by simp)
    · rintro ⟨c2, hc2, hp⟩
      exact absurd hp (hnone c2 hc2)
    · constructor
      · rintro _ ⟨c2, hc2, hp⟩
        exact hnone c2 hc2 hp
      · intro _
        rfl
  | some target =>
    obtain ⟨hp, before, after, hsplit, hbefore⟩ := List.find?_eq_some.mp hfind
    have htarget := (hauto target).mp hp
    have htmem : target ∈ comments := (hmem target).mp (by rw [hsplit]; simp)
    refine ⟨?_, ?_, ?_⟩
    · intro c hc
      simp only [Except.ok.injEq] at hc
      subst hc
      refine ⟨htmem, htarget.1, htarget.2, ?_⟩
      intro c2 hc2 hid hre t2 ht2
      have hc2s : c2 ∈ before ++ target :: after := by
        rw [← hsplit]
        exact (hmem c2).mpr hc2
      have hnot : commentCreatedBefore c2 target = false := by
        rcases List.mem_append.mp hc2s with h | h
        · have := hbefore c2 h
          rw [(hauto c2).mpr ⟨hid, hre⟩] at this
          exact absurd this (by simp)
        · rcases List.mem_cons.mp h with h | h
          · rw [h]
            exact commentCreatedBefore_irrefl target
          · have hpw := hsorted comments
            rw [hsplit, List.pairwise_append] at hpw
            exact (List.pairwise_cons.mp hpw.2.1).1 c2 h
      unfold commentCreatedBefore at hnot
      rw [ht2] at hnot
      cases hk : target.CreatedAt with
      | none => simp [hk] at hnot
      | some t =>
        refine ⟨t, rfl, ?_⟩
        simp only [hk, decide_eq_false_iff_not, not_lt] at hnot
        exact hnot
    · intro _
      exact ⟨target, rfl⟩
    · constructor
      · intro h
        exact absurd h (by simp)
      · intro h
        exact absurd ⟨target, htmem, htarget⟩ h

/-- Witness of `findExistingComment_earliest`: of the two comments of the
tool that carry the identity, the one written at time 20 is returned. -/
theorem findExistingComment_earliest_witness :
    ∃ c, (findExistingComment sampleSortComments sampleEnv sampleGIComments
        (sampleIssue 1 IssueOpenState (some 5) []).issue
        (getIdentityForTest "TestA".toList "serving".toList) []).1 = .ok c :=
  (findExistingComment_earliest sampleSortComments sampleSortComments_perm
    sampleSortComments_sorted sampleEnv sampleGIComments
    (sampleIssue 1 IssueOpenState (some 5) []).issue
    (getIdentityForTest "TestA".toList "serving".toList) [] sampleComments rfl).2.1
    ⟨sampleComment 3 7 (some 20)
      (testIdentifierPattern (getIdentityForTest "TestA".toList "serving".toList)),
      by decide, by decide, by decide⟩

/-- C17: on a tracker whose listings are those of one snapshot,
`getFlakyIssues` returns an error, and no index, whenever some ticket listed
with the flaky label in some listed repository is not excluded as stale and
either has a body in which `reTestIdentifier` finds no identity, or has no
listed comment written by the tool's account whose first `reTestIdentifier`
match is the ticket's identity. `sort.Slice` is any function that returns a
permutation of its argument. -/
theorem getFlakyIssues_integrity
    (sortIssues : (flakyIssue → flakyIssue → Bool) → List flakyIssue → List flakyIssue)
    (sortComments : (IssueComment → IssueComment → Bool) → List IssueComment → List IssueComment)
    (hperm : ∀ l, (sortComments commentCreatedBefore l).Perm l)
    (env : Env) (gi : GithubIssue) (hstable : StableListing gi.client) (log : List Call)
    (repos : List Str) (hrepos : gi.client.ListRepos log env.org = .ok repos)
    (repo : Str) (hrepo : repo ∈ repos)
    (issues : List Issue)
    (hissues : gi.client.ListIssuesByRepo log env.org repo [flakyLabel] = .ok issues)
    (issue : Issue) (hissue : issue ∈ issues)
    (hfresh : closedLongAgo env issue = false)
    (hbad : reTestIdentifier issue.Body = none ∨
      ∃ identity, reTestIdentifier issue.Body = some identity ∧
        ∀ comments, gi.client.ListComments log env.org (getRepoFromIssue issue) issue.Number
            = .ok comments →
          ∀ c ∈ comments, c.User.ID = gi.user.ID → reTestIdentifier c.Body ≠ some identity) :
    ∃ err, (getFlakyIssues sortIssues sortComments env gi log).1 = some (.error err) := by
  obtain ⟨err, herr⟩ := indexRepos_malformed sortComments env gi hstable log issue
    (indexIssue_malformed sortComments hperm env gi hstable log issue hfresh hbad)
    repo issues hissues hissue repos hrepo [] (log ++ [Call.ListRepos env.org])
  unfold getFlakyIssues GithubIssue.ListRepos
  rw [hrepos]
  simp only
  rcases hi : indexRepos sortComments env gi [] repos (log ++ [Call.ListRepos env.org])
    with ⟨r, log2⟩
  rw [hi] at herr
  simp only at herr
  subst herr
  exact ⟨err, rfl⟩

/-- Witness of `getFlakyIssues_integrity`: a repository with a well-formed
ticket and one whose body was edited by hand. -/
theorem getFlakyIssues_integrity_witness :
    ∃ err, (getFlakyIssues sampleInsertionSort sampleInsertionSort sampleEnv
      sampleGIMalformed []).1 = some (.error err) :=
  getFlakyIssues_integrity sampleInsertionSort sampleInsertionSort
    (sampleInsertionSort_perm _) sampleEnv sampleGIMalformed
    ⟨fun _ _ _ => rfl, fun _ _ _ _ _ => rfl, fun _ _ _ _ _ => rfl⟩ []
    ["serving".toList] rfl "serving".toList (by decide)
    [sampleFreshIssue, sampleMalformedIssue] rfl sampleMalformedIssue (by decide)
    (by decide) (Or.inl (by decide))

/-- C18: every ticket of the index that `getFlakyIssues` returns has no
closed timestamp, or one that is not before `timeConsiderOld`: a ticket
closed before `timeConsiderOld` is under no identity of the index.
`sort.Slice` is any function that returns a permutation of its argument. -/
theorem getFlakyIssues_excludes_stale
    (sortIssues : (flakyIssue → flakyIssue → Bool) → List flakyIssue → List flakyIssue)
    (sortComments : (IssueComment → IssueComment → Bool) → List IssueComment → List IssueComment)
    (hperm : ∀ l, (sortIssues createdBefore l).Perm l)
    (env : Env) (gi : GithubIssue) (log : List Call) (issuesMap : IssuesMap)
    (h : (getFlakyIssues sortIssues sortComments env gi log).1 = some (.ok issuesMap)) :
    ∀ identity group, (identity, group) ∈ issuesMap → ∀ fi ∈ group,
      fi.issue.ClosedAt = none ∨
        ∃ closedAt, fi.issue.ClosedAt = some closedAt ∧ env.timeConsiderOld ≤ closedAt := by
  have hfresh : AllFresh env issuesMap := by
    unfold getFlakyIssues at h
    rcases hl : gi.ListRepos env.org log with ⟨r, log2⟩
    rw [hl] at h
    cases r with
    | error e => exact absurd h (by simp)
    | ok repos =>
      simp only at h
      rcases hi : indexRepos sortComments env gi [] repos log2 with ⟨r2, log3⟩
      rw [hi] at h
      cases r2 with
      | error e => exact absurd h (by simp)
      | ok built =>
        simp only at h
        have hbuilt : AllFresh env built :=
          indexRepos_fresh sortComments env gi repos [] built log2
            (fun e he => absurd he (List.not_mem_nil _)) (by rw [hi])
        cases hr : reconcileAll sortIssues built with
        | none =>
          rw [hr] at h
          exact absurd h (by simp)
        | some reconciled =>
          rw [hr] at h
          simp only [Option.some.injEq, Except.ok.injEq] at h
          rw [← h]
          exact reconcileAll_fresh sortIssues hperm env built reconciled hbuilt hr
  intro identity group hg fi hfi
  have := hfresh (identity, group) hg fi hfi
  unfold closedLongAgo at this
  cases hc : fi.issue.ClosedAt with
  | none => exact Or.inl rfl
  | some closedAt =>
    rw [hc] at this
    simp only [decide_eq_false_iff_not, not_lt] at this
    exact Or.inr ⟨closedAt, rfl, this⟩

/-- Witness of `getFlakyIssues_excludes_stale`: of a ticket closed at time 100
(before `timeConsiderOld`, 500) and an open one, only the open one is in the
index. -/
theorem getFlakyIssues_excludes_stale_witness :
    (getFlakyIssues sampleInsertionSort sampleInsertionSort sampleEnv sampleGIIndex []).1
      = some (.ok sampleIndex)
    ∧ ∀ identity group, (identity, group) ∈ sampleIndex →
        ∀ fi ∈ group, fi.issue.ClosedAt = none ∨
          ∃ closedAt, fi.issue.ClosedAt = some closedAt ∧ sampleEnv.timeConsiderOld ≤ closedAt :=
  ⟨by rfl,
    getFlakyIssues_excludes_stale sampleInsertionSort sampleInsertionSort
      (sampleInsertionSort_perm _) sampleEnv sampleGIIndex [] sampleIndex (by rfl)⟩

set_option maxRecDepth 1000000

/-- C13, the code at a failing input: the pinned comment of
`sampleTicketWritten` was written by a cycle over `sampleRepoData` and holds
the text of `createCommentForTest` verbatim; alone under its identity the
ticket gets no call when the same data is processed again; but after
`sampleTicketOther`, a ticket of the same identity that is updated, the
variable `comment` holds the summary followed by the history of the other
ticket, the containment test fails, and the comment of `sampleTicketWritten`
is edited again. -/
theorem processGithubIssueForRepo_repeated_update :
    stringsContains sampleTicketWritten.comment.Body sampleSummary = true
    ∧ createCommentForTest sampleEnv sampleRepoData "TestA".toList = some sampleSummary
    ∧ callsMade (processGithubIssueForRepo sampleEnv sampleGI sampleRepoData
        [(getIdentityForTest "TestA".toList "serving".toList, [sampleTicketWritten])] false) []
        = []
    ∧ (callsMade (processGithubIssueForRepo sampleEnv sampleGI sampleRepoData
        [(getIdentityForTest "TestA".toList "serving".toList,
          [sampleTicketOther, sampleTicketWritten])] false) []).any
        (editsComment sampleTicketWritten.comment.ID) = true := by
  refine ⟨?_, ?_, ?_, ?_⟩
  · decide
  · rfl
  · decide
  · decide

/-- C14: for every `RepoData` with issue creation enabled (`IssueRepo` not
empty) for which `flakyRateAboveThreshold` holds, `processGithubIssueForRepo`
returns no message, no error and makes no call when the bulk identity is a
key of the index; otherwise its calls are those of one `createNewIssue` for
the bulk identity; in both cases the calls are none, or one `CreateIssue`
with the title and body of the bulk identity followed only by calls on that
new issue (its comment, label, label removal, close): no call of
`updateIssue` (`EditComment`, `ReopenIssue`) and no second `CreateIssue`. -/
theorem processGithubIssueForRepo_bulk (env : Env) (gi : GithubIssue) (rd : RepoData)
    (flakyIssuesMap : IssuesMap) (dryrun : Bool) (log : List Call)
    (hrepo : rd.Config.IssueRepo ≠ [])
    (habove : env.flakyRateAboveThreshold rd = true) :
    ((flakyIssuesMap.lookup (getBulkIssueIdentity env rd)).isSome = true →
        processGithubIssueForRepo env gi rd flakyIssuesMap dryrun log = (some ([], none), log))
    ∧ (flakyIssuesMap.lookup (getBulkIssueIdentity env rd) = none →
        (processGithubIssueForRepo env gi rd flakyIssuesMap dryrun log).2 =
          (createNewIssue env gi env.org rd.Config.IssueRepo
            ("[flaky] ".toList ++ getBulkIssueIdentity env rd)
            (issueBodyTemplate (getBulkIssueIdentity env rd) rd.Config.Repo
              (testIdentifierPattern (getBulkIssueIdentity env rd)))
            ("Bulk issue tracking: ".toList ++ getBulkIssueIdentity env rd ++ "\n<!--".toList
              ++ testIdentifierPattern (getBulkIssueIdentity env rd) ++ "-->".toList)
            dryrun log).2)
    ∧ (callsMade (processGithubIssueForRepo env gi rd flakyIssuesMap dryrun) log = [] ∨
        ∃ rest, callsMade (processGithubIssueForRepo env gi rd flakyIssuesMap dryrun) log =
            Call.CreateIssue env.org rd.Config.IssueRepo
              ("[flaky] ".toList ++ getBulkIssueIdentity env rd)
              (issueBodyTemplate (getBulkIssueIdentity env rd) rd.Config.Repo
                (testIdentifierPattern (getBulkIssueIdentity env rd))) :: rest
          ∧ ∀ c ∈ rest, isFollowUpCall c = true) := by
  have hlen : ¬ rd.Config.IssueRepo.length = 0 := by
    intro h
    exact hrepo (List.length_eq_zero.mp h)
  have hsome : (flakyIssuesMap.lookup (getBulkIssueIdentity env rd)).isSome = true →
      processGithubIssueForRepo env gi rd flakyIssuesMap dryrun log = (some ([], none), log) := by
    intro h
    obtain ⟨v, hv⟩ := Option.isSome_iff_exists.mp h
    unfold processGithubIssueForRepo
    simp only [if_neg hlen, habove, if_true, hv]
  have hnone : flakyIssuesMap.lookup (getBulkIssueIdentity env rd) = none →
      (processGithubIssueForRepo env gi rd flakyIssuesMap dryrun log).2 =
        (createNewIssue env gi env.org rd.Config.IssueRepo
          ("[flaky] ".toList ++ getBulkIssueIdentity env rd)
          (issueBodyTemplate (getBulkIssueIdentity env rd) rd.Config.Repo
            (testIdentifierPattern (getBulkIssueIdentity env rd)))
          ("Bulk issue tracking: ".toList ++ getBulkIssueIdentity env rd ++ "\n<!--".toList
            ++ testIdentifierPattern (getBulkIssueIdentity env rd) ++ "-->".toList)
          dryrun log).2 := by
    intro h
    unfold processGithubIssueForRepo
    simp only [if_neg hlen, habove, if_true, h]
    split <;> simp_all
  refine ⟨hsome, hnone, ?_⟩
  cases hl : flakyIssuesMap.lookup (getBulkIssueIdentity env rd) with
  | some v =>
    left
    rw [callsMade, hsome (by rw [hl]; rfl)]
    simp
  | none =>
    obtain ⟨calls, hcalls, hshape⟩ := createNewIssue_calls env gi env.org rd.Config.IssueRepo
      ("[flaky] ".toList ++ getBulkIssueIdentity env rd)
      (issueBodyTemplate (getBulkIssueIdentity env rd) rd.Config.Repo
        (testIdentifierPattern (getBulkIssueIdentity env rd)))
      ("Bulk issue tracking: ".toList ++ getBulkIssueIdentity env rd ++ "\n<!--".toList
        ++ testIdentifierPattern (getBulkIssueIdentity env rd) ++ "-->".toList)
      dryrun log
    have hmade : callsMade (processGithubIssueForRepo env gi rd flakyIssuesMap dryrun) log
        = calls := by
      rw [callsMade, hnone hl, hcalls]
      simp
    rw [hmade]
    exact hshape

/-- Witness of `processGithubIssueForRepo_bulk`: a job with three tests, which
the sample puts above the threshold, and the index of `sampleIndex`, which
has no bulk ticket. -/
theorem processGithubIssueForRepo_bulk_witness :
    callsMade (processGithubIssueForRepo sampleEnv sampleGI sampleRepoDataBulk sampleIndex
        false) [] = [] ∨
      ∃ rest, callsMade (processGithubIssueForRepo sampleEnv sampleGI sampleRepoDataBulk
          sampleIndex false) [] =
          Call.CreateIssue sampleEnv.org sampleRepoDataBulk.Config.IssueRepo
            ("[flaky] ".toList ++ getBulkIssueIdentity sampleEnv sampleRepoDataBulk)
            (issueBodyTemplate (getBulkIssueIdentity sampleEnv sampleRepoDataBulk)
              sampleRepoDataBulk.Config.Repo
              (testIdentifierPattern (getBulkIssueIdentity sampleEnv sampleRepoDataBulk)))
            :: rest
        ∧ ∀ c ∈ rest, isFollowUpCall c = true :=
  (processGithubIssueForRepo_bulk sampleEnv sampleGI sampleRepoDataBulk sampleIndex false []
    (by decide) (by decide)).2.2

/-- C15: in the loop of `processGithubIssueForRepo` over the tests (the part
below the bulk threshold), a test whose `TestStat` is neither Flaky nor
Passed leaves the messages, the errors and the log of calls as they are,
whatever the index holds for its identity; the loop over the tests gives the
same result with the test as without it. -/
theorem failed_only_not_ticketed (env : Env) (gi : GithubIssue) (rd : RepoData)
    (flakyIssuesMap : IssuesMap) (dryrun : Bool) (testFullName : Str) (ts : TestStat)
    (hflaky : env.isFlaky ts = false) (hpassed : env.isPassed ts = false) :
    (∀ (st : List Str × List Str) (log : List Call),
        processTest env gi rd flakyIssuesMap dryrun st (testFullName, ts) log = (some st, log)
        ∧ callsMade (processTest env gi rd flakyIssuesMap dryrun st (testFullName, ts)) log = [])
    ∧ (∀ (earlier later : List (Str × TestStat)) (st : List Str × List Str) (log : List Call),
        processTests env gi rd flakyIssuesMap dryrun st
            (earlier ++ (testFullName, ts) :: later) log
          = processTests env gi rd flakyIssuesMap dryrun st (earlier ++ later) log) := by
  constructor
  · intro st log
    have h := processTest_skip env gi rd flakyIssuesMap dryrun st testFullName ts log
      hflaky hpassed
    exact ⟨h, by simp [callsMade, h]⟩
  · intro earlier later st log
    exact processTests_skip env gi rd flakyIssuesMap dryrun testFullName ts hflaky hpassed
      earlier later st log

/-- Witness of `failed_only_not_ticketed`: a test that failed in every build,
with a closed ticket of recorded status `Flaky` in the index. -/
theorem failed_only_not_ticketed_witness :
    processTest sampleEnv sampleGI sampleRepoData
        [(getIdentityForTest "TestA".toList "serving".toList,
          [sampleIssue 1 IssueCloseState (some 10) (latestStatusPattern "Flaky".toList)])]
        false ([], []) ("TestA".toList, sampleFailed) [] = (some ([], []), [])
    ∧ callsMade (processTest sampleEnv sampleGI sampleRepoData
        [(getIdentityForTest "TestA".toList "serving".toList,
          [sampleIssue 1 IssueCloseState (some 10) (latestStatusPattern "Flaky".toList)])]
        false ([], []) ("TestA".toList, sampleFailed)) [] = [] :=
  (failed_only_not_ticketed sampleEnv sampleGI sampleRepoData
    [(getIdentityForTest "TestA".toList "serving".toList,
      [sampleIssue 1 IssueCloseState (some 10) (latestStatusPattern "Flaky".toList)])]
    false "TestA".toList sampleFailed rfl rfl).1 ([], []) []

/-- C24, the code at a failing input: a group of two closed tickets created
at times 10 and 20, in either order. The comment in `getFlakyIssues` says
that the latest one is kept; the code sorts by creation time, earliest
first, and keeps element 0: the ticket created at time 10 is left, whatever
the sorting function. -/
theorem reconcile_all_closed_keeps_earliest
    (sortSlice : (flakyIssue → flakyIssue → Bool) → List flakyIssue → List flakyIssue)
    (hperm : ∀ l, (sortSlice createdBefore l).Perm l)
    (hsorted : ∀ l, (sortSlice createdBefore l).Pairwise (fun a b => createdBefore b a = false)) :
    reconcile sortSlice
        [sampleIssue 1 IssueCloseState (some 10) [], sampleIssue 2 IssueCloseState (some 20) []]
      = some [sampleIssue 1 IssueCloseState (some 10) []]
    ∧ reconcile sortSlice
        [sampleIssue 2 IssueCloseState (some 20) [], sampleIssue 1 IssueCloseState (some 10) []]
      = some [sampleIssue 1 IssueCloseState (some 10) []]
    ∧ (sampleIssue 1 IssueCloseState (some 10) []).issue.CreatedAt = some 10
    ∧ (sampleIssue 2 IssueCloseState (some 20) []).issue.CreatedAt = some 20 := by
  have key : ∀ v : List flakyIssue,
      v.Perm [sampleIssue 1 IssueCloseState (some 10) [],
        sampleIssue 2 IssueCloseState (some 20) []] →
      reconcile sortSlice v = some [sampleIssue 1 IssueCloseState (some 10) []] := by
    intro v hv
    have hall : ∀ fi ∈ v, fi.issue.State = IssueCloseState := by
      intro fi hfi
      have := hv.subset hfi
      simp only [List.mem_cons, List.mem_singleton, List.not_mem_nil, or_false] at this
      rcases this with h | h <;> rw [h] <;> rfl
    have hopen : v.any (fun fi => decide (fi.issue.State = IssueOpenState)) = false :=
      any_state_false v _ _ (by decide) hall
    have hp := (hperm v).trans hv
    cases hs : sortSlice createdBefore v with
    | nil =>
      have := hp.length_eq
      rw [hs] at this
      simp at this
    | cons kept rest =>
      have hk : kept = sampleIssue 1 IssueCloseState (some 10) [] := by
        have hmem : kept ∈ [sampleIssue 1 IssueCloseState (some 10) [],
            sampleIssue 2 IssueCloseState (some 20) []] :=
          hp.subset (by rw [hs]; exact List.mem_cons_self _ _)
        simp only [List.mem_cons, List.mem_singleton, List.not_mem_nil, or_false] at hmem
        rcases hmem with h | h
        · exact h
        · exfalso
          have h1 : sampleIssue 1 IssueCloseState (some 10) [] ∈ kept :: rest := by
            rw [← hs]
            exact hp.symm.subset (List.mem_cons_self _ _)
          have hpw := hsorted v
          rw [hs, List.pairwise_cons] at hpw
          rcases List.mem_cons.mp h1 with h2 | h2
          · rw [h] at h2
            exact absurd h2 (by decide)
          · have := hpw.1 _ h2
            rw [h] at this
            exact absurd this (by decide)
      simp [reconcile, hopen, hs, hk]
  exact ⟨key _ (List.Perm.refl _), key _ (List.Perm.swap _ _ _), rfl, rfl⟩

/-- Witness of `reconcile_all_closed_keeps_earliest`: the two groups sorted
by merge sort. -/
theorem reconcile_all_closed_keeps_earliest_witness :
    reconcile sampleSort
        [sampleIssue 1 IssueCloseState (some 10) [], sampleIssue 2 IssueCloseState (some 20) []]
      = some [sampleIssue 1 IssueCloseState (some 10) []]
    ∧ reconcile sampleSort
        [sampleIssue 2 IssueCloseState (some 20) [], sampleIssue 1 IssueCloseState (some 10) []]
      = some [sampleIssue 1 IssueCloseState (some 10) []]
    ∧ (sampleIssue 1 IssueCloseState (some 10) []).issue.CreatedAt = some 10
    ∧ (sampleIssue 2 IssueCloseState (some 20) []).issue.CreatedAt = some 20 :=
  reconcile_all_closed_keeps_earliest sampleSort sampleSort_perm sampleSort_sorted

/-- C26, the code at a failing input: the group of `TestA` holds
`sampleTicketOther` and `sampleTicketPlain`, neither of which is skipped.
The calls of `processGithubIssueForRepo` are two edits; the new comment of
the second ticket is the text of `createCommentForTest`, then the history
built from the pinned comment of the first ticket, then the history built
from its own pinned comment, which is not the text of `createCommentForTest`
followed by its own history. -/
theorem processGithubIssueForRepo_accumulates :
    callsMade (processGithubIssueForRepo sampleEnv sampleGI sampleRepoData
        [(getIdentityForTest "TestA".toList "serving".toList,
          [sampleTicketOther, sampleTicketPlain])] false) []
      = [editCall sampleEnv sampleTicketOther (sampleSummary ++ sampleHistoryOther),
         editCall sampleEnv sampleTicketPlain
           (sampleSummary ++ sampleHistoryOther ++ sampleHistoryPlain)]
    ∧ createCommentForTest sampleEnv sampleRepoData "TestA".toList = some sampleSummary
    ∧ createHistoryUnicode sampleEnv sampleRepoData sampleTicketPlain.comment.Body "TestA".toList
        = some sampleHistoryPlain
    ∧ sampleSummary ++ sampleHistoryOther ++ sampleHistoryPlain
        ≠ sampleSummary ++ sampleHistoryPlain := by
  refine ⟨?_, ?_, ?_, ?_⟩
  · decide
  · rfl
  · rfl
  · decide

/-- C27, the code at a failing input: for a group of an open ticket followed
by two closed ones the pruning loop of `getFlakyIssues` does not complete:
at index 2 the expression `issuesMap[k][i+1:]` is out of range for the
slice, which the removal at index 1 has shortened to two elements. -/
theorem reconcile_panics
    (sortSlice : (flakyIssue → flakyIssue → Bool) → List flakyIssue → List flakyIssue) :
    reconcile sortSlice
        [sampleIssue 1 IssueOpenState (some 10) [], sampleIssue 2 IssueCloseState (some 20) [],
          sampleIssue 3 IssueCloseState (some 30) []]
      = none := by
  rfl

/-- C25: for every previous pinned-comment body `old`, every `RepoData` and
test of it whose status string `getTestStatus` is purely alphabetic, and
every suffix `s`, `createCommentForTest` returns a text such that matching
`reLastestStatus` against `prependComment(old, text + s)` captures exactly
the status of the current cycle, whatever `old` holds; so for a ticket whose
pinned comment is that text, the close decision of the next cycle
(`passedLastTime`) is true exactly when the current status is the passed
status. -/
theorem reLastestStatus_newest (env : Env) (rd : RepoData) (test : Str) (ts : TestStat)
    (old s : Str)
    (hts : rd.TestStats.lookup test = some ts)
    (halpha : ∀ c ∈ env.getTestStatus ts, isAsciiLetter c = true) :
    ∃ summary, createCommentForTest env rd test = some summary ∧
      reLastestStatus (prependComment old (summary ++ s)) = some (env.getTestStatus ts) ∧
      ∀ fi : flakyIssue, fi.comment.Body = prependComment old (summary ++ s) →
        passedLast env fi = decide (env.getTestStatus ts = env.passedStatus) := by
  obtain ⟨more, hmore⟩ := createCommentForTest_shape env rd test ts hts
  have hre : reLastestStatus (prependComment old
      (latestStatusToken ++ (env.getTestStatus ts ++ '\n' :: more) ++ s))
      = some (env.getTestStatus ts) := by
    unfold reLastestStatus prependComment
    simp only [List.append_assoc, List.cons_append]
    exact findLettersAfter_here _ _ _ halpha (by
      intro c hc
      simp only [List.head?_cons, Option.mem_def, Option.some.injEq] at hc
      rw [← hc]
      decide)
  refine ⟨_, hmore, hre, ?_⟩
  intro fi hfi
  unfold passedLast
  rw [hfi, hre]
  simp only [Option.some.injEq]

/-- Witness of `reLastestStatus_newest`: `TestA` of `sampleRepoData`, whose
status is `Flaky`, over an old comment that records the status `Passed`. -/
theorem reLastestStatus_newest_witness :
    ∃ summary, createCommentForTest sampleEnv sampleRepoData "TestA".toList = some summary ∧
      reLastestStatus (prependComment (latestStatusPattern "Passed".toList)
        (summary ++ "history".toList)) = some (sampleEnv.getTestStatus sampleFlaky) ∧
      ∀ fi : flakyIssue, fi.comment.Body = prependComment (latestStatusPattern "Passed".toList)
          (summary ++ "history".toList) →
        passedLast sampleEnv fi
          = decide (sampleEnv.getTestStatus sampleFlaky = sampleEnv.passedStatus) :=
  reLastestStatus_newest sampleEnv sampleRepoData "TestA".toList sampleFlaky
    (latestStatusPattern "Passed".toList) "history".toList (by rfl) (by decide)

/-- C23 (as amended): for a job name that holds neither a line break nor the
closing token `afterHistoryToken` (the time stamp of Go holds neither, and
the result slice covers the builds), when `reHistory` finds no history block
in the given comment, `createHistoryUnicode` returns `historyPattern` filled
with a line break, the line of the current cycle and one line break;
`reHistory` captures exactly that text from the output, and the text splits
at line breaks into an empty piece, the line of the current cycle and an
empty piece: one entry. -/
theorem createHistoryUnicode_first (env : Env) (rd : RepoData) (comment testFullName : Str)
    (hnone : reHistory comment = none)
    (hname : '\n' ∉ rd.Config.Name)
    (hname_token : ¬ afterHistoryToken <:+: rd.Config.Name)
    (htime : ∀ t, '\n' ∉ env.timeString t)
    (htime_token : ∀ t, ¬ afterHistoryToken <:+: env.timeString t)
    (hlen : rd.BuildIDs.length ≤ (env.getResultSliceForTest rd testFullName).length) :
    ∃ cur, currentUnicode env rd testFullName = some cur
      ∧ createHistoryUnicode env rd comment testFullName
          = some (historyPattern ('\n' :: (cur ++ ['\n'])))
      ∧ reHistory (historyPattern ('\n' :: (cur ++ ['\n']))) = some ('\n' :: (cur ++ ['\n']))
      ∧ stringsSplit '\n' ('\n' :: (cur ++ ['\n'])) = [[], cur, []]
      ∧ historyEntries ('\n' :: (cur ++ ['\n'])) = [cur] := by
  obtain ⟨links, hlinks, hnl⟩ := historyLinks_some rd.Config.Name
    (env.getResultSliceForTest rd testFullName) hname rd.BuildIDs 0 (by simpa using hlen)
  have hcur : '\n' ∉ env.timeString rd.LastBuildStartTime ++ ": ".toList ++ links := by
    have h1 : '\n' ∉ ": ".toList := by decide
    simp only [List.mem_append, not_or]
    exact ⟨⟨htime _, h1⟩, hnl⟩
  have hne : env.timeString rd.LastBuildStartTime ++ ": ".toList ++ links ≠ [] := by
    intro h
    have h2 : ':' ∈ env.timeString rd.LastBuildStartTime ++ ": ".toList ++ links := by
      have h3 : ':' ∈ ": ".toList := by decide
      simp only [List.mem_append]
      exact Or.inl (Or.inr h3)
    rw [h] at h2
    exact List.not_mem_nil _ h2
  have hc : currentUnicode env rd testFullName
      = some (env.timeString rd.LastBuildStartTime ++ ": ".toList ++ links) := by
    simp only [currentUnicode, hlinks, Option.map_some']
  have hsplit : stringsSplit '\n'
      ('\n' :: (env.timeString rd.LastBuildStartTime ++ ": ".toList ++ links ++ ['\n']))
      = [[], env.timeString rd.LastBuildStartTime ++ ": ".toList ++ links, []] := by
    rw [stringsSplit_cons_sep, stringsSplit_line_append _ _ _ hcur]
    rfl
  refine ⟨_, hc, ?_, ?_, hsplit, ?_⟩
  · simp only [createHistoryUnicode, hc, Option.map_some', historyBlock_first _ _ hnone]
  · apply reHistory_exact
    have h1 := noStart_after_line env rd testFullName _
      (['\n'] ++ (afterHistoryToken ++ (('\n' :: passedUnicode) ++ " Passed\t".toList
        ++ failedUnicode ++ " Failed\t".toList ++ skippedUnicode ++ " Skipped\n".toList)))
      hname_token htime_token hc
    show NoStart afterHistoryToken (['\n'] ++ (_ ++ ['\n'])) _
    exact (noStart_append _ ['\n'] _ _).mpr ⟨noStart_of_head_not_mem '<' _ _ _ (by decide),
      (noStart_append _ _ _ _).mpr ⟨h1, noStart_of_head_not_mem '<' _ _ _ (by decide)⟩⟩
  · unfold historyEntries
    rw [hsplit]
    cases hx : env.timeString rd.LastBuildStartTime ++ ": ".toList ++ links with
    | nil => exact absurd hx hne
    | cons c cs => rfl

/-- Witness of `createHistoryUnicode_first`: the sample job and the empty
comment. -/
theorem createHistoryUnicode_first_witness :
    ∃ cur, currentUnicode sampleEnv sampleRepoData "TestA".toList = some cur
      ∧ createHistoryUnicode sampleEnv sampleRepoData [] "TestA".toList
          = some (historyPattern ('\n' :: (cur ++ ['\n'])))
      ∧ reHistory (historyPattern ('\n' :: (cur ++ ['\n']))) = some ('\n' :: (cur ++ ['\n']))
      ∧ stringsSplit '\n' ('\n' :: (cur ++ ['\n'])) = [[], cur, []]
      ∧ historyEntries ('\n' :: (cur ++ ['\n'])) = [cur] :=
  createHistoryUnicode_first sampleEnv sampleRepoData [] "TestA".toList (by rfl) (by decide)
    (by decide)
    (fun t => by
      have h1 : '\n' ∉ "time ".toList := by decide
      show '\n' ∉ "time ".toList ++ fmtInt t
      simp only [List.mem_append, not_or]
      exact ⟨h1, newline_not_mem_fmtInt t⟩)
    (fun t => by
      intro hin
      obtain ⟨a, b, hab⟩ := hin
      have h2 : '<' ∈ "time ".toList ++ fmtInt t := by
        show '<' ∈ sampleEnv.timeString t
        rw [← hab, afterHistoryToken_cons]
        simp
      have h1 : '<' ∉ "time ".toList := by decide
      simp only [List.mem_append] at h2
      rcases h2 with h2 | h2
      · exact h1 h2
      · exact not_mem_fmtInt t '<' (by decide) h2)
    (by decide)

/-- C23 as stated fails on job names that the claim does not exclude. For
the job name `<!------End of History------>` and the empty comment, the
output of `createHistoryUnicode` is `historyPattern` of the line of the
current cycle between two line breaks, but `reHistory` captures from it only
the text up to the job name in the first link. For the job name `a⏎b` the
line of the current cycle spans two lines, so the block does not split into
one entry and an empty trailing line. -/
theorem createHistoryUnicode_first_counterexample :
    reHistory [] = none
    ∧ createHistoryUnicode sampleEnv sampleRepoDataToken [] "TestA".toList
        = some (historyPattern ('\n' :: (sampleTokenLine ++ ['\n'])))
    ∧ reHistory (historyPattern ('\n' :: (sampleTokenLine ++ ['\n'])))
        = some ("\ntime 1000:  [&#10004;](".toList ++ jobLogsURL)
    ∧ "\ntime 1000:  [&#10004;](".toList ++ jobLogsURL ≠ '\n' :: (sampleTokenLine ++ ['\n'])
    ∧ currentUnicode sampleEnv sampleRepoDataBroken "TestA".toList = some sampleBrokenLine
    ∧ stringsSplit '\n' ('\n' :: (sampleBrokenLine ++ ['\n'])) ≠ [[], sampleBrokenLine, []] := by
  refine ⟨?_, ?_, ?_, ?_, ?_, ?_⟩
  · rfl
  · decide
  · decide
  · decide
  · decide
  · decide

/-- C21, the code at a failing input: a build that holds the reports of the
repositories `client` and `homebrew-client`. For the repository `client`,
`getReportPaths` returns both reports: the path of the second one ends with
`client/flaky-tests.json`, the suffix that the code tests for, but its
parent directory is `homebrew-client`. -/
theorem getReportPaths_other_repo :
    getReportPaths (sampleBuild 1000) "client".toList
      = ["artifacts/client/flaky-tests.json".toList,
         "artifacts/homebrew-client/flaky-tests.json".toList]
    ∧ pathJoin ["client".toList, filename] = "client/flaky-tests.json".toList := by
  constructor
  · decide
  · decide

/-- C22, the code at a failing input: the latest build of the job, build 7,
holds a report of the repository `client` and started ten days before the
current time. `getLatestValidBuild` returns build 7 without error, from the
check of the latest build, which does not look at the start time; the loop
over the older builds rejects the same build as outdated. -/
theorem getLatestValidBuild_stale_latest :
    getLatestValidBuild sampleJob "client".toList sampleNow = .ok 7
    ∧ (sampleJob.NewBuild 7).GetStartTime = .ok 1000
    ∧ timeSince sampleNow 1000 = 10 * 24 * 3600 * 1000000000
    ∧ ¬ timeSince sampleNow 1000 < maxElapsedTime
    ∧ olderValidBuild sampleJob "client".toList sampleNow (sortReverse sampleJob.GetBuildIDs)
        = .error (.outdated (10 * 24 * 3600 * 1000000000)) := by
  refine ⟨?_, ?_, ?_, ?_, ?_⟩
  · rfl
  · rfl
  · decide
  · decide
  · rfl

/-- C28 (as amended): for names without the sentinel token, where the test
name and the repository name also hold no line break (the status string, the
time stamp of Go and the rendered rate hold neither, and the result slice
covers the builds). For a Flaky test without an index entry, `processTest`
makes the calls of one `createNewIssue` with the body built from the
identity of the test and with the text of `createCommentForTest`, the first
history block and the identity marker as initial comment; for a bulk event
`processGithubIssueForRepo` makes the calls of one `createNewIssue` with the
body and the initial comment built from the bulk identity. In both cases
`reTestIdentifier` captures the same identity from the body and from the
initial comment, so that the test of `findExistingComment` accepts the
comment, written by the tool's own account, for that identity. -/
theorem created_ticket_recoverable (env : Env) (gi : GithubIssue) (rd rdBulk : RepoData)
    (flakyIssuesMap : IssuesMap) (dryrun : Bool) (log : List Call)
    (st : List Str × List Str) (test : Str) (ts : TestStat)
    (htime : ∀ t, ¬ testIdentifierToken <:+: env.timeString t)
    (htime_nl : ∀ t, '\n' ∉ env.timeString t)
    (hstatus : ∀ ts, ¬ testIdentifierToken <:+: env.getTestStatus ts)
    (hrate : ¬ testIdentifierToken <:+: env.flakyRatePercent rdBulk)
    (hrate_nl : '\n' ∉ env.flakyRatePercent rdBulk)
    (htest : ¬ testIdentifierToken <:+: test) (htest_nl : '\n' ∉ test)
    (hrepo : ¬ testIdentifierToken <:+: rd.Config.Repo) (hrepo_nl : '\n' ∉ rd.Config.Repo)
    (hname : ¬ testIdentifierToken <:+: rd.Config.Name)
    (hts : rd.TestStats.lookup test = some ts)
    (hflaky : env.isFlaky ts = true)
    (hlen : rd.BuildIDs.length ≤ (env.getResultSliceForTest rd test).length)
    (hnew : flakyIssuesMap.lookup (getIdentityForTest test rd.Config.Repo) = none)
    (hbulk_repo : ¬ testIdentifierToken <:+: rdBulk.Config.Repo)
    (hbulk_repo_nl : '\n' ∉ rdBulk.Config.Repo)
    (hbulk_issue : rdBulk.Config.IssueRepo ≠ [])
    (hbulk_above : env.flakyRateAboveThreshold rdBulk = true)
    (hbulk_new : flakyIssuesMap.lookup (getBulkIssueIdentity env rdBulk) = none) :
    (∃ summary history,
      createCommentForTest env rd test = some summary
      ∧ createHistoryUnicode env rd [] test = some history
      ∧ (processTest env gi rd flakyIssuesMap dryrun st (test, ts) log).2
          = (createNewIssue env gi env.org rd.Config.IssueRepo ("[flaky] ".toList ++ test)
              (issueBodyTemplate test rd.Config.Repo
                (testIdentifierPattern (getIdentityForTest test rd.Config.Repo)))
              (summary ++ history ++ "\n<!--".toList
                ++ testIdentifierPattern (getIdentityForTest test rd.Config.Repo)
                ++ "-->".toList)
              dryrun log).2
      ∧ reTestIdentifier (issueBodyTemplate test rd.Config.Repo
            (testIdentifierPattern (getIdentityForTest test rd.Config.Repo)))
          = some (getIdentityForTest test rd.Config.Repo)
      ∧ reTestIdentifier (summary ++ history ++ "\n<!--".toList
            ++ testIdentifierPattern (getIdentityForTest test rd.Config.Repo) ++ "-->".toList)
          = some (getIdentityForTest test rd.Config.Repo)
      ∧ ∀ c : IssueComment, c.User.ID = gi.user.ID →
          c.Body = summary ++ history ++ "\n<!--".toList
            ++ testIdentifierPattern (getIdentityForTest test rd.Config.Repo) ++ "-->".toList →
          isAutoComment gi (getIdentityForTest test rd.Config.Repo) c = true)
    ∧ ((processGithubIssueForRepo env gi rdBulk flakyIssuesMap dryrun log).2
          = (createNewIssue env gi env.org rdBulk.Config.IssueRepo
              ("[flaky] ".toList ++ getBulkIssueIdentity env rdBulk)
              (issueBodyTemplate (getBulkIssueIdentity env rdBulk) rdBulk.Config.Repo
                (testIdentifierPattern (getBulkIssueIdentity env rdBulk)))
              ("Bulk issue tracking: ".toList ++ getBulkIssueIdentity env rdBulk
                ++ "\n<!--".toList ++ testIdentifierPattern (getBulkIssueIdentity env rdBulk)
                ++ "-->".toList)
              dryrun log).2
      ∧ reTestIdentifier (issueBodyTemplate (getBulkIssueIdentity env rdBulk)
            rdBulk.Config.Repo (testIdentifierPattern (getBulkIssueIdentity env rdBulk)))
          = some (getBulkIssueIdentity env rdBulk)
      ∧ reTestIdentifier ("Bulk issue tracking: ".toList ++ getBulkIssueIdentity env rdBulk
            ++ "\n<!--".toList ++ testIdentifierPattern (getBulkIssueIdentity env rdBulk)
            ++ "-->".toList)
          = some (getBulkIssueIdentity env rdBulk)
      ∧ ∀ c : IssueComment, c.User.ID = gi.user.ID →
          c.Body = "Bulk issue tracking: ".toList ++ getBulkIssueIdentity env rdBulk
            ++ "\n<!--".toList ++ testIdentifierPattern (getBulkIssueIdentity env rdBulk)
            ++ "-->".toList →
          isAutoComment gi (getBulkIssueIdentity env rdBulk) c = true) := by
  obtain ⟨summary, hsummary⟩ := createCommentForTest_returns env rd test ts hts
  obtain ⟨history, hhistory⟩ := createHistoryUnicode_returns env rd [] test hlen
  have hcomment := reTestIdentifier_test_comment env rd test summary history htime hstatus
    htest htest_nl hrepo hrepo_nl hname hsummary hhistory
  have hbulk := reTestIdentifier_bulk_comment env rdBulk htime htime_nl hrate hrate_nl
    hbulk_repo hbulk_repo_nl
  refine ⟨⟨summary, history, hsummary, hhistory,
      processTest_create env gi rd flakyIssuesMap dryrun st test ts log summary history hflaky
        hsummary hhistory hnew,
      reTestIdentifier_test_body test rd.Config.Repo htest htest_nl hrepo hrepo_nl,
      hcomment, ?_⟩,
    processGithubIssueForRepo_create env gi rdBulk flakyIssuesMap dryrun log hbulk_issue
      hbulk_above hbulk_new,
    reTestIdentifier_bulk_body env rdBulk htime htime_nl hrate hrate_nl hbulk_repo
      hbulk_repo_nl,
    hbulk, ?_⟩
  · intro c huser hbody
    exact isAutoComment_of_body gi _ c huser (by rw [hbody]; exact hcomment)
  · intro c huser hbody
    exact isAutoComment_of_body gi _ c huser (by rw [hbody]; exact hbulk)

/-- Witness of `created_ticket_recoverable`: the flaky test `TestA` of
`sampleRepoData` and the bulk event of `sampleRepoDataBulk`, with an empty
index. -/
theorem created_ticket_recoverable_witness :
    (∃ summary history,
      createCommentForTest sampleEnv sampleRepoData "TestA".toList = some summary
      ∧ createHistoryUnicode sampleEnv sampleRepoData [] "TestA".toList = some history
      ∧ (processTest sampleEnv sampleGI sampleRepoData [] false ([], [])
            ("TestA".toList, sampleFlaky) []).2
          = (createNewIssue sampleEnv sampleGI sampleEnv.org sampleRepoData.Config.IssueRepo
              ("[flaky] ".toList ++ "TestA".toList)
              (issueBodyTemplate "TestA".toList sampleRepoData.Config.Repo
                (testIdentifierPattern
                  (getIdentityForTest "TestA".toList sampleRepoData.Config.Repo)))
              (summary ++ history ++ "\n<!--".toList
                ++ testIdentifierPattern
                  (getIdentityForTest "TestA".toList sampleRepoData.Config.Repo)
                ++ "-->".toList)
              false []).2
      ∧ reTestIdentifier (issueBodyTemplate "TestA".toList sampleRepoData.Config.Repo
            (testIdentifierPattern
              (getIdentityForTest "TestA".toList sampleRepoData.Config.Repo)))
          = some (getIdentityForTest "TestA".toList sampleRepoData.Config.Repo)
      ∧ reTestIdentifier (summary ++ history ++ "\n<!--".toList
            ++ testIdentifierPattern
              (getIdentityForTest "TestA".toList sampleRepoData.Config.Repo)
            ++ "-->".toList)
          = some (getIdentityForTest "TestA".toList sampleRepoData.Config.Repo)
      ∧ ∀ c : IssueComment, c.User.ID = sampleGI.user.ID →
          c.Body = summary ++ history ++ "\n<!--".toList
            ++ testIdentifierPattern
              (getIdentityForTest "TestA".toList sampleRepoData.Config.Repo)
            ++ "-->".toList →
          isAutoComment sampleGI
            (getIdentityForTest "TestA".toList sampleRepoData.Config.Repo) c = true)
    ∧ ((processGithubIssueForRepo sampleEnv sampleGI sampleRepoDataBulk [] false []).2
          = (createNewIssue sampleEnv sampleGI sampleEnv.org sampleRepoDataBulk.Config.IssueRepo
              ("[flaky] ".toList ++ getBulkIssueIdentity sampleEnv sampleRepoDataBulk)
              (issueBodyTemplate (getBulkIssueIdentity sampleEnv sampleRepoDataBulk)
                sampleRepoDataBulk.Config.Repo
                (testIdentifierPattern (getBulkIssueIdentity sampleEnv sampleRepoDataBulk)))
              ("Bulk issue tracking: ".toList ++ getBulkIssueIdentity sampleEnv sampleRepoDataBulk
                ++ "\n<!--".toList
                ++ testIdentifierPattern (getBulkIssueIdentity sampleEnv sampleRepoDataBulk)
                ++ "-->".toList)
              false []).2
      ∧ reTestIdentifier (issueBodyTemplate (getBulkIssueIdentity sampleEnv sampleRepoDataBulk)
            sampleRepoDataBulk.Config.Repo
            (testIdentifierPattern (getBulkIssueIdentity sampleEnv sampleRepoDataBulk)))
          = some (getBulkIssueIdentity sampleEnv sampleRepoDataBulk)
      ∧ reTestIdentifier ("Bulk issue tracking: ".toList
            ++ getBulkIssueIdentity sampleEnv sampleRepoDataBulk ++ "\n<!--".toList
            ++ testIdentifierPattern (getBulkIssueIdentity sampleEnv sampleRepoDataBulk)
            ++ "-->".toList)
          = some (getBulkIssueIdentity sampleEnv sampleRepoDataBulk)
      ∧ ∀ c : IssueComment, c.User.ID = sampleGI.user.ID →
          c.Body = "Bulk issue tracking: ".toList
            ++ getBulkIssueIdentity sampleEnv sampleRepoDataBulk ++ "\n<!--".toList
            ++ testIdentifierPattern (getBulkIssueIdentity sampleEnv sampleRepoDataBulk)
            ++ "-->".toList →
          isAutoComment sampleGI (getBulkIssueIdentity sampleEnv sampleRepoDataBulk) c = true) :=
  created_ticket_recoverable sampleEnv sampleGI sampleRepoData sampleRepoDataBulk [] false []
    ([], []) "TestA".toList sampleFlaky sampleEnv_time_token sampleEnv_time_newline
    sampleEnv_status_token (by decide) (by decide) (by decide) (by decide) (by decide)
    (by decide) (by decide) (by rfl) (by rfl) (by decide) (by rfl) (by decide) (by decide)
    (by decide) (by rfl) (by rfl)

/-- C28 as stated fails: the flaky test `a⏎b` (with a line break, without
the sentinel token) of `sampleRepoDataBrokenTest` has no index entry, and
`processGithubIssueForRepo` creates a ticket for it with the body
`sampleBrokenBody` and the initial comment `sampleBrokenComment`;
`reTestIdentifier` captures no identity from either, so the test of
`findExistingComment` rejects the comment for every identity. -/
theorem created_ticket_recoverable_counterexample :
    (¬ testIdentifierToken <:+: "a\nb".toList
      ∧ ¬ testIdentifierToken <:+: sampleRepoDataBrokenTest.Config.Repo
      ∧ ¬ testIdentifierToken <:+: sampleRepoDataBrokenTest.Config.Name)
    ∧ callsMade (processGithubIssueForRepo sampleEnv sampleGI sampleRepoDataBrokenTest []
          false) []
        = [Call.CreateIssue "knative".toList "serving".toList "[flaky] a\nb".toList
            sampleBrokenBody,
          Call.CreateComment "knative".toList "serving".toList 1 sampleBrokenComment,
          Call.AddLabelsToIssue "knative".toList "serving".toList 1 [flakyLabel]]
    ∧ reTestIdentifier sampleBrokenBody = none
    ∧ reTestIdentifier sampleBrokenComment = none
    ∧ ∀ identity, isAutoComment sampleGI identity
        (sampleComment 1 7 (some 0) sampleBrokenComment) = false := by
  have hnone : reTestIdentifier sampleBrokenComment = none := by decide
  refine ⟨by decide, by decide, by decide, hnone, ?_⟩
  intro identity
  show (decide ((7 : Int) = 7) && decide (reTestIdentifier sampleBrokenComment = some identity))
    = false
  rw [hnone]
  simp

end FlakyReporter
